import Mathlib

/-! ChirpStack network server: MAC-command handlers, channel reconfiguration, key envelopes.

A shallow embedding of

* `internal/maccommand/new_channel.go` (`RequestNewChannels`, `handleNewChannelAns`),
* `internal/maccommand/rekey.go` (`handleRekeyInd`),
* `internal/channels/channels.go` (`HandleChannelReconfigure`),
* `internal/uplink/join/key_wrap.go` (`unwrapNSKeyEnvelope`),
* `internal/uplink/collect.go` (`collectAndCallOnce` and its helpers),
* `internal/storage/device_profile.go` (`GetAndCacheDeviceProfile` and its helpers),

followed by the properties proved about them.

Conventions.  Go `int` values are `Int`; the unsigned fixed-width values
(`uint8`, `uint32`, bytes) are `Nat`, and every narrowing conversion of the source
is written out as a remainder.  The entries of a Go map are an association list in which
the first binding of a key is the key's value; a map that is only read is given by its
entries (a nil map reads as an empty one), a map that is written is an `Option`, `none`
being the nil map, on which an assignment panics.  A Go slice is a `List`; a run-time
panic is the `Except.error` of a `GoPanic`.  The only arithmetic on a Go `int` in the code
below is the increment of an error counter, which wraps around at 64 bits.  A pointer
that the code dereferences without a test (the device session, the payload of a
mac-command after its type assertion) is given by the value it points to.
-/

namespace ChirpStack

/-! ## Go primitives -/

/-- Run-time panics of the Go code modelled here. -/
inductive GoPanic where
  | sliceBoundsOutOfRange
  | indexOutOfRange
  /-- "assignment to entry in nil map" -/
  | assignmentToEntryInNilMap
  deriving DecidableEq, Repr

deriving instance DecidableEq for Except

/-- The conversion `uint8(x)` of a Go `int`: the value modulo `2^8`. -/
def toUint8 (x : Int) : Nat := (x % 256).toNat

/-- The conversion `uint32(x)` of an unsigned value: the value modulo `2^32`. -/
def toUint32 (x : Nat) : Nat := x % 4294967296

/-- The conversion of an integer to `int64` (two's complement wrap-around); a Go `int`
has 64 bits on the platforms the server is built for. -/
def wrapInt64 (x : Int) : Int :=
  (x + 9223372036854775808) % 18446744073709551616 - 9223372036854775808

/-- The Go read `v, ok := m[k]`: `none` when `k` is not a key of `m`. -/
def mapGet {κ ν : Type} [DecidableEq κ] : List (κ × ν) → κ → Option ν
  | [], _ => none
  | (k', v) :: m, k => if k' = k then some v else mapGet m k

/-- The keys of a Go map, each once (the order is that of first occurrence; Go leaves
the iteration order open, and the code below only uses the keys after sorting them). -/
def mapKeys {κ ν : Type} [DecidableEq κ] (m : List (κ × ν)) : List κ :=
  (m.map Prod.fst).dedup

/-- The Go statement `delete(m, k)`. -/
def mapDelete {κ ν : Type} [DecidableEq κ] : List (κ × ν) → κ → List (κ × ν)
  | [], _ => []
  | (k', v) :: m, k => if k' = k then mapDelete m k else (k', v) :: mapDelete m k

/-- The Go statement `m[k] = v`. -/
def mapSet {κ ν : Type} [DecidableEq κ] (m : List (κ × ν)) (k : κ) (v : ν) : List (κ × ν) :=
  (k, v) :: mapDelete m k

/-- The entries of a map value that may be nil (`none`): a nil map reads as an empty
map (`len` 0, no key, `range` over nothing). -/
def mapEntries {κ ν : Type} (m : Option (List (κ × ν))) : List (κ × ν) :=
  m.getD []

/-- The call `sort.Ints(l)`: the ascending rearrangement of `l`. -/
def sortInts (l : List Int) : List Int :=
  l.insertionSort (fun a b => a ≤ b)

/-- The slice expression `s[0:hi]`, which panics when `hi` is negative or exceeds the
capacity; the capacity is at least the length, and the only use below has `hi < len(s)`. -/
def sliceTo {α : Type} (s : List α) (hi : Int) : Except GoPanic (List α) :=
  if 0 ≤ hi ∧ hi ≤ (s.length : Int) then .ok (s.take hi.toNat)
  else .error GoPanic.sliceBoundsOutOfRange

/-! ## Data model (`lorawan`, `lorawan/band`, `storage`) -/

/-- A `lorawan.CID` is one byte. -/
abbrev CID := Nat

/-- A `lorawan.EUI64`, as the 64-bit number it encodes. -/
abbrev EUI64 := Nat

/-- CID of `LinkADRReq` (LoRaWAN: 0x03). -/
def LinkADRReq : CID := 0x03
/-- CID of `NewChannelReq` (LoRaWAN: 0x07). -/
def NewChannelReq : CID := 0x07
/-- CID of `NewChannelAns` (LoRaWAN: 0x07, answers share the CID of their request). -/
def NewChannelAns : CID := 0x07
/-- CID of `RekeyInd` (LoRaWAN: 0x0B). -/
def RekeyInd : CID := 0x0B
/-- CID of `RekeyConf` (LoRaWAN: 0x0B). -/
def RekeyConf : CID := 0x0B

/-- A `band.Channel`: `Frequency` is a `uint32` (it is assigned from
`NewChannelReqPayload.Freq` without conversion), `MinDR` and `MaxDR` are `int`.
The unexported fields of the library type are never read or written by the code
modelled here. -/
structure Channel where
  Frequency : Nat
  MinDR : Int
  MaxDR : Int
  deriving DecidableEq, Repr

/-- A `map[int]band.Channel`. -/
abbrev ChannelMap := List (Int × Channel)

/-- A `lorawan.NewChannelReqPayload`: `ChIndex`, `MinDR`, `MaxDR` are `uint8`,
`Freq` is `uint32`. -/
structure NewChannelReqPayload where
  ChIndex : Nat
  Freq : Nat
  MinDR : Nat
  MaxDR : Nat
  deriving DecidableEq, Repr

/-- A `lorawan.NewChannelAnsPayload`. -/
structure NewChannelAnsPayload where
  ChannelFrequencyOK : Bool
  DataRateRangeOK : Bool
  deriving DecidableEq, Repr

/-- A `lorawan.Version` (`Minor` is a `uint8`). -/
structure Version where
  Minor : Nat
  deriving DecidableEq, Repr

/-- A `lorawan.RekeyIndPayload`. -/
structure RekeyIndPayload where
  DevLoRaWANVersion : Version
  deriving DecidableEq, Repr

/-- A `lorawan.RekeyConfPayload`. -/
structure RekeyConfPayload where
  ServLoRaWANVersion : Version
  deriving DecidableEq, Repr

/-- A `lorawan.Redundancy` (both fields `uint8`). -/
structure Redundancy where
  ChMaskCntl : Nat
  NbRep : Nat
  deriving DecidableEq, Repr

/-- A `lorawan.LinkADRReqPayload` (`DataRate`, `TXPower` are `uint8`, `ChMask` is the
16-entry channel mask). -/
structure LinkADRReqPayload where
  DataRate : Nat
  TXPower : Nat
  ChMask : List Bool
  Redundancy : Redundancy
  deriving DecidableEq, Repr

/-- The dynamic type of a `lorawan.MACCommandPayload` interface value, as far as the
handlers modelled here tell payloads apart; `other` is any other payload, `nil` included. -/
inductive MACCommandPayload where
  | newChannelReq (pl : NewChannelReqPayload)
  | newChannelAns (pl : NewChannelAnsPayload)
  | rekeyInd (pl : RekeyIndPayload)
  | rekeyConf (pl : RekeyConfPayload)
  | linkADRReq (pl : LinkADRReqPayload)
  | other
  deriving DecidableEq, Repr

/-- A `lorawan.MACCommand`. -/
structure MACCommand where
  CID : CID
  Payload : MACCommandPayload
  deriving DecidableEq, Repr

/-- A `storage.MACCommandBlock`, with the fields the code modelled here sets. -/
structure MACCommandBlock where
  CID : CID
  MACCommands : List MACCommand
  deriving DecidableEq, Repr

/-- A `storage.DeviceSession`, with the fields the code modelled here reads or writes:
`EnabledUplinkChannels` is a `[]int`, `ExtraUplinkChannels` a `map[int]band.Channel`,
`MACCommandErrorCount` a `map[lorawan.CID]int`, `TXPowerIndex` and `DR` are `int`,
`NbTrans` is a `uint8`.  For the two maps `none` is the nil map, as in the zero value
`storage.DeviceSession{}`, and `some m` the allocated map with the entries `m`. -/
structure DeviceSession where
  DevEUI : EUI64
  EnabledUplinkChannels : List Int
  ExtraUplinkChannels : Option ChannelMap
  MACCommandErrorCount : Option (List (CID × Int))
  TXPowerIndex : Int
  DR : Int
  NbTrans : Nat
  deriving DecidableEq, Repr

/-- The errors returned by the handlers modelled here, one constructor per message. -/
inductive HandlerError where
  /-- "at least 1 mac-command expected, got none" -/
  | noMACCommand
  /-- "expected pending mac-command" -/
  | noPendingMACCommand
  /-- "received %d mac-command answers, but requested %d" -/
  | countMismatch (received requested : Nat)
  /-- "expected *lorawan.NewChannelAnsPayload, got %T" -/
  | expectedNewChannelAnsPayload
  /-- "expected *lorawan.NewChannelReqPayload, got %T" -/
  | expectedNewChannelReqPayload
  /-- "exactly one mac-command expected, got %d" -/
  | exactlyOneExpected (got : Nat)
  /-- "expected *lorawan.RekeyIndPayload, got %T" -/
  | expectedRekeyIndPayload
  deriving DecidableEq, Repr

/-! ## `RequestNewChannels` -/

/-- The Go read `m[i]` of a `map[int]band.Channel`: the zero `Channel` when `i` is not
a key of `m`. -/
def mapIndex (m : ChannelMap) (i : Int) : Channel :=
  (mapGet m i).getD ⟨0, 0, 0⟩

/-- One turn of the loop `for _, i := range wantedChannelNumbers` of
`RequestNewChannels`: the command for `i` is appended to `out` when the current
channels have no entry `i`, or one with another frequency, MinDR or MaxDR. -/
def requestNewChannelsStep (currentChannels wantedChannels : ChannelMap)
    (out : List MACCommand) (i : Int) : List MACCommand :=
  let wanted := mapIndex wantedChannels i
  let emit := out ++ [{ CID := NewChannelReq,
                        Payload := .newChannelReq
                          { ChIndex := toUint8 i
                            Freq := toUint32 wanted.Frequency
                            MinDR := toUint8 wanted.MinDR
                            MaxDR := toUint8 wanted.MaxDR } }]
  match mapGet currentChannels i with
  | none => emit
  | some current =>
    if current.Frequency ≠ wanted.Frequency ∨ current.MinDR ≠ wanted.MinDR
        ∨ current.MaxDR ≠ wanted.MaxDR then emit
    else out

/-- The function `RequestNewChannels` of `internal/maccommand/new_channel.go`.
The result `none` is the `nil` block. -/
def RequestNewChannels (_devEUI : EUI64) (maxChannels : Int)
    (currentChannels wantedChannels : ChannelMap) :
    Except GoPanic (Option MACCommandBlock) := do
  let wantedChannelNumbers := sortInts (mapKeys wantedChannels)
  let out := wantedChannelNumbers.foldl
    (requestNewChannelsStep currentChannels wantedChannels) []
  let out ← if (out.length : Int) > maxChannels then sliceTo out maxChannels else pure out
  if out.length = 0 then
    return none
  return some { CID := NewChannelReq, MACCommands := out }

/-! ## `handleNewChannelAns` -/

/-- The Go read `ds.MACCommandErrorCount[cid]`: 0 when the map is nil or has no entry
`cid`. -/
def errorCount (ds : DeviceSession) (cid : CID) : Int :=
  (mapGet (mapEntries ds.MACCommandErrorCount) cid).getD 0

/-- The branch `pl.ChannelFrequencyOK && pl.DataRateRangeOK` of the loop body of
`handleNewChannelAns`: the error counter is deleted (nothing happens on a nil map), the
channel is stored, which panics when `ExtraUplinkChannels` is the nil map, and the index
is appended to the enabled channels unless the scan finds it there.  The session is
updated in place through the pointer, so a panic leaves it as it is at that point: the
error holds the panic and that session. -/
def newChannelAcknowledged (ds : DeviceSession) (pendingPL : NewChannelReqPayload) :
    Except (GoPanic × DeviceSession) DeviceSession :=
  let ds := { ds with
    MACCommandErrorCount := ds.MACCommandErrorCount.map (fun m => mapDelete m NewChannelAns) }
  match ds.ExtraUplinkChannels with
  | none => .error (GoPanic.assignmentToEntryInNilMap, ds)
  | some extraUplinkChannels =>
    let ds := { ds with
      ExtraUplinkChannels := some (mapSet extraUplinkChannels (pendingPL.ChIndex : Int)
        { Frequency := pendingPL.Freq
          MinDR := (pendingPL.MinDR : Int)
          MaxDR := (pendingPL.MaxDR : Int) }) }
    let found := ds.EnabledUplinkChannels.foldl
      (fun found i => if i = (pendingPL.ChIndex : Int) then true else found) false
    if !found then
      .ok { ds with
            EnabledUplinkChannels := ds.EnabledUplinkChannels ++ [(pendingPL.ChIndex : Int)] }
    else .ok ds

/-- The `else` branch of the loop body of `handleNewChannelAns`:
`ds.MACCommandErrorCount[lorawan.NewChannelAns]++`.  The read gives 0 for a missing entry;
the sum is a Go `int` and wraps around; the assignment panics when `MACCommandErrorCount`
is the nil map. -/
def newChannelNotAcknowledged (ds : DeviceSession) :
    Except (GoPanic × DeviceSession) DeviceSession :=
  match ds.MACCommandErrorCount with
  | none => .error (GoPanic.assignmentToEntryInNilMap, ds)
  | some macCommandErrorCount =>
    .ok { ds with
          MACCommandErrorCount := some (mapSet macCommandErrorCount NewChannelAns
            (wrapInt64 ((mapGet macCommandErrorCount NewChannelAns).getD 0 + 1))) }

/-- The loop `for i := range block.MACCommands` of `handleNewChannelAns`, on the
commands of the answer block and of the pending block from position `i` on.  The result
is the device session as the loop leaves it and the error it returns, if any; reading
`pending.MACCommands[i]` past the end panics, and so does an assignment to a nil map. -/
def handleNewChannelAnsLoop (ds : DeviceSession) :
    List MACCommand → List MACCommand →
      Except (GoPanic × DeviceSession) (DeviceSession × Option HandlerError)
  | [], _ => .ok (ds, none)
  | answer :: answers, pendings =>
    match answer.Payload with
    | .newChannelAns pl =>
      match pendings with
      | [] => .error (GoPanic.indexOutOfRange, ds)
      | pending :: pendings =>
        match pending.Payload with
        | .newChannelReq pendingPL =>
          if pl.ChannelFrequencyOK && pl.DataRateRangeOK then
            match newChannelAcknowledged ds pendingPL with
            | .error p => .error p
            | .ok ds => handleNewChannelAnsLoop ds answers pendings
          else
            match newChannelNotAcknowledged ds with
            | .error p => .error p
            | .ok ds => handleNewChannelAnsLoop ds answers pendings
        | _ => .ok (ds, some HandlerError.expectedNewChannelReqPayload)
    | _ => .ok (ds, some HandlerError.expectedNewChannelAnsPayload)

/-- The function `handleNewChannelAns` of `internal/maccommand/new_channel.go`.  The
device session is passed by pointer and updated in place: the result holds the session
after the call, next to the returned blocks (`[]` is `nil`) or error, and a panic holds
the session as it is at the panic.  `pending = none` is the `nil` pointer. -/
def handleNewChannelAns (ds : DeviceSession) (block : MACCommandBlock)
    (pending : Option MACCommandBlock) :
    Except (GoPanic × DeviceSession)
      (DeviceSession × Except HandlerError (List MACCommandBlock)) :=
  if block.MACCommands.length = 0 then
    .ok (ds, .error HandlerError.noMACCommand)
  else
    match pending with
    | none => .ok (ds, .error HandlerError.noPendingMACCommand)
    | some pending =>
      if pending.MACCommands.length = 0 then
        .ok (ds, .error HandlerError.noPendingMACCommand)
      else if block.MACCommands.length ≠ pending.MACCommands.length then
        .ok (ds, .error (HandlerError.countMismatch block.MACCommands.length
          pending.MACCommands.length))
      else
        match handleNewChannelAnsLoop ds block.MACCommands pending.MACCommands with
        | .error p => .error p
        | .ok (ds, some err) => .ok (ds, .error err)
        | .ok (ds, none) => .ok (ds, .ok [])

/-! ## `handleRekeyInd` -/

/-- The constant `servLoRaWANVersionMinor` of `internal/maccommand/rekey.go` (a `uint8`). -/
def servLoRaWANVersionMinor : Nat := 1

/-- The function `handleRekeyInd` of `internal/maccommand/rekey.go`.  The device session
is only read (for the log line), so it is not returned.  `block.MACCommands[0]` is read
after the length test and cannot be out of range. -/
def handleRekeyInd (_ds : DeviceSession) (block : MACCommandBlock) :
    Except HandlerError (List MACCommandBlock) :=
  if block.MACCommands.length ≠ 1 then
    .error (HandlerError.exactlyOneExpected block.MACCommands.length)
  else
    match block.MACCommands.head? with
    | none => .error (HandlerError.exactlyOneExpected 0)
    | some cmd =>
      match cmd.Payload with
      | .rekeyInd pl =>
        let respPL : RekeyConfPayload :=
          { ServLoRaWANVersion := { Minor := servLoRaWANVersionMinor } }
        let respPL : RekeyConfPayload :=
          if servLoRaWANVersionMinor > pl.DevLoRaWANVersion.Minor then
            { respPL with ServLoRaWANVersion := { Minor := pl.DevLoRaWANVersion.Minor } }
          else respPL
        .ok [{ CID := RekeyConf
               MACCommands := [{ CID := RekeyConf, Payload := .rekeyConf respPL }] }]
      | _ => .error HandlerError.expectedRekeyIndPayload

/-! ## `HandleChannelReconfigure` -/

/-- The assignment `s[i] = f(s[i])` to an element of a slice (`i` is in range at every
use below). -/
def sliceModify {α : Type} : List α → Nat → (α → α) → List α
  | [], _, _ => []
  | a :: s, 0, f => f a :: s
  | a :: s, i + 1, f => a :: sliceModify s i f

/-- The function `HandleChannelReconfigure` of `internal/channels/channels.go`.  The
band's `GetLinkADRReqPayloadsForEnabledUplinkChannelIndices` belongs to the regional
parameter library and is the parameter `getLinkADRReqPayloads`.  The returned error is
always `nil`; `[]` is the `nil` slice of blocks. -/
def HandleChannelReconfigure (getLinkADRReqPayloads : List Int → List LinkADRReqPayload)
    (ds : DeviceSession) : Except HandlerError (List MACCommandBlock) :=
  let payloads := getLinkADRReqPayloads ds.EnabledUplinkChannels
  if payloads.length = 0 then
    .ok []
  else
    let payloads := sliceModify payloads (payloads.length - 1)
      (fun p => { p with TXPower := toUint8 ds.TXPowerIndex })
    let payloads := sliceModify payloads (payloads.length - 1)
      (fun p => { p with DataRate := toUint8 ds.DR })
    let payloads := sliceModify payloads (payloads.length - 1)
      (fun p => { p with Redundancy := { p.Redundancy with NbRep := ds.NbTrans } })
    let block : MACCommandBlock := { CID := LinkADRReq, MACCommands := [] }
    let block := payloads.foldl
      (fun (block : MACCommandBlock) p =>
        { block with
          MACCommands := block.MACCommands ++ [{ CID := LinkADRReq, Payload := .linkADRReq p }] })
      block
    .ok [block]

/-! ## `unwrapNSKeyEnvelope` -/

/-- A `backend.KeyEnvelope`: `AESKey` is a byte slice of any length. -/
structure KeyEnvelope where
  KEKLabel : String
  AESKey : List Nat
  deriving DecidableEq, Repr

/-- A `lorawan.AES128Key`, the array `[16]byte`. -/
abbrev AES128Key := List Nat

/-- The errors of `unwrapNSKeyEnvelope`; `ε` is the error type of the key unwrapping. -/
inductive UnwrapError (ε : Type) where
  /-- "unknown kek label: %s" -/
  | unknownKEKLabel (label : String)
  /-- "unwrap error", wrapping the cause -/
  | unwrapError (cause : ε)
  deriving DecidableEq, Repr

/-- The built-in `copy(dst, src)`: the first `min(len(dst), len(src))` elements of `dst`
are overwritten with those of `src`; the result is `dst` after the call. -/
def goCopy {α : Type} (dst src : List α) : List α :=
  let n := min dst.length src.length
  src.take n ++ dst.drop n

/-- The function `unwrapNSKeyEnvelope` of `internal/uplink/join/key_wrap.go`.  The KEK
store `keks` (a package variable, `map[string][]byte`) and the method `ke.Unwrap` of the
`backend` library (RFC 3394 key unwrapping) are parameters. -/
def unwrapNSKeyEnvelope {ε : Type} (keks : List (String × List Nat))
    (unwrap : KeyEnvelope → List Nat → Except ε AES128Key) (ke : KeyEnvelope) :
    Except (UnwrapError ε) AES128Key :=
  if ke.KEKLabel = "" then
    let key : AES128Key := List.replicate 16 0
    let key := goCopy key ke.AESKey
    .ok key
  else
    match mapGet keks ke.KEKLabel with
    | none => .error (UnwrapError.unknownKEKLabel ke.KEKLabel)
    | some kek =>
      match unwrap ke kek with
      | .error err => .error (UnwrapError.unwrapError err)
      | .ok key => .ok key

/-! ## The cache (`storage.RedisClient()`)

The commands of the Redis client that the code below issues, as functions on the state
of the cache.  A key lives until its expiry instant; instants and durations are counts
of nanoseconds (`time.Duration`), `now` is the instant of the command.  Failures of the
connection to the cache are not modelled, and durations are not rounded to the
millisecond resolution of the cache. -/

/-- A `[]byte`. -/
abbrev Bytes := List Nat

/-- A `uuid.UUID`, as the 128-bit number it encodes. -/
abbrev UUID := Nat

/-- The keys built by `storage.GetRedisKey` from the templates `CollectKeyTempl`
(`lora:ns:rx:collect:%s:%s`), `CollectLockKeyTempl` (`lora:ns:rx:collect:%s:%s:lock`) and
`DeviceProfileKeyTempl` (`lora:ns:dp:%s`), each by its arguments; the hexadecimal strings
of `hex.EncodeToString` are given by the bytes they encode. -/
inductive RedisKey where
  | collect (txInfoHEX phyKey : Bytes)
  | collectLock (txInfoHEX phyKey : Bytes)
  | deviceProfile (id : UUID)
  deriving DecidableEq, Repr

/-- The state of the cache: the sets and the string values, each with its expiry instant
(`none`: the key does not expire). -/
structure Redis where
  sets : List (RedisKey × (List Bytes × Option Int))
  strings : List (RedisKey × (Bytes × Option Int))
  deriving DecidableEq, Repr

/-- A key with expiry instant `expireAt` exists at the instant `now`. -/
def redisLive (now : Int) : Option Int → Bool
  | none => true
  | some t => decide (now < t)

/-- The command `SADD key member`: the member is added to the set unless it is a member
already; a set that does not exist is created, without expiry. -/
def redisSAdd (now : Int) (r : Redis) (key : RedisKey) (member : Bytes) : Redis :=
  match mapGet r.sets key with
  | some (members, expireAt) =>
    if redisLive now expireAt then
      if member ∈ members then r
      else { r with sets := mapSet r.sets key (members ++ [member], expireAt) }
    else { r with sets := mapSet r.sets key ([member], none) }
  | none => { r with sets := mapSet r.sets key ([member], none) }

/-- The command `PEXPIRE key ttl` on a set: an existing set expires `ttl` from now. -/
def redisPExpire (now : Int) (r : Redis) (key : RedisKey) (ttl : Int) : Redis :=
  match mapGet r.sets key with
  | some (members, expireAt) =>
    if redisLive now expireAt then
      { r with sets := mapSet r.sets key (members, some (now + ttl)) }
    else r
  | none => r

/-- The command `SMEMBERS key`: the members of the set, none when it does not exist. -/
def redisSMembers (now : Int) (r : Redis) (key : RedisKey) : List Bytes :=
  match mapGet r.sets key with
  | some (members, expireAt) => if redisLive now expireAt then members else []
  | none => []

/-- The command `DEL key`. -/
def redisDel (r : Redis) (key : RedisKey) : Redis :=
  { sets := mapDelete r.sets key, strings := mapDelete r.strings key }

/-- The client call `SetNX(key, value, ttl)` with a positive `ttl` (set-if-absent): when
the key does not exist it is set, expiring `ttl` from now, and the result is `true`;
otherwise nothing changes and the result is `false`. -/
def redisSetNX (now : Int) (r : Redis) (key : RedisKey) (value : Bytes) (ttl : Int) :
    Redis × Bool :=
  let held :=
    match mapGet r.strings key with
    | some (_, expireAt) => redisLive now expireAt
    | none => false
  if held then (r, false)
  else ({ r with strings := mapSet r.strings key (value, some (now + ttl)) }, true)

/-- The client call `Get(key).Bytes()`: `none` is the reply `redis.Nil`. -/
def redisGet (now : Int) (r : Redis) (key : RedisKey) : Option Bytes :=
  match mapGet r.strings key with
  | some (value, expireAt) => if redisLive now expireAt then some value else none
  | none => none

/-- The client call `Set(key, value, ttl)`: with a positive `ttl` the key expires `ttl`
from now, otherwise it does not expire. -/
def redisSet (now : Int) (r : Redis) (key : RedisKey) (value : Bytes) (ttl : Int) : Redis :=
  { r with
    strings := mapSet r.strings key (value, if 0 < ttl then some (now + ttl) else none) }

/-! ## `collectAndCallOnce` (`internal/uplink/collect.go`) -/

/-- A `gw.UplinkTXInfo` (frequency and LoRa modulation parameters). -/
structure UplinkTXInfo where
  Frequency : Nat
  Bandwidth : Nat
  SpreadingFactor : Nat
  deriving DecidableEq, Repr

/-- A `gw.UplinkRXInfo` (gateway id and RSSI; the other fields are not read here). -/
structure UplinkRXInfo where
  GatewayId : Bytes
  Rssi : Int
  deriving DecidableEq, Repr

/-- A `gw.UplinkFrame`; `TxInfo` and `RxInfo` are pointers, `none` is `nil`. -/
structure UplinkFrame where
  PhyPayload : Bytes
  TxInfo : Option UplinkTXInfo
  RxInfo : Option UplinkRXInfo
  deriving DecidableEq, Repr

/-- A `lorawan.PHYPayload`, as its header byte, MAC payload bytes and 4-byte MIC. -/
structure PHYPayload where
  MHDR : Nat
  MACPayload : Bytes
  MIC : Bytes
  deriving DecidableEq, Repr

/-- A `models.RXPacket`, with the fields `collectAndCallOnce` writes; for the two maps
`none` is the `nil` map and `some []` the map made by `make`. -/
structure RXPacket where
  PHYPayload : PHYPayload
  TXInfo : Option UplinkTXInfo
  RXInfoSet : List UplinkRXInfo
  DR : Int
  GatewayIsPrivate : Option (List (EUI64 × Bool))
  GatewayServiceProfile : Option (List (EUI64 × UUID))
  deriving DecidableEq, Repr

/-- The zero value `var out models.RXPacket`. -/
def zeroRXPacket : RXPacket :=
  { PHYPayload := { MHDR := 0, MACPayload := [], MIC := [0, 0, 0, 0] }
    TXInfo := none
    RXInfoSet := []
    DR := 0
    GatewayIsPrivate := none
    GatewayServiceProfile := none }

/-- The functions of other packages that `collect.go` calls, parameters of the model;
`none` is a returned error.  `marshalTxInfo` is `proto.Marshal(rxPacket.TxInfo)`,
`marshalUplinkFrame` is `proto.Marshal(&rxPacket)`, `unmarshalUplinkFrame` is
`proto.Unmarshal(b, &uplinkFrame)`, `unmarshalPHYPayload` is `phy.UnmarshalBinary`, and
`getDataRateIndex` is `helpers.GetDataRateIndex(true, txInfo, band.Band())`. -/
structure CollectEnv where
  marshalTxInfo : Option UplinkTXInfo → Option Bytes
  marshalUplinkFrame : UplinkFrame → Option Bytes
  unmarshalUplinkFrame : Bytes → Option UplinkFrame
  unmarshalPHYPayload : Bytes → Option PHYPayload
  getDataRateIndex : UplinkTXInfo → Option Int

/-- The errors returned by `collectAndCallOnce`, one constructor per message. -/
inductive CollectError where
  /-- "marshal protobuf error" -/
  | marshalProtobuf
  /-- "marshal uplink frame error" -/
  | marshalUplinkFrame
  /-- "zero items in collect set" -/
  | zeroItems
  /-- "unmarshal uplink frame error" -/
  | unmarshalUplinkFrame
  /-- "unmarshal phypayload error" -/
  | unmarshalPHYPayload
  /-- "get data-rate index error" -/
  | getDataRateIndex
  deriving DecidableEq, Repr

/-- How a call of `collectAndCallOnce` ends: it returns `err` (`none` is `nil`) without
having invoked the callback, or it invokes the callback once, on `packet`, as its last
step and returns what the callback returns. -/
inductive CollectOutcome where
  | returned (err : Option CollectError)
  | callback (packet : RXPacket)
  deriving DecidableEq, Repr

/-- How the first part of `collectAndCallOnce` (up to the lock) ends: the call returns,
or it has acquired the lock and goes on to sleep and to collect the set `key`. -/
inductive CollectEntered where
  | returned (err : Option CollectError)
  | winner (key : RedisKey)
  deriving DecidableEq, Repr

/-- The constant `time.Millisecond`, in nanoseconds. -/
def millisecond : Int := 1000000

/-- The value `deduplicationTTL` that `collectAndCallOnce` (and, a second time,
`collectAndCallOnceLocked`) computes from the package variable `deduplicationDelay`. -/
def deduplicationTTL (deduplicationDelay : Int) : Int :=
  let deduplicationTTL := wrapInt64 (deduplicationDelay * 2)
  if deduplicationTTL < millisecond * 200 then millisecond * 200
  else deduplicationTTL

/-- The function `collectAndCallOncePut`: the transaction `SADD key b`, `PEXPIRE key ttl`. -/
def collectAndCallOncePut (env : CollectEnv) (now : Int) (r : Redis) (key : RedisKey)
    (ttl : Int) (rxPacket : UplinkFrame) : Except CollectError Redis :=
  match env.marshalUplinkFrame rxPacket with
  | none => .error CollectError.marshalUplinkFrame
  | some b => .ok (redisPExpire now (redisSAdd now r key b) key ttl)

/-- The function `collectAndCallOnceLocked`: it computes a `deduplicationTTL` of its own,
which it does not use, and sets the lock with the `ttl` it is given; the result is `true`
when the key was locked already.  The lock value is the string "lock". -/
def collectAndCallOnceLocked (deduplicationDelay : Int) (now : Int) (r : Redis)
    (key : RedisKey) (ttl : Int) : Redis × Bool :=
  let _deduplicationTTL := deduplicationTTL deduplicationDelay
  let res := redisSetNX now r key [108, 111, 99, 107] ttl
  (res.1, !res.2)

/-- The function `collectAndCallOnceCollect`: the pipeline `SMEMBERS key`, `DEL key`. -/
def collectAndCallOnceCollect (now : Int) (r : Redis) (key : RedisKey) :
    Redis × List Bytes :=
  let val := redisSMembers now r key
  (redisDel r key, val)

/-- The loop `for i, b := range payloads` of `collectAndCallOnce`, from index `i` on, with
the packet `out` built so far. -/
def collectAndCallOnceLoop (env : CollectEnv) :
    Nat → List Bytes → RXPacket → Except CollectError RXPacket
  | _, [], out => .ok out
  | i, b :: payloads, out =>
    match env.unmarshalUplinkFrame b with
    | none => .error CollectError.unmarshalUplinkFrame
    | some uplinkFrame =>
      match uplinkFrame.TxInfo with
      | none => collectAndCallOnceLoop env (i + 1) payloads out
      | some txInfo =>
        match uplinkFrame.RxInfo with
        | none => collectAndCallOnceLoop env (i + 1) payloads out
        | some rxInfo =>
          let first : Except CollectError RXPacket :=
            if i = 0 then
              match env.unmarshalPHYPayload uplinkFrame.PhyPayload with
              | none => .error CollectError.unmarshalPHYPayload
              | some phy =>
                match env.getDataRateIndex txInfo with
                | none => .error CollectError.getDataRateIndex
                | some dr => .ok { out with PHYPayload := phy, DR := dr }
            else .ok out
          match first with
          | .error err => .error err
          | .ok out =>
            collectAndCallOnceLoop env (i + 1) payloads
              { out with
                TXInfo := some txInfo
                RXInfoSet := out.RXInfoSet ++ [rxInfo]
                GatewayIsPrivate := some []
                GatewayServiceProfile := some [] }

/-- The part of `collectAndCallOnce` after the set has been read: the test for zero
items, the loop over the members and the call of the callback. -/
def collectAndCallOnceAssemble (env : CollectEnv) (payloads : List Bytes) : CollectOutcome :=
  if payloads.length = 0 then
    .returned (some CollectError.zeroItems)
  else
    match collectAndCallOnceLoop env 0 payloads zeroRXPacket with
    | .error err => .returned (some err)
    | .ok out => .callback out

/-- The part of `collectAndCallOnce` before `time.Sleep`: the keys, the TTL, the put and
the lock, all at the instant `now`. -/
def collectAndCallOnceEnter (env : CollectEnv) (deduplicationDelay : Int) (now : Int)
    (r : Redis) (rxPacket : UplinkFrame) : Redis × CollectEntered :=
  let phyKey := rxPacket.PhyPayload
  match env.marshalTxInfo rxPacket.TxInfo with
  | none => (r, .returned (some CollectError.marshalProtobuf))
  | some txInfoB =>
    let txInfoHEX := txInfoB
    let key := RedisKey.collect txInfoHEX phyKey
    let lockKey := RedisKey.collectLock txInfoHEX phyKey
    let ttl := deduplicationTTL deduplicationDelay
    match collectAndCallOncePut env now r key ttl rxPacket with
    | .error err => (r, .returned (some err))
    | .ok r =>
      let res := collectAndCallOnceLocked deduplicationDelay now r lockKey ttl
      if res.2 then (res.1, .returned none)
      else (res.1, .winner key)

/-- The part of `collectAndCallOnce` after `time.Sleep`, at the instant `now`. -/
def collectAndCallOnceFinish (env : CollectEnv) (now : Int) (r : Redis) (key : RedisKey) :
    Redis × CollectOutcome :=
  let res := collectAndCallOnceCollect now r key
  (res.1, collectAndCallOnceAssemble env res.2)

/-- The function `collectAndCallOnce`, run without another invocation in between: it
enters at the instant `now`, and a winner sleeps `deduplicationDelay` (not at all when
that is negative) before it reads the set. -/
def collectAndCallOnce (env : CollectEnv) (deduplicationDelay : Int) (now : Int)
    (r : Redis) (rxPacket : UplinkFrame) : Redis × CollectOutcome :=
  match collectAndCallOnceEnter env deduplicationDelay now r rxPacket with
  | (r, .returned err) => (r, .returned err)
  | (r, .winner key) =>
    collectAndCallOnceFinish env (now + max deduplicationDelay 0) r key

/-! ### Concurrent invocations of `collectAndCallOnce`

Several invocations run at the same time against the one cache.  The cache executes one
command (or one transaction) at a time, so a run is a sequence of steps, each the next
command of one of the invocations, at an instant. -/

/-- The commands that an invocation of `collectAndCallOnce` sends to the cache, in the
order in which it sends them: the transaction `SADD`, `PEXPIRE` of `collectAndCallOncePut`,
the `SetNX` of `collectAndCallOnceLocked`, and the `SMEMBERS` and the `DEL` of
`collectAndCallOnceCollect`, whose pipeline is not a transaction. -/
inductive CollectCommand where
  | put
  | setNX
  | sMembers
  | del
  deriving DecidableEq, Repr

/-- Where an invocation of `collectAndCallOnce` stands between two commands, with the
local variables it needs later: it has been called, it has put its frame, it has acquired
the lock at `since` and sleeps, it has read the set and not yet deleted it, or it has
ended. -/
inductive CollectState where
  | entering
  | stored (key lockKey : RedisKey)
  | sleeping (key : RedisKey) (since : Int)
  | collecting (key : RedisKey) (payloads : List Bytes)
  | done (outcome : CollectOutcome)
  deriving DecidableEq, Repr

/-- One step of an invocation of `collectAndCallOnce` for the frame `rxPacket`: the code
up to and including the command `command`, executed by the cache at the instant `now`,
when that is the next command of the invocation (otherwise nothing happens; in particular
an invocation that sleeps sends `SMEMBERS` only when `deduplicationDelay` has passed). -/
def collectAndCallOnceStep (env : CollectEnv) (deduplicationDelay : Int) (now : Int)
    (rxPacket : UplinkFrame) (r : Redis) :
    CollectState → CollectCommand → Redis × CollectState
  | .entering, .put =>
    let phyKey := rxPacket.PhyPayload
    match env.marshalTxInfo rxPacket.TxInfo with
    | none => (r, .done (.returned (some CollectError.marshalProtobuf)))
    | some txInfoB =>
      let txInfoHEX := txInfoB
      let key := RedisKey.collect txInfoHEX phyKey
      let lockKey := RedisKey.collectLock txInfoHEX phyKey
      match collectAndCallOncePut env now r key (deduplicationTTL deduplicationDelay)
          rxPacket with
      | .error err => (r, .done (.returned (some err)))
      | .ok r => (r, .stored key lockKey)
  | .stored key lockKey, .setNX =>
    let res := collectAndCallOnceLocked deduplicationDelay now r lockKey
      (deduplicationTTL deduplicationDelay)
    if res.2 then (res.1, .done (.returned none))
    else (res.1, .sleeping key now)
  | .sleeping key since, .sMembers =>
    if now < since + deduplicationDelay then (r, .sleeping key since)
    else (r, .collecting key (redisSMembers now r key))
  | .collecting key payloads, .del =>
    (redisDel r key, .done (collectAndCallOnceAssemble env payloads))
  | state, _ => (r, state)

/-- A step of a run: the invocation that takes it (its index in the list of the frames),
the command, and the instant at which the cache executes it. -/
structure CollectEvent where
  invocation : Nat
  command : CollectCommand
  instant : Int
  deriving DecidableEq, Repr

/-- A run of concurrent invocations of `collectAndCallOnce`, the invocation `i` for the
frame `rxPackets[i]`: the cache and the states of the invocations after the steps of the
schedule, in that order. -/
def collectAndCallOnceRun (env : CollectEnv) (deduplicationDelay : Int)
    (rxPackets : List UplinkFrame) :
    Redis × (Nat → CollectState) → List CollectEvent → Redis × (Nat → CollectState)
  | s, [] => s
  | s, e :: schedule =>
    match rxPackets[e.invocation]? with
    | none => collectAndCallOnceRun env deduplicationDelay rxPackets s schedule
    | some rxPacket =>
      let res := collectAndCallOnceStep env deduplicationDelay e.instant rxPacket s.1
        (s.2 e.invocation) e.command
      collectAndCallOnceRun env deduplicationDelay rxPackets
        (res.1, Function.update s.2 e.invocation res.2) schedule

/-- A wire format for the frames of one emission (PHY payload `40 01 02 03 04 05` on
868.1 MHz, 125 kHz, SF10), used in the instances below: a frame is encoded by the first
byte of its gateway id and the absolute value of its RSSI, a frame without RxInfo by the
gateway byte alone. -/
def exampleEnv : CollectEnv where
  marshalTxInfo := fun t =>
    match t with
    | none => none
    | some t => some [t.Frequency, t.Bandwidth, t.SpreadingFactor]
  marshalUplinkFrame := fun f =>
    match f.RxInfo with
    | some rx => some [rx.GatewayId.headD 0, rx.Rssi.natAbs]
    | none => some [0]
  unmarshalUplinkFrame := fun b =>
    match b with
    | [g, rssi] =>
      some { PhyPayload := [64, 1, 2, 3, 4, 5]
             TxInfo := some ⟨868100000, 125, 10⟩
             RxInfo := some { GatewayId := [g], Rssi := -(rssi : Int) } }
    | [_] =>
      some { PhyPayload := [64, 1, 2, 3, 4, 5]
             TxInfo := some ⟨868100000, 125, 10⟩
             RxInfo := none }
    | _ => none
  unmarshalPHYPayload := fun b =>
    match b with
    | mhdr :: rest => some { MHDR := mhdr, MACPayload := rest.take 1, MIC := rest.drop 1 }
    | [] => none
  getDataRateIndex := fun t =>
    if t.Bandwidth = 125 ∧ 7 ≤ t.SpreadingFactor ∧ t.SpreadingFactor ≤ 12 then
      some (12 - (t.SpreadingFactor : Int))
    else none

/-- The wire format of `exampleEnv` for the frames of an emission whose PHY payload is
empty, which does not decode. -/
def emptyPayloadEnv : CollectEnv :=
  { exampleEnv with
    unmarshalUplinkFrame := fun b =>
      (exampleEnv.unmarshalUplinkFrame b).map (fun f => { f with PhyPayload := [] }) }

/-! ### Specification side of `RequestNewChannels` -/

/-- Index `i` is a key of the wanted channels, and the current channels have no entry
`i` or one whose Frequency, MinDR or MaxDR is not that of the wanted entry. -/
def channelDiffers (currentChannels wantedChannels : ChannelMap) (i : Int) : Bool :=
  match mapGet wantedChannels i, mapGet currentChannels i with
  | none, _ => false
  | some _, none => true
  | some w, some c =>
    decide (c.Frequency ≠ w.Frequency ∨ c.MinDR ≠ w.MinDR ∨ c.MaxDR ≠ w.MaxDR)

/-- The `NewChannelReq` command for index `i` carrying the wanted entry `w`, its values
converted to the payload's 8-bit and 32-bit fields. -/
def newChannelReqCommand (i : Int) (w : Channel) : MACCommand :=
  { CID := NewChannelReq
    Payload := .newChannelReq
      { ChIndex := toUint8 i
        Freq := toUint32 w.Frequency
        MinDR := toUint8 w.MinDR
        MaxDR := toUint8 w.MaxDR } }

/-- The differing indices of the wanted channels, in ascending order, as the loop of
`RequestNewChannels` meets them. -/
def differingIndices (currentChannels wantedChannels : ChannelMap) : List Int :=
  (sortInts (mapKeys wantedChannels)).filter (channelDiffers currentChannels wantedChannels)

/-- What the specification asks of `RequestNewChannels`, given the ascending list `D`
of differing indices: nothing when the first `min(maxChannels, |D|)` indices of `D` are
none, otherwise one block with one command per index of that prefix, in that order. -/
def specRequestNewChannels (maxChannels : Int) (wantedChannels : ChannelMap)
    (D : List Int) : Option MACCommandBlock :=
  let pre := D.take (min maxChannels (D.length : Int)).toNat
  if pre = [] then none
  else some
    { CID := NewChannelReq
      MACCommands := pre.map (fun i => newChannelReqCommand i (mapIndex wantedChannels i)) }

/-- The command `cmd` is a NewChannelReq for the index `i` that carries the frequency,
MinDR and MaxDR of `wantedChannels[i]`. -/
def carriesWanted (wantedChannels : ChannelMap) (i : Int) (cmd : MACCommand) : Prop :=
  cmd.CID = NewChannelReq ∧
    ∃ pl, cmd.Payload = .newChannelReq pl ∧ (pl.ChIndex : Int) = i ∧
      pl.Freq = (mapIndex wantedChannels i).Frequency ∧
      (pl.MinDR : Int) = (mapIndex wantedChannels i).MinDR ∧
      (pl.MaxDR : Int) = (mapIndex wantedChannels i).MaxDR

/-- The property "`RequestNewChannels` returns nil exactly when the first
`min(maxChannels, |D|)` elements of `D` are none, and otherwise returns a NewChannelReq
block whose commands are, in that order, one NewChannelReq per index of that prefix of `D`
carrying `wantedChannels[i]`'s frequency, MinDR and MaxDR". -/
def returnsWantedPrefix (devEUI : EUI64) (maxChannels : Int)
    (currentChannels wantedChannels : ChannelMap) (D : List Int) : Prop :=
  (RequestNewChannels devEUI maxChannels currentChannels wantedChannels = .ok none ↔
      D.take (min maxChannels (D.length : Int)).toNat = []) ∧
  (D.take (min maxChannels (D.length : Int)).toNat ≠ [] →
    ∃ block, RequestNewChannels devEUI maxChannels currentChannels wantedChannels =
        .ok (some block) ∧
      block.CID = NewChannelReq ∧
      List.Forall₂ (carriesWanted wantedChannels)
        (D.take (min maxChannels (D.length : Int)).toNat) block.MACCommands)

/-- The property "every payload of the returned block has a ChIndex that is not a key
of the current channels, or its (Freq, MinDR, MaxDR) differs from the current entry
of that ChIndex", read on the values written into the payload. -/
def emittedPayloadsDiffer (devEUI : EUI64) (maxChannels : Int)
    (currentChannels wantedChannels : ChannelMap) : Prop :=
  ∀ b, RequestNewChannels devEUI maxChannels currentChannels wantedChannels = .ok (some b) →
    ∀ cmd ∈ b.MACCommands, ∃ pl, cmd.Payload = .newChannelReq pl ∧
      (mapGet currentChannels (pl.ChIndex : Int) = none ∨
        ∃ c, mapGet currentChannels (pl.ChIndex : Int) = some c ∧
          (c.Frequency ≠ pl.Freq ∨ c.MinDR ≠ (pl.MinDR : Int) ∨ c.MaxDR ≠ (pl.MaxDR : Int)))

/-- The property "the call returns no error and a key equal to `ke.AESKey` byte for
byte", whatever the KEK store and the unwrapping method are. -/
def unwrapReturnsAESKey (ke : KeyEnvelope) : Prop :=
  ∀ (ε : Type) (keks : List (String × List Nat))
    (unwrap : KeyEnvelope → List Nat → Except ε AES128Key),
    unwrapNSKeyEnvelope keks unwrap ke = .ok ke.AESKey

/-- The zero value `storage.DeviceSession{}`: every field zero, the slice and the two
maps nil. -/
def zeroDeviceSession : DeviceSession :=
  { DevEUI := 0
    EnabledUplinkChannels := []
    ExtraUplinkChannels := none
    MACCommandErrorCount := none
    TXPowerIndex := 0
    DR := 0
    NbTrans := 0 }

/-- The property "`handleNewChannelAns` returns no response blocks and no error, and for
every position whose answer has ChannelFrequencyOK and DataRateRangeOK set the session
afterwards has `ExtraUplinkChannels[pending[i].ChIndex] = {pending[i].Freq,
pending[i].MinDR, pending[i].MaxDR}` and `pending[i].ChIndex` among its
`EnabledUplinkChannels`". -/
def installsAcknowledged (ds : DeviceSession) (block pending : MACCommandBlock) : Prop :=
  ∃ ds', handleNewChannelAns ds block (some pending) = .ok (ds', .ok []) ∧
    ∀ (i : Nat) (ca cp : CID) (a : NewChannelAnsPayload) (p : NewChannelReqPayload),
      block.MACCommands[i]? = some ⟨ca, .newChannelAns a⟩ →
      pending.MACCommands[i]? = some ⟨cp, .newChannelReq p⟩ →
      a.ChannelFrequencyOK = true → a.DataRateRangeOK = true →
      mapGet (mapEntries ds'.ExtraUplinkChannels) (p.ChIndex : Int) =
          some { Frequency := p.Freq, MinDR := (p.MinDR : Int), MaxDR := (p.MaxDR : Int) } ∧
        (p.ChIndex : Int) ∈ ds'.EnabledUplinkChannels

/-- The property "`handleNewChannelAns` increases `MACCommandErrorCount[NewChannelAns]` by
exactly the number of answers and leaves `ExtraUplinkChannels` and `EnabledUplinkChannels`
unchanged". -/
def countsNotAcknowledged (ds : DeviceSession) (block pending : MACCommandBlock) : Prop :=
  ∃ ds' r, handleNewChannelAns ds block (some pending) = .ok (ds', r) ∧
    errorCount ds' NewChannelAns =
      errorCount ds NewChannelAns + (block.MACCommands.length : Int) ∧
    ds'.ExtraUplinkChannels = ds.ExtraUplinkChannels ∧
    ds'.EnabledUplinkChannels = ds.EnabledUplinkChannels

/-- The property "when `EnabledUplinkChannels` is sorted in ascending order, it is still
sorted in ascending order after the call of `handleNewChannelAns`". -/
def enabledStaysSorted (ds : DeviceSession) (block : MACCommandBlock)
    (pending : Option MACCommandBlock) : Prop :=
  ds.EnabledUplinkChannels.Sorted (fun a b => a ≤ b) →
    ∀ ds' r, handleNewChannelAns ds block pending = .ok (ds', r) →
      ds'.EnabledUplinkChannels.Sorted (fun a b => a ≤ b)

/-- Position `i` of the answer block and of the pending block holds a NewChannelAns answer
with ChannelFrequencyOK and DataRateRangeOK set and a NewChannelReq request for the
channel `idx`. -/
def acknowledgedAt (answers pendings : List MACCommand) (i : Nat) (idx : Int) : Prop :=
  ∃ (ca cp : CID) (a : NewChannelAnsPayload) (p : NewChannelReqPayload),
    answers[i]? = some ⟨ca, .newChannelAns a⟩ ∧ pendings[i]? = some ⟨cp, .newChannelReq p⟩ ∧
    a.ChannelFrequencyOK = true ∧ a.DataRateRangeOK = true ∧ (p.ChIndex : Int) = idx

/-- Position `i` of the answer block and of the pending block holds a NewChannelAns answer
and a NewChannelReq request (the loop of `handleNewChannelAns` goes past it without
returning an error). -/
def wellTypedAt (answers pendings : List MACCommand) (i : Nat) : Prop :=
  ∃ (ca cp : CID) (a : NewChannelAnsPayload) (p : NewChannelReqPayload),
    answers[i]? = some ⟨ca, .newChannelAns a⟩ ∧ pendings[i]? = some ⟨cp, .newChannelReq p⟩

/-- The property "every acknowledged ChIndex standing behind well-typed commands only is
among the enabled channels already, or is acknowledged at an earlier position as well, or
is greater than every enabled channel and than every ChIndex acknowledged at an earlier
position". -/
def appendsInOrder (enabled : List Int) (answers pendings : List MACCommand) : Prop :=
  ∀ (j : Nat) (idx : Int), acknowledgedAt answers pendings j idx →
    (∀ i, i < j → wellTypedAt answers pendings i) →
    idx ∈ enabled ∨ (∃ i, i < j ∧ acknowledgedAt answers pendings i idx) ∨
      ((∀ k ∈ enabled, k < idx) ∧
        ∀ i, i < j → ∀ idx', acknowledgedAt answers pendings i idx' → idx' < idx)

/-- The property "`collectAndCallOnce`, having read the set members `payloads`, returns an
error and does not invoke the callback". -/
def returnsErrorWithoutCallback (env : CollectEnv) (payloads : List Bytes) : Prop :=
  ∃ err, collectAndCallOnceAssemble env payloads = .returned (some err)

/-- The property "the RXInfoSet of the packet passed to the callback is sorted by RSSI
descending (strongest signal at index 0)". -/
def rxInfoSetSortedByRSSI (outcome : CollectOutcome) : Prop :=
  ∀ packet, outcome = .callback packet →
    (packet.RXInfoSet.map (fun rx => rx.Rssi)).Sorted (fun a b => a ≥ b)

/-- What one decoded member does to the packet in the loop of `collectAndCallOnce` at an
index other than 0: a member with TxInfo and RxInfo sets the TXInfo, adds its RxInfo and
makes the two maps; another member is skipped. -/
def addMember (out : RXPacket) (f : UplinkFrame) : RXPacket :=
  match f.TxInfo, f.RxInfo with
  | some txInfo, some rxInfo =>
    { out with
      TXInfo := some txInfo
      RXInfoSet := out.RXInfoSet ++ [rxInfo]
      GatewayIsPrivate := some []
      GatewayServiceProfile := some [] }
  | _, _ => out

/-- The property "a frame of the same emission that enters `collectAndCallOnce` at the
instant `t`, later than `t0 + 2 * deduplicationDelay`, after a winner that acquired the
lock at `t0` has read and deleted the set at `t0 + deduplicationDelay`, finds the lock
expired and acquires it". -/
def lateFrameIsNewEmission (env : CollectEnv) (d t0 : Int) (r0 : Redis)
    (frame : UplinkFrame) (t : Int) : Prop :=
  ∀ r1 key, collectAndCallOnceEnter env d t0 r0 frame = (r1, .winner key) →
    t0 + 2 * d < t →
    ∃ r2, collectAndCallOnceEnter env d t
      (collectAndCallOnceFinish env (t0 + d) r1 key).1 frame = (r2, .winner key)

/-- The property "exactly one of the invocations `0 .. K-1` has invoked the callback
(once), and every other invocation has returned nil without invoking the callback". -/
def callbackExactlyOnce (states : Nat → CollectState) (K : Nat) : Prop :=
  ∃ w, w < K ∧ (∃ packet, states w = .done (.callback packet)) ∧
    ∀ i, i < K → i ≠ w → states i = .done (.returned none)

/-- The invariant of the runs of `K` invocations for one fingerprint, whose put and lock
steps come from `t0` on: either the lock is not held at `t0` and every invocation is
before its lock step, or one invocation `w` has acquired the lock, which expires at
`t0 + ttl` or later, and is asleep, collecting, or has ended in the building of the packet,
while every other invocation is before its lock step or has returned nil. -/
def lockDiscipline (env : CollectEnv) (K : Nat) (key lockKey : RedisKey) (t0 ttl : Int)
    (s : Redis × (Nat → CollectState)) : Prop :=
  (redisGet t0 s.1 lockKey = none ∧
    ∀ i, i < K → s.2 i = .entering ∨ s.2 i = .stored key lockKey) ∨
  (∃ (w : Nat) (e : Int) (v : Bytes), w < K ∧
    mapGet s.1.strings lockKey = some (v, some e) ∧ t0 + ttl ≤ e ∧
    ((∃ since, s.2 w = .sleeping key since) ∨ (∃ payloads, s.2 w = .collecting key payloads) ∨
      ∃ payloads, s.2 w = .done (collectAndCallOnceAssemble env payloads)) ∧
    ∀ i, i < K → i ≠ w →
      s.2 i = .entering ∨ s.2 i = .stored key lockKey ∨ s.2 i = .done (.returned none))

/-- A sequence of calls of `collectAndCallOncePut` for one key and TTL, each frame with
the instant of its call; a call that returns an error leaves the cache as it was. -/
def collectAndCallOncePutAll (env : CollectEnv) (key : RedisKey) (ttl : Int) :
    Redis → List (Int × UplinkFrame) → Redis
  | r, [] => r
  | r, (now, rxPacket) :: puts =>
    match collectAndCallOncePut env now r key ttl rxPacket with
    | .ok r' => collectAndCallOncePutAll env key ttl r' puts
    | .error _ => collectAndCallOncePutAll env key ttl r puts

/-- The instants of the puts of a sequence that reach the cache: a call of
`collectAndCallOncePut` whose frame does not serialize returns before the transaction. -/
def putInstants (env : CollectEnv) (puts : List (Int × UplinkFrame)) : List Int :=
  puts.filterMap (fun p => (env.marshalUplinkFrame p.2).map (fun _ => p.1))

/-- Adding a member to a set kept as a list without repetition. -/
def setInsert (members : List Bytes) (b : Bytes) : List Bytes :=
  if b ∈ members then members else members ++ [b]

/-! ## `GetAndCacheDeviceProfile` (`internal/storage/device_profile.go`) -/

/-- A `storage.DeviceProfile`; the two `time.Time` fields are instants in nanoseconds,
`PingSlotFreq`, `RXFreq2` and the elements of `FactoryPresetFreqs` are `uint32`. -/
structure DeviceProfile where
  CreatedAt : Int
  UpdatedAt : Int
  ID : UUID
  SupportsClassB : Bool
  ClassBTimeout : Int
  PingSlotPeriod : Int
  PingSlotDR : Int
  PingSlotFreq : Nat
  SupportsClassC : Bool
  ClassCTimeout : Int
  MACVersion : String
  RegParamsRevision : String
  RXDelay1 : Int
  RXDROffset1 : Int
  RXDataRate2 : Int
  RXFreq2 : Nat
  FactoryPresetFreqs : List Nat
  MaxEIRP : Int
  MaxDutyCycle : Int
  SupportsJoin : Bool
  RFRegion : String
  Supports32bitFCnt : Bool
  ADRAlgorithmID : String
  deriving DecidableEq, Repr

/-- A row of the table `device_profile`: the columns that `GetDeviceProfile` scans
straight into the fields of a `DeviceProfile` (as `scanned`; its `FactoryPresetFreqs` is
not a column), and the column `factory_preset_freqs`, a `bigint[]`. -/
structure DeviceProfileRow where
  scanned : DeviceProfile
  factory_preset_freqs : List Int
  deriving DecidableEq, Repr

/-- The errors of the device-profile functions modelled here. -/
inductive StorageError where
  /-- `ErrDoesNotExist` -/
  | doesNotExist
  /-- "gob encode device-profile error" -/
  | gobEncode
  /-- "gob decode error" -/
  | gobDecode
  /-- "get device-profile error", wrapping its cause -/
  | getDeviceProfile (cause : StorageError)
  deriving DecidableEq, Repr

/-- The conversion `uint32(f)` of an `int64`: the value modulo `2^32`. -/
def int64ToUint32 (f : Int) : Nat := (f % 4294967296).toNat

/-- The function `GetDeviceProfile`: the row with `device_profile_id = id` (the primary
key), its `factory_preset_freqs` converted to `uint32`; without such a row the error of
`handlePSQLError` for no rows, `ErrDoesNotExist`.  Failures of the connection to the
database are not modelled. -/
def GetDeviceProfile (db : List DeviceProfileRow) (id : UUID) :
    Except StorageError DeviceProfile :=
  match db.find? (fun row => decide (row.scanned.ID = id)) with
  | none => .error StorageError.doesNotExist
  | some row =>
    .ok { row.scanned with
          FactoryPresetFreqs := row.factory_preset_freqs.map int64ToUint32 }

/-- The function `CreateDeviceProfileCache`; `gobEncode` is the encoder of `encoding/gob`
(`none`: it returns an error), `deviceSessionTTL` the package variable of that name. -/
def CreateDeviceProfileCache (gobEncode : DeviceProfile → Option Bytes)
    (deviceSessionTTL : Int) (now : Int) (r : Redis) (dp : DeviceProfile) :
    Except StorageError Redis :=
  let key := RedisKey.deviceProfile dp.ID
  match gobEncode dp with
  | none => .error StorageError.gobEncode
  | some buf => .ok (redisSet now r key buf deviceSessionTTL)

/-- The function `GetDeviceProfileCache`; `gobDecode` is the decoder of `encoding/gob`
(`none`: it returns an error). -/
def GetDeviceProfileCache (gobDecode : Bytes → Option DeviceProfile) (now : Int)
    (r : Redis) (id : UUID) : Except StorageError DeviceProfile :=
  let key := RedisKey.deviceProfile id
  match redisGet now r key with
  | none => .error StorageError.doesNotExist
  | some val =>
    match gobDecode val with
    | none => .error StorageError.gobDecode
    | some dp => .ok dp

/-- The function `GetAndCacheDeviceProfile`: the result is the cache after the call and
what the call returns.  An error of the cache read other than `ErrDoesNotExist`, and an
error of `CreateDeviceProfileCache`, are only logged. -/
def GetAndCacheDeviceProfile (gobEncode : DeviceProfile → Option Bytes)
    (gobDecode : Bytes → Option DeviceProfile) (deviceSessionTTL : Int) (now : Int)
    (r : Redis) (db : List DeviceProfileRow) (id : UUID) :
    Redis × Except StorageError DeviceProfile :=
  match GetDeviceProfileCache gobDecode now r id with
  | .ok dp => (r, .ok dp)
  | .error _ =>
    match GetDeviceProfile db id with
    | .error err => (r, .error (StorageError.getDeviceProfile err))
    | .ok dp =>
      match CreateDeviceProfileCache gobEncode deviceSessionTTL now r dp with
      | .error _ => (r, .ok dp)
      | .ok r' => (r', .ok dp)

/-- A device-profile used in the instances below. -/
def exampleDeviceProfile : DeviceProfile :=
  { CreatedAt := 1600000000000000000
    UpdatedAt := 1600000000000000000
    ID := 7
    SupportsClassB := false
    ClassBTimeout := 0
    PingSlotPeriod := 0
    PingSlotDR := 0
    PingSlotFreq := 0
    SupportsClassC := true
    ClassCTimeout := 10
    MACVersion := "1.0.3"
    RegParamsRevision := "B"
    RXDelay1 := 1
    RXDROffset1 := 0
    RXDataRate2 := 0
    RXFreq2 := 869525000
    FactoryPresetFreqs := []
    MaxEIRP := 14
    MaxDutyCycle := 10
    SupportsJoin := true
    RFRegion := "EU868"
    Supports32bitFCnt := true
    ADRAlgorithmID := "default" }

/-- An encoding used in the instances below: the id and the RX1 delay of a profile that
otherwise is `exampleDeviceProfile`. -/
def exampleGobEncode (dp : DeviceProfile) : Option Bytes :=
  some [dp.ID, dp.RXDelay1.toNat]

/-- The decoder of `exampleGobEncode`. -/
def exampleGobDecode (b : Bytes) : Option DeviceProfile :=
  match b with
  | [id, rxDelay1] => some { exampleDeviceProfile with ID := id, RXDelay1 := (rxDelay1 : Int) }
  | _ => none

/-! ## Rounds of request and acknowledgement of new channels -/

/-- The answer block of a device that acknowledges every command of the request block:
one NewChannelAns with ChannelFrequencyOK and DataRateRangeOK set per command. -/
def acknowledgeAll (block : MACCommandBlock) : MACCommandBlock :=
  { CID := NewChannelAns
    MACCommands := block.MACCommands.map
      (fun _ => { CID := NewChannelAns, Payload := .newChannelAns ⟨true, true⟩ }) }

/-- One round: `RequestNewChannels` for the session's `ExtraUplinkChannels` and the
wanted channels, and, when it returns a block, `handleNewChannelAns` on the answers of a
device that acknowledges every command, with that block pending.  The result is the
session after the round (the session itself when there is nothing to request), `none`
when a call panics or the handler returns an error. -/
def newChannelRound (devEUI : EUI64) (maxChannels : Int) (wantedChannels : ChannelMap)
    (ds : DeviceSession) : Option DeviceSession :=
  match RequestNewChannels devEUI maxChannels (mapEntries ds.ExtraUplinkChannels)
      wantedChannels with
  | .error _ => none
  | .ok none => some ds
  | .ok (some block) =>
    match handleNewChannelAns ds (acknowledgeAll block) (some block) with
    | .ok (ds', .ok _) => some ds'
    | _ => none

/-- The property "when `RequestNewChannels` returns a block for the session's
`ExtraUplinkChannels` and `handleNewChannelAns` gets an answer with ChannelFrequencyOK and
DataRateRangeOK for every command of it, the number of wanted indices that differ from the
updated `ExtraUplinkChannels` is smaller by exactly the block's length". -/
def roundReducesDiffering (devEUI : EUI64) (maxChannels : Int) (wantedChannels : ChannelMap)
    (ds : DeviceSession) : Prop :=
  ∀ block answers : MACCommandBlock,
    RequestNewChannels devEUI maxChannels (mapEntries ds.ExtraUplinkChannels)
      wantedChannels = .ok (some block) →
    answers.MACCommands.length = block.MACCommands.length →
    (∀ cmd ∈ answers.MACCommands, ∃ pl, cmd.Payload = .newChannelAns pl ∧
      pl.ChannelFrequencyOK = true ∧ pl.DataRateRangeOK = true) →
    ∃ ds' r, handleNewChannelAns ds answers (some block) = .ok (ds', r) ∧
      (differingIndices (mapEntries ds'.ExtraUplinkChannels) wantedChannels).length +
          block.MACCommands.length =
        (differingIndices (mapEntries ds.ExtraUplinkChannels) wantedChannels).length

/-- The session after `n` rounds. -/
def newChannelRounds (devEUI : EUI64) (maxChannels : Int) (wantedChannels : ChannelMap) :
    Nat → DeviceSession → Option DeviceSession
  | 0, ds => some ds
  | n + 1, ds =>
    match newChannelRound devEUI maxChannels wantedChannels ds with
    | none => none
    | some ds' => newChannelRounds devEUI maxChannels wantedChannels n ds'

/-! ## Theorems -/

/-! ### Go maps and sorting -/

theorem mapGet_isSome_iff_mem_keys {ν : Type} (m : List (Int × ν)) (i : Int) :
    (mapGet m i).isSome ↔ i ∈ mapKeys m := by
  induction m with
  | nil => simp [mapGet, mapKeys]
  | cons p m ih =>
    obtain ⟨k, v⟩ := p
    simp only [mapKeys, List.mem_dedup, List.map_cons, List.mem_cons, mapGet] at ih ⊢
    by_cases h : k = i
    · simp [h]
    · simp only [h, if_false, ih]
      constructor
      · intro h1; exact Or.inr h1
      · rintro (h1 | h1)
        · exact absurd h1.symm h
        · exact h1

theorem sortInts_sorted_lt (l : List Int) (h : l.Nodup) :
    (sortInts l).Sorted (fun a b => a < b) := by
  have h1 : (sortInts l).Sorted (fun a b => a ≤ b) := List.sorted_insertionSort _ l
  have h2 : (sortInts l).Nodup := (List.perm_insertionSort _ l).nodup_iff.mpr h
  exact List.Sorted.lt_of_le h1 h2

theorem mem_sortInts (l : List Int) (i : Int) : i ∈ sortInts l ↔ i ∈ l :=
  (List.perm_insertionSort _ l).mem_iff

/-- Two strictly ascending lists with the same members are the same list. -/
theorem sorted_lt_ext (l₁ l₂ : List Int) (h₁ : l₁.Sorted (fun a b => a < b))
    (h₂ : l₂.Sorted (fun a b => a < b)) (h : ∀ i, i ∈ l₁ ↔ i ∈ l₂) : l₁ = l₂ :=
  List.eq_of_perm_of_sorted ((List.perm_ext_iff_of_nodup h₁.nodup h₂.nodup).mpr h) h₁ h₂

/-! ### `RequestNewChannels` -/

/-- What the loop test of `RequestNewChannels` decides for a key `i` of the wanted channels. -/
theorem requestNewChannelsStep_eq (cur want : ChannelMap) (out : List MACCommand) (i : Int)
    (hw : (mapGet want i).isSome) :
    requestNewChannelsStep cur want out i =
      if channelDiffers cur want i
      then out ++ [newChannelReqCommand i (mapIndex want i)] else out := by
  obtain ⟨w, hw⟩ := Option.isSome_iff_exists.mp hw
  unfold requestNewChannelsStep channelDiffers newChannelReqCommand mapIndex
  rw [hw]
  cases hc : mapGet cur i with
  | none => simp
  | some c =>
    simp only [Option.getD_some]
    by_cases hd : c.Frequency ≠ w.Frequency ∨ c.MinDR ≠ w.MinDR ∨ c.MaxDR ≠ w.MaxDR
    · simp [hd]
    · simp [hd]

theorem foldl_requestNewChannelsStep (cur want : ChannelMap) (l : List Int)
    (hl : ∀ i ∈ l, (mapGet want i).isSome) (out : List MACCommand) :
    l.foldl (requestNewChannelsStep cur want) out =
      out ++ (l.filter (channelDiffers cur want)).map
        (fun i => newChannelReqCommand i (mapIndex want i)) := by
  induction l generalizing out with
  | nil => simp
  | cons i l ih =>
    rw [List.foldl_cons, ih (fun j hj => hl j (List.mem_cons_of_mem _ hj)),
      requestNewChannelsStep_eq cur want out i (hl i (List.mem_cons_self _ _))]
    by_cases hd : channelDiffers cur want i = true
    · simp [hd, List.filter_cons]
    · simp [hd, List.filter_cons]

theorem channelDiffers_isSome (cur want : ChannelMap) (i : Int)
    (h : channelDiffers cur want i = true) : (mapGet want i).isSome := by
  unfold channelDiffers at h
  cases hw : mapGet want i with
  | none => simp [hw] at h
  | some w => simp

/-- The test `channelDiffers` in words: `i` is a key of the wanted channels, and the
current channels have no entry `i` or one that differs in Frequency, MinDR or MaxDR. -/
theorem channelDiffers_iff (cur want : ChannelMap) (i : Int) :
    channelDiffers cur want i = true ↔
      ∃ w, mapGet want i = some w ∧
        (mapGet cur i = none ∨ ∃ c, mapGet cur i = some c ∧
          (c.Frequency ≠ w.Frequency ∨ c.MinDR ≠ w.MinDR ∨ c.MaxDR ≠ w.MaxDR)) := by
  unfold channelDiffers
  cases hw : mapGet want i with
  | none => simp
  | some w =>
    cases hc : mapGet cur i with
    | none => simp
    | some c => simp

theorem mem_differingIndices (cur want : ChannelMap) (i : Int) :
    i ∈ differingIndices cur want ↔ channelDiffers cur want i = true := by
  unfold differingIndices
  rw [List.mem_filter, mem_sortInts, ← mapGet_isSome_iff_mem_keys]
  exact ⟨fun h => h.2, fun h => ⟨channelDiffers_isSome cur want i h, h⟩⟩

theorem differingIndices_sorted (cur want : ChannelMap) :
    (differingIndices cur want).Sorted (fun a b => a < b) :=
  List.Pairwise.sublist (List.filter_sublist _)
    (sortInts_sorted_lt _ (List.nodup_dedup _))

/-- With a negative `maxChannels` the slice expression panics. -/
theorem requestNewChannels_neg (devEUI : EUI64) (maxChannels : Int) (cur want : ChannelMap)
    (h : maxChannels < 0) :
    RequestNewChannels devEUI maxChannels cur want = .error GoPanic.sliceBoundsOutOfRange := by
  unfold RequestNewChannels
  simp only [bind, Except.bind, pure, Except.pure]
  have h1 : ((List.foldl (requestNewChannelsStep cur want) []
      (sortInts (mapKeys want))).length : Int) > maxChannels := by omega
  rw [if_pos h1]
  have h2 : ¬ (0 ≤ maxChannels ∧ maxChannels ≤
      ((List.foldl (requestNewChannelsStep cur want) [] (sortInts (mapKeys want))).length : Int)) := by
    omega
  simp only [sliceTo, if_neg h2]

/-- With a non-negative `maxChannels`, `RequestNewChannels` returns what the
specification asks for the list of differing indices. -/
theorem requestNewChannels_eq_spec (devEUI : EUI64) (maxChannels : Int) (cur want : ChannelMap)
    (h : 0 ≤ maxChannels) :
    RequestNewChannels devEUI maxChannels cur want =
      .ok (specRequestNewChannels maxChannels want (differingIndices cur want)) := by
  have hkeys : ∀ i ∈ sortInts (mapKeys want), (mapGet want i).isSome := by
    intro i hi
    exact (mapGet_isSome_iff_mem_keys want i).mpr ((mem_sortInts _ i).mp hi)
  have hout : List.foldl (requestNewChannelsStep cur want) [] (sortInts (mapKeys want)) =
      List.map (fun i => newChannelReqCommand i (mapIndex want i))
        (differingIndices cur want) := by
    rw [foldl_requestNewChannelsStep cur want _ hkeys [], List.nil_append]
    rfl
  unfold RequestNewChannels specRequestNewChannels
  simp only [bind, Except.bind, pure, Except.pure]
  rw [hout]
  simp only [List.length_map]
  obtain ⟨n, rfl⟩ := Int.eq_ofNat_of_zero_le h
  by_cases hgt : ((differingIndices cur want).length : Int) > (n : Int)
  · have hn : n < (differingIndices cur want).length := by omega
    have hb : (0 : Int) ≤ (n : Int) ∧ (n : Int) ≤ ((differingIndices cur want).length : Int) := by
      omega
    rw [if_pos hgt]
    simp only [sliceTo, List.length_map, if_pos hb, Int.toNat_ofNat]
    have hmin : (min (n : Int) ((differingIndices cur want).length : Int)).toNat = n := by
      rw [min_eq_left (by omega)]; simp
    rw [hmin, ← List.map_take]
    by_cases hz : n = 0
    · subst hz; simp
    · have h2 : ¬ (List.take n (differingIndices cur want) = []) := by
        intro h3
        rcases List.take_eq_nil_iff.mp h3 with h4 | h4
        · exact hz h4
        · rw [h4] at hn
          simp at hn
      have h1 : ¬ ((List.map (fun i => newChannelReqCommand i (mapIndex want i))
          (List.take n (differingIndices cur want))).length = 0) := by
        rw [List.length_map]
        intro h3
        exact h2 (List.length_eq_zero.mp h3)
      simp only [if_neg h1, if_neg h2]
  · rw [if_neg hgt]
    have hmin : (min (n : Int) ((differingIndices cur want).length : Int)).toNat
        = (differingIndices cur want).length := by
      rw [min_eq_right (by omega)]; simp
    rw [hmin, List.take_length]
    by_cases hz : differingIndices cur want = []
    · simp [hz]
    · have h1 : ¬ ((differingIndices cur want).length = 0) := by
        intro h3
        exact hz (List.length_eq_zero.mp h3)
      simp only [if_neg h1, if_neg hz]

/-- C1: for `maxChannels >= 0` the slice expression of `RequestNewChannels` is in bounds
(the call returns, without panic), and a returned block holds at least one and at most
`maxChannels` mac-commands, each with CID `NewChannelReq`. -/
theorem requestNewChannels_block_size (devEUI : EUI64) (maxChannels : Int)
    (currentChannels wantedChannels : ChannelMap) (h : 0 ≤ maxChannels) :
    ∃ r, RequestNewChannels devEUI maxChannels currentChannels wantedChannels = .ok r ∧
      ∀ b, r = some b →
        1 ≤ b.MACCommands.length ∧ (b.MACCommands.length : Int) ≤ maxChannels ∧
        ∀ cmd ∈ b.MACCommands, cmd.CID = NewChannelReq := by
  refine ⟨_, requestNewChannels_eq_spec devEUI maxChannels currentChannels wantedChannels h, ?_⟩
  intro b hb
  unfold specRequestNewChannels at hb
  simp only at hb
  split at hb
  · exact absurd hb (by simp)
  · rename_i hne
    have hb := Option.some.inj hb
    subst hb
    simp only [List.length_map, List.length_take, List.mem_map]
    refine ⟨?_, ?_, ?_⟩
    · rw [← List.length_take]
      exact Nat.one_le_iff_ne_zero.mpr (fun h0 => hne (List.length_eq_zero.mp h0))
    · obtain ⟨n, rfl⟩ := Int.eq_ofNat_of_zero_le h
      have : (min (n : Int) ((differingIndices currentChannels wantedChannels).length : Int)).toNat
          ≤ n := by
        have := min_le_left (n : Int)
          ((differingIndices currentChannels wantedChannels).length : Int)
        omega
      omega
    · rintro cmd ⟨i, -, rfl⟩
      rfl

/-- The instance of `requestNewChannels_block_size` at `maxChannels = 2` with three
differing indices: the block holds the first two. -/
theorem requestNewChannels_block_size_witness :
    (0 : Int) ≤ 2 ∧
    RequestNewChannels 0 2 [(3, ⟨868100000, 0, 5⟩)]
        [(5, ⟨867500000, 0, 5⟩), (3, ⟨868100000, 0, 5⟩), (4, ⟨867300000, 0, 5⟩),
          (6, ⟨867700000, 0, 5⟩)] =
      .ok (some ⟨NewChannelReq,
        [⟨NewChannelReq, .newChannelReq ⟨4, 867300000, 0, 5⟩⟩,
         ⟨NewChannelReq, .newChannelReq ⟨5, 867500000, 0, 5⟩⟩]⟩) ∧
    ∃ r, RequestNewChannels 0 2 [(3, ⟨868100000, 0, 5⟩)]
        [(5, ⟨867500000, 0, 5⟩), (3, ⟨868100000, 0, 5⟩), (4, ⟨867300000, 0, 5⟩),
          (6, ⟨867700000, 0, 5⟩)] = .ok r ∧
      ∀ b, r = some b →
        1 ≤ b.MACCommands.length ∧ (b.MACCommands.length : Int) ≤ 2 ∧
        ∀ cmd ∈ b.MACCommands, cmd.CID = NewChannelReq :=
  ⟨by decide, by decide, requestNewChannels_block_size 0 2 _ _ (by decide)⟩

/-- C2 as stated fails: the wanted index 256 is no key of the current channels, so a
command is emitted for it, but the ChIndex written is `uint8(256) = 0`, which is a key
of the current channels with exactly the emitted Freq, MinDR and MaxDR. -/
theorem emittedPayloadsDiffer_counterexample :
    ¬ emittedPayloadsDiffer 0 1 [(0, ⟨868100000, 0, 5⟩)] [(256, ⟨868100000, 0, 5⟩)] := by
  intro h
  obtain ⟨pl, hpl, hd⟩ := h
    ⟨NewChannelReq, [⟨NewChannelReq, .newChannelReq ⟨0, 868100000, 0, 5⟩⟩]⟩ (by decide)
    _ (List.mem_singleton.mpr rfl)
  simp only [MACCommandPayload.newChannelReq.injEq] at hpl
  subst hpl
  simp [mapGet] at hd

/-- C2, amended: when every wanted index and every wanted MinDR and MaxDR lies in
0..255 (and the wanted frequencies are 32-bit values, as their type says), every payload
of the block returned by `RequestNewChannels` has a ChIndex that is no key of the current
channels, or its (Freq, MinDR, MaxDR) differs from the current entry of that ChIndex. -/
theorem requestNewChannels_payloads_differ (devEUI : EUI64) (maxChannels : Int)
    (currentChannels wantedChannels : ChannelMap)
    (hwant : ∀ i w, mapGet wantedChannels i = some w →
      0 ≤ i ∧ i < 256 ∧ 0 ≤ w.MinDR ∧ w.MinDR < 256 ∧ 0 ≤ w.MaxDR ∧ w.MaxDR < 256 ∧
        w.Frequency < 4294967296) :
    emittedPayloadsDiffer devEUI maxChannels currentChannels wantedChannels := by
  intro b hb cmd hcmd
  by_cases hmax : 0 ≤ maxChannels
  · rw [requestNewChannels_eq_spec devEUI maxChannels currentChannels wantedChannels hmax] at hb
    have hb := Except.ok.inj hb
    unfold specRequestNewChannels at hb
    simp only at hb
    split at hb
    · exact absurd hb (by simp)
    · have hb := Option.some.inj hb
      subst hb
      simp only [List.mem_map] at hcmd
      obtain ⟨i, hi, rfl⟩ := hcmd
      have hiD := (mem_differingIndices currentChannels wantedChannels i).mp
        (List.mem_of_mem_take hi)
      obtain ⟨w, hw, hdiff⟩ := (channelDiffers_iff currentChannels wantedChannels i).mp hiD
      obtain ⟨hi0, hi1, hmin0, hmin1, hmax0, hmax1, hf⟩ := hwant i w hw
      have hidx : mapIndex wantedChannels i = w := by simp [mapIndex, hw]
      have e1 : ((toUint8 i : Nat) : Int) = i := by unfold toUint8; omega
      have e2 : ((toUint8 w.MinDR : Nat) : Int) = w.MinDR := by unfold toUint8; omega
      have e3 : ((toUint8 w.MaxDR : Nat) : Int) = w.MaxDR := by unfold toUint8; omega
      have e4 : toUint32 w.Frequency = w.Frequency := by unfold toUint32; omega
      refine ⟨_, rfl, ?_⟩
      simp only [hidx, e1, e2, e3, e4]
      rcases hdiff with hnone | ⟨c, hc, hne⟩
      · exact Or.inl hnone
      · exact Or.inr ⟨c, hc, hne⟩
  · rw [requestNewChannels_neg devEUI maxChannels currentChannels wantedChannels
      (by omega)] at hb
    exact absurd hb (by simp)

/-- The instance of `requestNewChannels_payloads_differ` at a wanted map with indices
3, 4, 5: a block is returned, and its payloads differ from the current channels. -/
theorem requestNewChannels_payloads_differ_witness :
    RequestNewChannels 0 2 [(3, ⟨868100000, 0, 5⟩), (4, ⟨867300000, 0, 3⟩)]
        [(5, ⟨867500000, 0, 5⟩), (3, ⟨868100000, 0, 5⟩), (4, ⟨867300000, 0, 5⟩)] =
      .ok (some ⟨NewChannelReq,
        [⟨NewChannelReq, .newChannelReq ⟨4, 867300000, 0, 5⟩⟩,
         ⟨NewChannelReq, .newChannelReq ⟨5, 867500000, 0, 5⟩⟩]⟩) ∧
    emittedPayloadsDiffer 0 2 [(3, ⟨868100000, 0, 5⟩), (4, ⟨867300000, 0, 3⟩)]
        [(5, ⟨867500000, 0, 5⟩), (3, ⟨868100000, 0, 5⟩), (4, ⟨867300000, 0, 5⟩)] :=
  ⟨by decide, requestNewChannels_payloads_differ 0 2 _ _ (by
    intro i w hw
    simp only [mapGet] at hw
    split at hw
    · cases hw; subst i; decide
    · split at hw
      · cases hw; subst i; decide
      · split at hw
        · cases hw; subst i; decide
        · cases hw)⟩

/-- For `maxChannels >= 0`, let `D` be the strictly ascending list of the indices of
the wanted channels for which the current channels have no entry or one with another
Frequency, MinDR or MaxDR.  `RequestNewChannels` returns nil exactly when the first
`min(maxChannels, |D|)` indices of `D` are none, and otherwise the `NewChannelReq` block
whose commands are, in that order, one `NewChannelReq` per index `i` of that prefix,
carrying the index and `wantedChannels[i]`'s frequency, MinDR and MaxDR (as converted to
the payload's 8-bit and 32-bit fields). -/
theorem requestNewChannels_converted (devEUI : EUI64) (maxChannels : Int)
    (currentChannels wantedChannels : ChannelMap) (D : List Int)
    (h : 0 ≤ maxChannels)
    (hsorted : D.Sorted (fun a b => a < b))
    (hmem : ∀ i, i ∈ D ↔ ∃ w, mapGet wantedChannels i = some w ∧
        (mapGet currentChannels i = none ∨ ∃ c, mapGet currentChannels i = some c ∧
          (c.Frequency ≠ w.Frequency ∨ c.MinDR ≠ w.MinDR ∨ c.MaxDR ≠ w.MaxDR))) :
    (RequestNewChannels devEUI maxChannels currentChannels wantedChannels = .ok none ↔
        D.take (min maxChannels (D.length : Int)).toNat = []) ∧
    (D.take (min maxChannels (D.length : Int)).toNat ≠ [] →
      RequestNewChannels devEUI maxChannels currentChannels wantedChannels =
        .ok (some
          { CID := NewChannelReq
            MACCommands := (D.take (min maxChannels (D.length : Int)).toNat).map
              (fun i =>
                { CID := NewChannelReq
                  Payload := .newChannelReq
                    { ChIndex := toUint8 i
                      Freq := toUint32 (mapIndex wantedChannels i).Frequency
                      MinDR := toUint8 (mapIndex wantedChannels i).MinDR
                      MaxDR := toUint8 (mapIndex wantedChannels i).MaxDR } }) })) := by
  have hD : D = differingIndices currentChannels wantedChannels := by
    apply sorted_lt_ext _ _ hsorted (differingIndices_sorted _ _)
    intro i
    rw [hmem i, mem_differingIndices, channelDiffers_iff]
  rw [requestNewChannels_eq_spec devEUI maxChannels currentChannels wantedChannels h, ← hD]
  unfold specRequestNewChannels
  simp only
  constructor
  · constructor
    · intro hnone
      by_contra hne
      rw [if_neg hne] at hnone
      exact absurd (Except.ok.inj hnone) (by simp)
    · intro hnil
      rw [if_pos hnil]
  · intro hne
    rw [if_neg hne]
    rfl

/-- A command built from the wanted entry carries the wanted values exactly when they fit
the fields of the payload. -/
theorem carriesWanted_newChannelReqCommand (want : ChannelMap) (i : Int) :
    carriesWanted want i (newChannelReqCommand i (mapIndex want i)) ↔
      (0 ≤ i ∧ i < 256 ∧ 0 ≤ (mapIndex want i).MinDR ∧ (mapIndex want i).MinDR < 256 ∧
        0 ≤ (mapIndex want i).MaxDR ∧ (mapIndex want i).MaxDR < 256 ∧
        (mapIndex want i).Frequency < 4294967296) := by
  unfold carriesWanted newChannelReqCommand
  constructor
  · rintro ⟨-, pl, hpl, h1, h2, h3, h4⟩
    have e := MACCommandPayload.newChannelReq.inj hpl
    rw [← e] at h1 h2 h3 h4
    simp only [toUint8, toUint32] at h1 h2 h3 h4
    omega
  · intro h
    refine ⟨rfl, _, rfl, ?_, ?_, ?_, ?_⟩
    · simp only [toUint8]; omega
    · simp only [toUint32]; omega
    · simp only [toUint8]; omega
    · simp only [toUint8]; omega

theorem forall₂_map_self {α β : Type} (R : α → β → Prop) (f : α → β) (l : List α) :
    List.Forall₂ R l (l.map f) ↔ ∀ a ∈ l, R a (f a) := by
  induction l with
  | nil => simp
  | cons a l ih => simp [ih]

/-- C3 as stated fails: with no current channel and the wanted channel 0 of MinDR 256, `D`
is `[0]` and the command returned for index 0 carries the MinDR `uint8(256) = 0`, not the
wanted MinDR 256. -/
theorem returnsWantedPrefix_counterexample :
    (0 : Int) ≤ 1 ∧
    List.Sorted (fun a b => a < b) [(0 : Int)] ∧
    (∀ i, i ∈ [(0 : Int)] ↔ ∃ w, mapGet [((0 : Int), (⟨868100000, 256, 5⟩ : Channel))] i =
        some w ∧
      (mapGet ([] : ChannelMap) i = none ∨ ∃ c, mapGet ([] : ChannelMap) i = some c ∧
        (c.Frequency ≠ w.Frequency ∨ c.MinDR ≠ w.MinDR ∨ c.MaxDR ≠ w.MaxDR))) ∧
    RequestNewChannels 0 1 [] [(0, ⟨868100000, 256, 5⟩)] =
      .ok (some ⟨NewChannelReq, [⟨NewChannelReq, .newChannelReq ⟨0, 868100000, 0, 5⟩⟩]⟩) ∧
    ¬ returnsWantedPrefix 0 1 [] [(0, ⟨868100000, 256, 5⟩)] [0] := by
  have hrun : RequestNewChannels 0 1 [] [(0, ⟨868100000, 256, 5⟩)] =
      .ok (some ⟨NewChannelReq, [⟨NewChannelReq, .newChannelReq ⟨0, 868100000, 0, 5⟩⟩]⟩) := by
    decide
  refine ⟨by decide, by decide, ?_, hrun, ?_⟩
  · intro i
    rw [← channelDiffers_iff, ← mem_differingIndices]
    have : differingIndices [] [((0 : Int), (⟨868100000, 256, 5⟩ : Channel))] = [0] := by
      decide
    rw [this]
  · rintro ⟨-, h⟩
    obtain ⟨block, hblock, -, hall⟩ := h (by decide)
    rw [hrun] at hblock
    have e := Option.some.inj (Except.ok.inj hblock)
    rw [← e] at hall
    have h0 : carriesWanted [(0, ⟨868100000, 256, 5⟩)] 0
        ⟨NewChannelReq, .newChannelReq ⟨0, 868100000, 0, 5⟩⟩ := by
      have hl : List.take (min (1 : Int) (([(0 : Int)].length : Nat) : Int)).toNat [(0 : Int)] =
          [0] := by decide
      rw [hl] at hall
      cases hall with
      | cons h _ => exact h
    obtain ⟨-, pl, hpl, -, -, hmin, -⟩ := h0
    have e' := MACCommandPayload.newChannelReq.inj hpl
    rw [← e'] at hmin
    revert hmin
    decide

/-- C3, amended: for `maxChannels >= 0`, let `D` be the strictly ascending list of the
indices of the wanted channels for which the current channels have no entry or one with
another Frequency, MinDR or MaxDR.  `RequestNewChannels` returns nil exactly when the first
`min(maxChannels, |D|)` indices of `D` are none, and otherwise the NewChannelReq block whose
commands are, in that order, one NewChannelReq per index `i` of that prefix, carrying
`uint8(i)` and `wantedChannels[i]`'s frequency, MinDR and MaxDR as converted to the
payload's 32-bit and 8-bit fields.  The commands carry the index `i` and
`wantedChannels[i]`'s own frequency, MinDR and MaxDR exactly when every index of the
prefix lies in 0..255 and has a wanted MinDR and MaxDR in 0..255 (and a frequency that is
a 32-bit value, as its type says). -/
theorem requestNewChannels_spec (devEUI : EUI64) (maxChannels : Int)
    (currentChannels wantedChannels : ChannelMap) (D : List Int)
    (h : 0 ≤ maxChannels)
    (hsorted : D.Sorted (fun a b => a < b))
    (hmem : ∀ i, i ∈ D ↔ ∃ w, mapGet wantedChannels i = some w ∧
        (mapGet currentChannels i = none ∨ ∃ c, mapGet currentChannels i = some c ∧
          (c.Frequency ≠ w.Frequency ∨ c.MinDR ≠ w.MinDR ∨ c.MaxDR ≠ w.MaxDR))) :
    (RequestNewChannels devEUI maxChannels currentChannels wantedChannels = .ok none ↔
        D.take (min maxChannels (D.length : Int)).toNat = []) ∧
    (D.take (min maxChannels (D.length : Int)).toNat ≠ [] →
      RequestNewChannels devEUI maxChannels currentChannels wantedChannels =
        .ok (some
          { CID := NewChannelReq
            MACCommands := (D.take (min maxChannels (D.length : Int)).toNat).map
              (fun i =>
                { CID := NewChannelReq
                  Payload := .newChannelReq
                    { ChIndex := toUint8 i
                      Freq := toUint32 (mapIndex wantedChannels i).Frequency
                      MinDR := toUint8 (mapIndex wantedChannels i).MinDR
                      MaxDR := toUint8 (mapIndex wantedChannels i).MaxDR } }) })) ∧
    (returnsWantedPrefix devEUI maxChannels currentChannels wantedChannels D ↔
      ∀ i ∈ D.take (min maxChannels (D.length : Int)).toNat,
        0 ≤ i ∧ i < 256 ∧
        0 ≤ (mapIndex wantedChannels i).MinDR ∧ (mapIndex wantedChannels i).MinDR < 256 ∧
        0 ≤ (mapIndex wantedChannels i).MaxDR ∧ (mapIndex wantedChannels i).MaxDR < 256 ∧
        (mapIndex wantedChannels i).Frequency < 4294967296) := by
  obtain ⟨hnil, hblock⟩ := requestNewChannels_converted devEUI maxChannels currentChannels
    wantedChannels D h hsorted hmem
  refine ⟨hnil, hblock, ?_⟩
  constructor
  · rintro ⟨-, hsome⟩ i hi
    have hne : D.take (min maxChannels (D.length : Int)).toNat ≠ [] :=
      List.ne_nil_of_mem hi
    obtain ⟨block, hb, -, hall⟩ := hsome hne
    rw [hblock hne] at hb
    have e := Option.some.inj (Except.ok.inj hb)
    rw [← e] at hall
    have := (forall₂_map_self (carriesWanted wantedChannels) _ _).mp hall i hi
    exact (carriesWanted_newChannelReqCommand wantedChannels i).mp this
  · intro hrange
    refine ⟨hnil, fun hne => ⟨_, hblock hne, rfl, ?_⟩⟩
    apply (forall₂_map_self (carriesWanted wantedChannels) _ _).mpr
    intro i hi
    exact (carriesWanted_newChannelReqCommand wantedChannels i).mpr (hrange i hi)

/-- The instance of `requestNewChannels_spec` at `maxChannels = 2` and `D = [4, 5, 6]`: the
block holds the commands for the channels 4 and 5 with the wanted values. -/
theorem requestNewChannels_spec_witness :
    RequestNewChannels 0 2 [(3, ⟨868100000, 0, 5⟩)]
        [(5, ⟨867500000, 0, 5⟩), (3, ⟨868100000, 0, 5⟩), (4, ⟨867300000, 0, 5⟩),
          (6, ⟨867700000, 0, 5⟩)] =
      .ok (some ⟨NewChannelReq,
        [⟨NewChannelReq, .newChannelReq ⟨4, 867300000, 0, 5⟩⟩,
         ⟨NewChannelReq, .newChannelReq ⟨5, 867500000, 0, 5⟩⟩]⟩) ∧
    returnsWantedPrefix 0 2 [(3, ⟨868100000, 0, 5⟩)]
        [(5, ⟨867500000, 0, 5⟩), (3, ⟨868100000, 0, 5⟩), (4, ⟨867300000, 0, 5⟩),
          (6, ⟨867700000, 0, 5⟩)] [4, 5, 6] :=
  ⟨by decide,
   (requestNewChannels_spec 0 2 [(3, ⟨868100000, 0, 5⟩)]
      [(5, ⟨867500000, 0, 5⟩), (3, ⟨868100000, 0, 5⟩), (4, ⟨867300000, 0, 5⟩),
        (6, ⟨867700000, 0, 5⟩)] [4, 5, 6] (by decide) (by decide) (by
    intro i
    rw [← channelDiffers_iff, ← mem_differingIndices]
    have : differingIndices [(3, ⟨868100000, 0, 5⟩)]
      [(5, ⟨867500000, 0, 5⟩), (3, ⟨868100000, 0, 5⟩), (4, ⟨867300000, 0, 5⟩),
        (6, ⟨867700000, 0, 5⟩)] = [4, 5, 6] := by decide
    rw [this])).2.2.mpr (by
      intro i hi
      have hl : List.take (min (2 : Int) (([(4 : Int), 5, 6].length : Nat) : Int)).toNat
          [(4 : Int), 5, 6] = [4, 5] := by decide
      rw [hl] at hi
      simp only [List.mem_cons, List.mem_singleton, List.not_mem_nil, or_false] at hi
      rcases hi with rfl | rfl <;> decide)⟩

/-! ### `handleNewChannelAns` -/

theorem mapGet_mapDelete_ne {κ ν : Type} [DecidableEq κ] (m : List (κ × ν)) (k k' : κ)
    (h : k' ≠ k) : mapGet (mapDelete m k') k = mapGet m k := by
  induction m with
  | nil => rfl
  | cons p m ih =>
    obtain ⟨a, v⟩ := p
    by_cases ha : a = k'
    · subst ha
      simp [mapDelete, mapGet, h, ih]
    · simp [mapDelete, mapGet, ha, ih]

theorem mapGet_mapDelete_self {κ ν : Type} [DecidableEq κ] (m : List (κ × ν)) (k : κ) :
    mapGet (mapDelete m k) k = none := by
  induction m with
  | nil => rfl
  | cons p m ih =>
    obtain ⟨a, v⟩ := p
    by_cases ha : a = k
    · simp [mapDelete, ha, ih]
    · simp [mapDelete, mapGet, ha, ih]

theorem mapGet_mapSet_self {κ ν : Type} [DecidableEq κ] (m : List (κ × ν)) (k : κ) (v : ν) :
    mapGet (mapSet m k v) k = some v := by
  simp [mapSet, mapGet]

theorem mapGet_mapSet_ne {κ ν : Type} [DecidableEq κ] (m : List (κ × ν)) (k k' : κ) (v : ν)
    (h : k' ≠ k) : mapGet (mapSet m k' v) k = mapGet m k := by
  simp [mapSet, mapGet, h, mapGet_mapDelete_ne m k k' h]

/-- The scan `for _, i := range ds.EnabledUplinkChannels` finds `k` exactly when `k` is
in the list. -/
theorem foldl_found (l : List Int) (k : Int) (b : Bool) :
    l.foldl (fun found i => if i = k then true else found) b = (b || decide (k ∈ l)) := by
  induction l generalizing b with
  | nil => simp
  | cons a l ih =>
    rw [List.foldl_cons, ih]
    by_cases h : a = k
    · simp [h]
    · have h' : ¬ k = a := fun e => h e.symm
      simp [h, h']

theorem mapEntries_some {κ ν : Type} (m : List (κ × ν)) : mapEntries (some m) = m := rfl

theorem mapEntries_none {κ ν : Type} : mapEntries (none : Option (List (κ × ν))) = [] := rfl

/-- The acknowledged branch on a session whose `ExtraUplinkChannels` is an allocated map. -/
theorem newChannelAcknowledged_ok (ds : DeviceSession) (pl : NewChannelReqPayload)
    (extra : ChannelMap) (h : ds.ExtraUplinkChannels = some extra) :
    ∃ ds₁, newChannelAcknowledged ds pl = .ok ds₁ ∧
      ds₁.MACCommandErrorCount =
        ds.MACCommandErrorCount.map (fun m => mapDelete m NewChannelAns) ∧
      ds₁.ExtraUplinkChannels = some (mapSet extra (pl.ChIndex : Int)
        ⟨pl.Freq, (pl.MinDR : Int), (pl.MaxDR : Int)⟩) ∧
      ds₁.EnabledUplinkChannels =
        if (pl.ChIndex : Int) ∈ ds.EnabledUplinkChannels then ds.EnabledUplinkChannels
        else ds.EnabledUplinkChannels ++ [(pl.ChIndex : Int)] := by
  unfold newChannelAcknowledged
  simp only [h, foldl_found, Bool.false_or]
  by_cases hmem : (pl.ChIndex : Int) ∈ ds.EnabledUplinkChannels
  · simp [hmem]
  · simp [hmem]

/-- The acknowledged branch on a session whose `ExtraUplinkChannels` is the nil map: the
error counter is deleted, then the assignment panics. -/
theorem newChannelAcknowledged_nil (ds : DeviceSession) (pl : NewChannelReqPayload)
    (h : ds.ExtraUplinkChannels = none) :
    ∃ ds₁, newChannelAcknowledged ds pl =
        .error (GoPanic.assignmentToEntryInNilMap, ds₁) ∧
      ds₁.MACCommandErrorCount =
        ds.MACCommandErrorCount.map (fun m => mapDelete m NewChannelAns) ∧
      ds₁.ExtraUplinkChannels = none ∧
      ds₁.EnabledUplinkChannels = ds.EnabledUplinkChannels := by
  unfold newChannelAcknowledged
  simp only [h]
  exact ⟨_, rfl, rfl, rfl, rfl⟩

/-- The other branch on a session whose `MACCommandErrorCount` is an allocated map. -/
theorem newChannelNotAcknowledged_ok (ds : DeviceSession) (count : List (CID × Int))
    (h : ds.MACCommandErrorCount = some count) :
    ∃ ds₁, newChannelNotAcknowledged ds = .ok ds₁ ∧
      ds₁.MACCommandErrorCount = some (mapSet count NewChannelAns
        (wrapInt64 (errorCount ds NewChannelAns + 1))) ∧
      ds₁.ExtraUplinkChannels = ds.ExtraUplinkChannels ∧
      ds₁.EnabledUplinkChannels = ds.EnabledUplinkChannels := by
  unfold newChannelNotAcknowledged errorCount
  simp only [h, mapEntries_some]
  exact ⟨_, rfl, rfl, rfl, rfl⟩

/-- The other branch on a session whose `MACCommandErrorCount` is the nil map. -/
theorem newChannelNotAcknowledged_nil (ds : DeviceSession)
    (h : ds.MACCommandErrorCount = none) :
    newChannelNotAcknowledged ds = .error (GoPanic.assignmentToEntryInNilMap, ds) := by
  unfold newChannelNotAcknowledged
  simp only [h]

/-- One turn of the loop of `handleNewChannelAns` on an acknowledged answer. -/
theorem handleNewChannelAnsLoop_cons_acknowledged (ds : DeviceSession)
    (answer pending : MACCommand) (answers pendings : List MACCommand)
    (a : NewChannelAnsPayload) (p : NewChannelReqPayload)
    (ha : answer.Payload = .newChannelAns a) (hp : pending.Payload = .newChannelReq p)
    (hok : (a.ChannelFrequencyOK && a.DataRateRangeOK) = true) :
    handleNewChannelAnsLoop ds (answer :: answers) (pending :: pendings) =
      match newChannelAcknowledged ds p with
      | .error e => .error e
      | .ok ds₁ => handleNewChannelAnsLoop ds₁ answers pendings := by
  simp only [handleNewChannelAnsLoop, ha, hp, hok, if_true]

/-- One turn of the loop of `handleNewChannelAns` on an answer that does not acknowledge. -/
theorem handleNewChannelAnsLoop_cons_not_acknowledged (ds : DeviceSession)
    (answer pending : MACCommand) (answers pendings : List MACCommand)
    (a : NewChannelAnsPayload) (p : NewChannelReqPayload)
    (ha : answer.Payload = .newChannelAns a) (hp : pending.Payload = .newChannelReq p)
    (hok : ¬ (a.ChannelFrequencyOK && a.DataRateRangeOK) = true) :
    handleNewChannelAnsLoop ds (answer :: answers) (pending :: pendings) =
      match newChannelNotAcknowledged ds with
      | .error e => .error e
      | .ok ds₁ => handleNewChannelAnsLoop ds₁ answers pendings := by
  simp only [handleNewChannelAnsLoop, ha, hp, hok]
  rfl

/-- The loop of `handleNewChannelAns` on well-typed blocks of equal length with pairwise
distinct pending ChIndex values, on a session whose maps are allocated where the loop
assigns to them: it ends without error, every acknowledged position has its channel
installed and enabled, channels of other indices and enabled indices stay. -/
theorem handleNewChannelAnsLoop_installs (answers : List MACCommand) :
    ∀ (ds : DeviceSession) (pendings : List MACCommand),
      answers.length = pendings.length →
      (∀ cmd ∈ answers, ∃ pl, cmd.Payload = .newChannelAns pl) →
      (∀ cmd ∈ pendings, ∃ pl, cmd.Payload = .newChannelReq pl) →
      pendings.Pairwise (fun c₁ c₂ => ∀ p₁ p₂, c₁.Payload = .newChannelReq p₁ →
        c₂.Payload = .newChannelReq p₂ → p₁.ChIndex ≠ p₂.ChIndex) →
      ((∃ cmd ∈ answers, ∃ pl, cmd.Payload = .newChannelAns pl ∧
          pl.ChannelFrequencyOK = true ∧ pl.DataRateRangeOK = true) →
        ds.ExtraUplinkChannels ≠ none) →
      ((∃ cmd ∈ answers, ∃ pl, cmd.Payload = .newChannelAns pl ∧
          (pl.ChannelFrequencyOK = false ∨ pl.DataRateRangeOK = false)) →
        ds.MACCommandErrorCount ≠ none) →
      ∃ ds', handleNewChannelAnsLoop ds answers pendings = .ok (ds', none) ∧
        (∀ (i : Nat) (ca cp : CID) (a : NewChannelAnsPayload) (p : NewChannelReqPayload),
          answers[i]? = some ⟨ca, .newChannelAns a⟩ →
          pendings[i]? = some ⟨cp, .newChannelReq p⟩ →
          a.ChannelFrequencyOK = true → a.DataRateRangeOK = true →
          mapGet (mapEntries ds'.ExtraUplinkChannels) (p.ChIndex : Int) =
              some ⟨p.Freq, (p.MinDR : Int), (p.MaxDR : Int)⟩ ∧
            (p.ChIndex : Int) ∈ ds'.EnabledUplinkChannels) ∧
        (∀ k : Int, (∀ cmd ∈ pendings, ∀ p, cmd.Payload = .newChannelReq p →
            (p.ChIndex : Int) ≠ k) →
          mapGet (mapEntries ds'.ExtraUplinkChannels) k =
            mapGet (mapEntries ds.ExtraUplinkChannels) k) ∧
        (∀ k ∈ ds.EnabledUplinkChannels, k ∈ ds'.EnabledUplinkChannels) ∧
        (ds.ExtraUplinkChannels ≠ none → ds'.ExtraUplinkChannels ≠ none) := by
  induction answers with
  | nil =>
    intro ds pendings _ _ _ _ _ _
    refine ⟨ds, rfl, ?_, fun _ _ => rfl, fun _ hk => hk, fun h => h⟩
    intro i ca cp a p h
    simp at h
  | cons answer answers ih =>
    intro ds pendings hlen hans hreq hdist hextra hcount
    cases pendings with
    | nil => simp at hlen
    | cons pending pendings =>
      obtain ⟨a, ha⟩ := hans answer (List.mem_cons_self _ _)
      obtain ⟨p, hp⟩ := hreq pending (List.mem_cons_self _ _)
      have hlen' : answers.length = pendings.length := by simpa using hlen
      have hans' : ∀ cmd ∈ answers, ∃ pl, cmd.Payload = .newChannelAns pl :=
        fun cmd hc => hans cmd (List.mem_cons_of_mem _ hc)
      have hreq' : ∀ cmd ∈ pendings, ∃ pl, cmd.Payload = .newChannelReq pl :=
        fun cmd hc => hreq cmd (List.mem_cons_of_mem _ hc)
      obtain ⟨hhead, hdist'⟩ := List.pairwise_cons.mp hdist
      by_cases hok : (a.ChannelFrequencyOK && a.DataRateRangeOK) = true
      · have hflags : a.ChannelFrequencyOK = true ∧ a.DataRateRangeOK = true := by
          simpa using hok
        have hne : ds.ExtraUplinkChannels ≠ none :=
          hextra ⟨answer, List.mem_cons_self _ _, a, ha, hflags.1, hflags.2⟩
        obtain ⟨extra, hex⟩ := Option.ne_none_iff_exists'.mp hne
        obtain ⟨ds₁, hstep, hC, hE, hN⟩ := newChannelAcknowledged_ok ds p extra hex
        obtain ⟨ds', hrun, hinst, hframe, hmono, hkeep⟩ :=
          ih ds₁ pendings hlen' hans' hreq' hdist' (fun _ => by simp [hE])
            (fun h => by
              have := hcount (by
                obtain ⟨cmd, hc, hrest⟩ := h
                exact ⟨cmd, List.mem_cons_of_mem _ hc, hrest⟩)
              obtain ⟨c, hc⟩ := Option.ne_none_iff_exists'.mp this
              simp [hC, hc])
        refine ⟨ds', ?_, ?_, ?_, ?_, ?_⟩
        · rw [handleNewChannelAnsLoop_cons_acknowledged ds answer pending answers pendings
            a p ha hp hok, hstep]
          exact hrun
        · intro i ca cp a' p' hai hpi h1 h2
          cases i with
          | zero =>
            simp only [List.getElem?_cons_zero, Option.some.injEq] at hai hpi
            have hp' : pending.Payload = .newChannelReq p' := by rw [hpi]
            rw [hp] at hp'
            have hpp : p = p' := MACCommandPayload.newChannelReq.inj hp'
            subst hpp
            constructor
            · rw [hframe (p.ChIndex : Int) (fun cmd hc q hq hcontra =>
                hhead cmd hc p q hp hq (by exact_mod_cast hcontra.symm)), hE]
              simp only [mapEntries_some, mapGet_mapSet_self]
            · apply hmono
              rw [hN]
              by_cases hmem : (p.ChIndex : Int) ∈ ds.EnabledUplinkChannels
              · simp [hmem]
              · simp [hmem]
          | succ i =>
            simp only [List.getElem?_cons_succ] at hai hpi
            exact hinst i ca cp a' p' hai hpi h1 h2
        · intro k hk
          rw [hframe k (fun cmd hc q hq => hk cmd (List.mem_cons_of_mem _ hc) q hq), hE, hex]
          simp only [mapEntries_some]
          exact mapGet_mapSet_ne _ _ _ _ (hk pending (List.mem_cons_self _ _) p hp)
        · intro k hk
          apply hmono
          rw [hN]
          by_cases hmem : (p.ChIndex : Int) ∈ ds.EnabledUplinkChannels
          · simp [hmem, hk]
          · simp [hmem, hk]
        · intro _
          exact hkeep (by simp [hE])
      · have hflags : a.ChannelFrequencyOK = false ∨ a.DataRateRangeOK = false := by
          cases h1 : a.ChannelFrequencyOK <;> cases h2 : a.DataRateRangeOK <;>
            simp [h1, h2] at hok ⊢
        have hne : ds.MACCommandErrorCount ≠ none :=
          hcount ⟨answer, List.mem_cons_self _ _, a, ha, hflags⟩
        obtain ⟨count, hco⟩ := Option.ne_none_iff_exists'.mp hne
        obtain ⟨ds₁, hstep, hC, hE, hN⟩ := newChannelNotAcknowledged_ok ds count hco
        obtain ⟨ds', hrun, hinst, hframe, hmono, hkeep⟩ :=
          ih ds₁ pendings hlen' hans' hreq' hdist'
            (fun h => by
              rw [hE]
              exact hextra (by
                obtain ⟨cmd, hc, hrest⟩ := h
                exact ⟨cmd, List.mem_cons_of_mem _ hc, hrest⟩))
            (fun _ => by simp [hC])
        refine ⟨ds', ?_, ?_, ?_, ?_, ?_⟩
        · rw [handleNewChannelAnsLoop_cons_not_acknowledged ds answer pending answers
            pendings a p ha hp hok, hstep]
          exact hrun
        · intro i ca cp a' p' hai hpi h1 h2
          cases i with
          | zero =>
            simp only [List.getElem?_cons_zero, Option.some.injEq] at hai
            have ha' : answer.Payload = .newChannelAns a' := by rw [hai]
            rw [ha] at ha'
            have haa : a = a' := MACCommandPayload.newChannelAns.inj ha'
            subst haa
            simp [h1, h2] at hok
          | succ i =>
            simp only [List.getElem?_cons_succ] at hai hpi
            exact hinst i ca cp a' p' hai hpi h1 h2
        · intro k hk
          rw [hframe k (fun cmd hc q hq => hk cmd (List.mem_cons_of_mem _ hc) q hq), hE]
        · intro k hk
          exact hmono k (by rw [hN]; exact hk)
        · intro h
          exact hkeep (by rw [hE]; exact h)

/-- The loop of `handleNewChannelAns` when no answer acknowledges, on a session whose
`MACCommandErrorCount` is an allocated map: every turn adds one to the error counter of
`NewChannelAns`, with wrap-around, and nothing else of the session changes. -/
theorem handleNewChannelAnsLoop_not_acknowledged (answers : List MACCommand) :
    ∀ (ds : DeviceSession) (pendings : List MACCommand),
      answers.length = pendings.length →
      (∀ cmd ∈ answers, ∃ pl, cmd.Payload = .newChannelAns pl ∧
        (pl.ChannelFrequencyOK = false ∨ pl.DataRateRangeOK = false)) →
      (∀ cmd ∈ pendings, ∃ pl, cmd.Payload = .newChannelReq pl) →
      ds.MACCommandErrorCount ≠ none →
      ∃ ds', handleNewChannelAnsLoop ds answers pendings = .ok (ds', none) ∧
        (answers = [] → errorCount ds' NewChannelAns = errorCount ds NewChannelAns) ∧
        (answers ≠ [] → errorCount ds' NewChannelAns =
          wrapInt64 (errorCount ds NewChannelAns + (answers.length : Int))) ∧
        ds'.ExtraUplinkChannels = ds.ExtraUplinkChannels ∧
        ds'.EnabledUplinkChannels = ds.EnabledUplinkChannels := by
  induction answers with
  | nil =>
    intro ds pendings _ _ _ _
    exact ⟨ds, rfl, fun _ => rfl, fun h => absurd rfl h, rfl, rfl⟩
  | cons answer answers ih =>
    intro ds pendings hlen hans hreq hmap
    cases pendings with
    | nil => simp at hlen
    | cons pending pendings =>
      obtain ⟨a, ha, hflag⟩ := hans answer (List.mem_cons_self _ _)
      obtain ⟨p, hp⟩ := hreq pending (List.mem_cons_self _ _)
      have hok : ¬ ((a.ChannelFrequencyOK && a.DataRateRangeOK) = true) := by
        rcases hflag with h | h <;> simp [h]
      obtain ⟨count, hco⟩ := Option.ne_none_iff_exists'.mp hmap
      obtain ⟨ds₁, hstep, hC, hE, hN⟩ := newChannelNotAcknowledged_ok ds count hco
      have hlen1 : ((answer :: answers).length : Int) = (answers.length : Int) + 1 := by
        simp
      have h1 : errorCount ds₁ NewChannelAns =
          wrapInt64 (errorCount ds NewChannelAns + 1) := by
        simp only [errorCount, hC, mapEntries_some, mapGet_mapSet_self, Option.getD_some, hco]
      obtain ⟨ds', hrun, hnil, hcount, hextra, henabled⟩ :=
        ih ds₁ pendings (by simpa using hlen)
          (fun cmd hc => hans cmd (List.mem_cons_of_mem _ hc))
          (fun cmd hc => hreq cmd (List.mem_cons_of_mem _ hc))
          (by simp [hC])
      refine ⟨ds', ?_, (fun h => by cases h), fun _ => ?_, ?_, ?_⟩
      · rw [handleNewChannelAnsLoop_cons_not_acknowledged ds answer pending answers
          pendings a p ha hp hok, hstep]
        exact hrun
      · by_cases hempty : answers = []
        · rw [hnil hempty, h1, hempty]
          simp
        · rw [hcount hempty, h1, hlen1]
          unfold wrapInt64
          omega
      · rw [hextra, hE]
      · rw [henabled, hN]

/-- When the loop of `handleNewChannelAns` returns on well-typed blocks of equal length,
the session's maps were allocated where the loop assigns to them. -/
theorem handleNewChannelAnsLoop_returns_allocated (answers : List MACCommand) :
    ∀ (ds : DeviceSession) (pendings : List MACCommand) (ds' : DeviceSession)
      (e : Option HandlerError),
      answers.length = pendings.length →
      (∀ cmd ∈ answers, ∃ pl, cmd.Payload = .newChannelAns pl) →
      (∀ cmd ∈ pendings, ∃ pl, cmd.Payload = .newChannelReq pl) →
      handleNewChannelAnsLoop ds answers pendings = .ok (ds', e) →
      ((∃ cmd ∈ answers, ∃ pl, cmd.Payload = .newChannelAns pl ∧
          pl.ChannelFrequencyOK = true ∧ pl.DataRateRangeOK = true) →
        ds.ExtraUplinkChannels ≠ none) ∧
      ((∃ cmd ∈ answers, ∃ pl, cmd.Payload = .newChannelAns pl ∧
          (pl.ChannelFrequencyOK = false ∨ pl.DataRateRangeOK = false)) →
        ds.MACCommandErrorCount ≠ none) := by
  induction answers with
  | nil =>
    intro ds pendings ds' e _ _ _ _
    constructor
    · rintro ⟨cmd, hc, -⟩
      cases hc
    · rintro ⟨cmd, hc, -⟩
      cases hc
  | cons answer answers ih =>
    intro ds pendings ds' e hlen hans hreq hrun
    cases pendings with
    | nil => simp at hlen
    | cons pending pendings =>
      obtain ⟨a, ha⟩ := hans answer (List.mem_cons_self _ _)
      obtain ⟨p, hp⟩ := hreq pending (List.mem_cons_self _ _)
      have hlen' : answers.length = pendings.length := by simpa using hlen
      have hans' : ∀ cmd ∈ answers, ∃ pl, cmd.Payload = .newChannelAns pl :=
        fun cmd hc => hans cmd (List.mem_cons_of_mem _ hc)
      have hreq' : ∀ cmd ∈ pendings, ∃ pl, cmd.Payload = .newChannelReq pl :=
        fun cmd hc => hreq cmd (List.mem_cons_of_mem _ hc)
      by_cases hok : (a.ChannelFrequencyOK && a.DataRateRangeOK) = true
      · have hflags : a.ChannelFrequencyOK = true ∧ a.DataRateRangeOK = true := by
          simpa using hok
        rw [handleNewChannelAnsLoop_cons_acknowledged ds answer pending answers pendings
          a p ha hp hok] at hrun
        cases hex : ds.ExtraUplinkChannels with
        | none =>
          obtain ⟨ds₁, hstep, -⟩ := newChannelAcknowledged_nil ds p hex
          rw [hstep] at hrun
          cases hrun
        | some extra =>
          obtain ⟨ds₁, hstep, hC, -, -⟩ := newChannelAcknowledged_ok ds p extra hex
          rw [hstep] at hrun
          obtain ⟨-, hcount⟩ := ih ds₁ pendings ds' e hlen' hans' hreq' hrun
          refine ⟨fun _ => by simp, ?_⟩
          rintro ⟨cmd, hc, pl, hpl, hflag⟩
          rcases List.mem_cons.mp hc with hhead | htail
          · exfalso
            rw [hhead, ha] at hpl
            have e' : a = pl := MACCommandPayload.newChannelAns.inj hpl
            subst e'
            rcases hflag with h | h
            · rw [hflags.1] at h; cases h
            · rw [hflags.2] at h; cases h
          · have := hcount ⟨cmd, htail, pl, hpl, hflag⟩
            rw [hC] at this
            intro hnone
            rw [hnone] at this
            exact this rfl
      · have hflags : a.ChannelFrequencyOK = false ∨ a.DataRateRangeOK = false := by
          cases h1 : a.ChannelFrequencyOK <;> cases h2 : a.DataRateRangeOK <;>
            simp [h1, h2] at hok ⊢
        rw [handleNewChannelAnsLoop_cons_not_acknowledged ds answer pending answers
          pendings a p ha hp hok] at hrun
        cases hco : ds.MACCommandErrorCount with
        | none =>
          rw [newChannelNotAcknowledged_nil ds hco] at hrun
          cases hrun
        | some count =>
          obtain ⟨ds₁, hstep, -, hE, -⟩ := newChannelNotAcknowledged_ok ds count hco
          rw [hstep] at hrun
          obtain ⟨hextra, -⟩ := ih ds₁ pendings ds' e hlen' hans' hreq' hrun
          refine ⟨?_, fun _ => by simp⟩
          rintro ⟨cmd, hc, pl, hpl, h1, h2⟩
          rcases List.mem_cons.mp hc with hhead | htail
          · exfalso
            rw [hhead, ha] at hpl
            have e' : a = pl := MACCommandPayload.newChannelAns.inj hpl
            subst e'
            rcases hflags with h | h
            · rw [h1] at h; cases h
            · rw [h2] at h; cases h
          · have := hextra ⟨cmd, htail, pl, hpl, h1, h2⟩
            rw [hE] at this
            exact this

/-- C4 as stated fails: on the zero-value device session, whose maps are nil, an
acknowledged answer makes the handler panic at the assignment to `ExtraUplinkChannels`,
and an answer that does not acknowledge makes it panic at the increment of
`MACCommandErrorCount`; in neither case does the handler return. -/
theorem installsAcknowledged_counterexample :
    handleNewChannelAns zeroDeviceSession
        ⟨NewChannelAns, [⟨NewChannelAns, .newChannelAns ⟨true, true⟩⟩]⟩
        (some ⟨NewChannelReq, [⟨NewChannelReq, .newChannelReq ⟨3, 867100000, 0, 5⟩⟩]⟩) =
      .error (GoPanic.assignmentToEntryInNilMap, zeroDeviceSession) ∧
    ¬ installsAcknowledged zeroDeviceSession
        ⟨NewChannelAns, [⟨NewChannelAns, .newChannelAns ⟨true, true⟩⟩]⟩
        ⟨NewChannelReq, [⟨NewChannelReq, .newChannelReq ⟨3, 867100000, 0, 5⟩⟩]⟩ ∧
    handleNewChannelAns zeroDeviceSession
        ⟨NewChannelAns, [⟨NewChannelAns, .newChannelAns ⟨true, false⟩⟩]⟩
        (some ⟨NewChannelReq, [⟨NewChannelReq, .newChannelReq ⟨3, 867100000, 0, 5⟩⟩]⟩) =
      .error (GoPanic.assignmentToEntryInNilMap, zeroDeviceSession) ∧
    ¬ installsAcknowledged zeroDeviceSession
        ⟨NewChannelAns, [⟨NewChannelAns, .newChannelAns ⟨true, false⟩⟩]⟩
        ⟨NewChannelReq, [⟨NewChannelReq, .newChannelReq ⟨3, 867100000, 0, 5⟩⟩]⟩ := by
  have h1 : handleNewChannelAns zeroDeviceSession
        ⟨NewChannelAns, [⟨NewChannelAns, .newChannelAns ⟨true, true⟩⟩]⟩
        (some ⟨NewChannelReq, [⟨NewChannelReq, .newChannelReq ⟨3, 867100000, 0, 5⟩⟩]⟩) =
      .error (GoPanic.assignmentToEntryInNilMap, zeroDeviceSession) := by decide
  have h2 : handleNewChannelAns zeroDeviceSession
        ⟨NewChannelAns, [⟨NewChannelAns, .newChannelAns ⟨true, false⟩⟩]⟩
        (some ⟨NewChannelReq, [⟨NewChannelReq, .newChannelReq ⟨3, 867100000, 0, 5⟩⟩]⟩) =
      .error (GoPanic.assignmentToEntryInNilMap, zeroDeviceSession) := by decide
  refine ⟨h1, ?_, h2, ?_⟩
  · rintro ⟨ds', h, -⟩
    rw [h1] at h
    cases h
  · rintro ⟨ds', h, -⟩
    rw [h2] at h
    cases h

/-- C4, amended: for answer and pending blocks of equal non-zero length holding
NewChannelAns and NewChannelReq payloads, the pending ChIndex values pairwise distinct:
`handleNewChannelAns` returns no response blocks and no error, with, for every position `i`
whose answer has ChannelFrequencyOK and DataRateRangeOK set,
`ExtraUplinkChannels[pending[i].ChIndex] = {pending[i].Freq, pending[i].MinDR,
pending[i].MaxDR}` and `pending[i].ChIndex` among the `EnabledUplinkChannels` afterwards,
exactly when the session's `ExtraUplinkChannels` is not the nil map if some answer
acknowledges and its `MACCommandErrorCount` is not the nil map if some answer does not. -/
theorem handleNewChannelAns_installs (ds : DeviceSession) (block pending : MACCommandBlock)
    (hlen : block.MACCommands.length = pending.MACCommands.length)
    (hpos : block.MACCommands.length ≠ 0)
    (hans : ∀ cmd ∈ block.MACCommands, ∃ pl, cmd.Payload = .newChannelAns pl)
    (hreq : ∀ cmd ∈ pending.MACCommands, ∃ pl, cmd.Payload = .newChannelReq pl)
    (hdist : pending.MACCommands.Pairwise (fun c₁ c₂ => ∀ p₁ p₂,
      c₁.Payload = .newChannelReq p₁ → c₂.Payload = .newChannelReq p₂ →
        p₁.ChIndex ≠ p₂.ChIndex)) :
    installsAcknowledged ds block pending ↔
      (((∃ cmd ∈ block.MACCommands, ∃ pl, cmd.Payload = .newChannelAns pl ∧
          pl.ChannelFrequencyOK = true ∧ pl.DataRateRangeOK = true) →
        ds.ExtraUplinkChannels ≠ none) ∧
      ((∃ cmd ∈ block.MACCommands, ∃ pl, cmd.Payload = .newChannelAns pl ∧
          (pl.ChannelFrequencyOK = false ∨ pl.DataRateRangeOK = false)) →
        ds.MACCommandErrorCount ≠ none)) := by
  have hpos' : pending.MACCommands.length ≠ 0 := by rw [← hlen]; exact hpos
  have hne : ¬ (block.MACCommands.length ≠ pending.MACCommands.length) := by simp [hlen]
  constructor
  · rintro ⟨ds', hrun, -⟩
    simp only [handleNewChannelAns, if_neg hpos, if_neg hpos', if_neg hne] at hrun
    cases hloop : handleNewChannelAnsLoop ds block.MACCommands pending.MACCommands with
    | error pe =>
      rw [hloop] at hrun
      cases hrun
    | ok res =>
      obtain ⟨ds₁, e⟩ := res
      exact handleNewChannelAnsLoop_returns_allocated block.MACCommands ds
        pending.MACCommands ds₁ e hlen hans hreq hloop
  · rintro ⟨hextra, hcount⟩
    obtain ⟨ds', hrun, hinst, -, -, -⟩ :=
      handleNewChannelAnsLoop_installs block.MACCommands ds pending.MACCommands hlen hans hreq
        hdist hextra hcount
    refine ⟨ds', ?_, hinst⟩
    simp only [handleNewChannelAns, if_neg hpos, if_neg hpos', if_neg hne, hrun]

/-- The instance of `handleNewChannelAns_installs` at three answers (acknowledged, not
acknowledged, acknowledged) for channels 3, 4 and 2, on a session whose two maps are not
nil. -/
theorem handleNewChannelAns_installs_witness :
    handleNewChannelAns ⟨1, [0, 1, 2], some [], some [(NewChannelAns, 2)], 1, 3, 1⟩
      ⟨NewChannelAns, [⟨NewChannelAns, .newChannelAns ⟨true, true⟩⟩,
        ⟨NewChannelAns, .newChannelAns ⟨true, false⟩⟩,
        ⟨NewChannelAns, .newChannelAns ⟨true, true⟩⟩]⟩
      (some ⟨NewChannelReq, [⟨NewChannelReq, .newChannelReq ⟨3, 867100000, 0, 5⟩⟩,
        ⟨NewChannelReq, .newChannelReq ⟨4, 867300000, 0, 5⟩⟩,
        ⟨NewChannelReq, .newChannelReq ⟨2, 868500000, 0, 5⟩⟩]⟩) =
      .ok (⟨1, [0, 1, 2, 3], some [(2, ⟨868500000, 0, 5⟩), (3, ⟨867100000, 0, 5⟩)],
        some [], 1, 3, 1⟩, .ok []) ∧
    installsAcknowledged ⟨1, [0, 1, 2], some [], some [(NewChannelAns, 2)], 1, 3, 1⟩
      ⟨NewChannelAns, [⟨NewChannelAns, .newChannelAns ⟨true, true⟩⟩,
        ⟨NewChannelAns, .newChannelAns ⟨true, false⟩⟩,
        ⟨NewChannelAns, .newChannelAns ⟨true, true⟩⟩]⟩
      ⟨NewChannelReq, [⟨NewChannelReq, .newChannelReq ⟨3, 867100000, 0, 5⟩⟩,
        ⟨NewChannelReq, .newChannelReq ⟨4, 867300000, 0, 5⟩⟩,
        ⟨NewChannelReq, .newChannelReq ⟨2, 868500000, 0, 5⟩⟩]⟩ :=
  ⟨by decide,
   (handleNewChannelAns_installs
      ⟨1, [0, 1, 2], some [], some [(NewChannelAns, 2)], 1, 3, 1⟩
      ⟨NewChannelAns, [⟨NewChannelAns, .newChannelAns ⟨true, true⟩⟩,
        ⟨NewChannelAns, .newChannelAns ⟨true, false⟩⟩,
        ⟨NewChannelAns, .newChannelAns ⟨true, true⟩⟩]⟩
      ⟨NewChannelReq, [⟨NewChannelReq, .newChannelReq ⟨3, 867100000, 0, 5⟩⟩,
        ⟨NewChannelReq, .newChannelReq ⟨4, 867300000, 0, 5⟩⟩,
        ⟨NewChannelReq, .newChannelReq ⟨2, 868500000, 0, 5⟩⟩]⟩
      (by decide) (by decide)
      (by
        intro cmd hc
        simp only [List.mem_cons, List.mem_singleton, List.not_mem_nil, or_false] at hc
        rcases hc with rfl | rfl | rfl <;> exact ⟨_, rfl⟩)
      (by
        intro cmd hc
        simp only [List.mem_cons, List.mem_singleton, List.not_mem_nil, or_false] at hc
        rcases hc with rfl | rfl | rfl <;> exact ⟨_, rfl⟩)
      (by simp)).mpr ⟨by intro _; simp, by intro _; simp⟩⟩

/-- C5 as stated fails twice.  On the zero-value device session, whose
`MACCommandErrorCount` is the nil map, an answer that does not acknowledge makes the
handler panic at the increment, and the counter stays 0.  On a session whose counter is the
largest `int`, the increment wraps around to the smallest `int`. -/
theorem countsNotAcknowledged_counterexample :
    handleNewChannelAns zeroDeviceSession
        ⟨NewChannelAns, [⟨NewChannelAns, .newChannelAns ⟨false, true⟩⟩]⟩
        (some ⟨NewChannelReq, [⟨NewChannelReq, .newChannelReq ⟨3, 867100000, 0, 5⟩⟩]⟩) =
      .error (GoPanic.assignmentToEntryInNilMap, zeroDeviceSession) ∧
    ¬ countsNotAcknowledged zeroDeviceSession
        ⟨NewChannelAns, [⟨NewChannelAns, .newChannelAns ⟨false, true⟩⟩]⟩
        ⟨NewChannelReq, [⟨NewChannelReq, .newChannelReq ⟨3, 867100000, 0, 5⟩⟩]⟩ ∧
    handleNewChannelAns
        ⟨1, [0, 1, 2], some [], some [(NewChannelAns, 9223372036854775807)], 1, 3, 1⟩
        ⟨NewChannelAns, [⟨NewChannelAns, .newChannelAns ⟨false, true⟩⟩]⟩
        (some ⟨NewChannelReq, [⟨NewChannelReq, .newChannelReq ⟨3, 867100000, 0, 5⟩⟩]⟩) =
      .ok (⟨1, [0, 1, 2], some [], some [(NewChannelAns, -9223372036854775808)], 1, 3, 1⟩,
        .ok []) ∧
    ¬ countsNotAcknowledged
        ⟨1, [0, 1, 2], some [], some [(NewChannelAns, 9223372036854775807)], 1, 3, 1⟩
        ⟨NewChannelAns, [⟨NewChannelAns, .newChannelAns ⟨false, true⟩⟩]⟩
        ⟨NewChannelReq, [⟨NewChannelReq, .newChannelReq ⟨3, 867100000, 0, 5⟩⟩]⟩ := by
  have h1 : handleNewChannelAns zeroDeviceSession
        ⟨NewChannelAns, [⟨NewChannelAns, .newChannelAns ⟨false, true⟩⟩]⟩
        (some ⟨NewChannelReq, [⟨NewChannelReq, .newChannelReq ⟨3, 867100000, 0, 5⟩⟩]⟩) =
      .error (GoPanic.assignmentToEntryInNilMap, zeroDeviceSession) := by decide
  have h2 : handleNewChannelAns
        ⟨1, [0, 1, 2], some [], some [(NewChannelAns, 9223372036854775807)], 1, 3, 1⟩
        ⟨NewChannelAns, [⟨NewChannelAns, .newChannelAns ⟨false, true⟩⟩]⟩
        (some ⟨NewChannelReq, [⟨NewChannelReq, .newChannelReq ⟨3, 867100000, 0, 5⟩⟩]⟩) =
      .ok (⟨1, [0, 1, 2], some [], some [(NewChannelAns, -9223372036854775808)], 1, 3, 1⟩,
        .ok []) := by decide
  refine ⟨h1, ?_, h2, ?_⟩
  · rintro ⟨ds', r, h, -⟩
    rw [h1] at h
    cases h
  · rintro ⟨ds', r, h, hcount, -⟩
    rw [h2] at h
    have e := (Prod.mk.inj (Except.ok.inj h)).1
    rw [← e] at hcount
    revert hcount
    decide

/-- C5, amended: for answer and pending blocks (NewChannelAns answers, NewChannelReq
requests) of equal length `n >= 1` in which every answer has ChannelFrequencyOK or
DataRateRangeOK cleared, and a device session whose `MACCommandErrorCount` is not the nil
map, with `c` its counter for NewChannelAns: `handleNewChannelAns` returns no error, leaves
`ExtraUplinkChannels` and `EnabledUplinkChannels` unchanged, and sets the counter to
`c + n` wrapped around to the 64 bits of an `int`, which is `c + n`, an increase by exactly
`n`, exactly when `c + n` is within the range of an `int`. -/
theorem handleNewChannelAns_not_acknowledged (ds : DeviceSession)
    (block pending : MACCommandBlock)
    (hlen : block.MACCommands.length = pending.MACCommands.length)
    (hpos : 1 ≤ block.MACCommands.length)
    (hans : ∀ cmd ∈ block.MACCommands, ∃ pl, cmd.Payload = .newChannelAns pl ∧
      (pl.ChannelFrequencyOK = false ∨ pl.DataRateRangeOK = false))
    (hreq : ∀ cmd ∈ pending.MACCommands, ∃ pl, cmd.Payload = .newChannelReq pl)
    (hmap : ds.MACCommandErrorCount ≠ none) :
    ∃ ds', handleNewChannelAns ds block (some pending) = .ok (ds', .ok []) ∧
      errorCount ds' NewChannelAns =
        wrapInt64 (errorCount ds NewChannelAns + (block.MACCommands.length : Int)) ∧
      (errorCount ds' NewChannelAns =
          errorCount ds NewChannelAns + (block.MACCommands.length : Int) ↔
        (-9223372036854775808 ≤
            errorCount ds NewChannelAns + (block.MACCommands.length : Int) ∧
          errorCount ds NewChannelAns + (block.MACCommands.length : Int) ≤
            9223372036854775807)) ∧
      ds'.ExtraUplinkChannels = ds.ExtraUplinkChannels ∧
      ds'.EnabledUplinkChannels = ds.EnabledUplinkChannels := by
  obtain ⟨ds', hrun, -, hcount, hextra, henabled⟩ :=
    handleNewChannelAnsLoop_not_acknowledged block.MACCommands ds pending.MACCommands
      hlen hans hreq hmap
  have hpos0 : block.MACCommands.length ≠ 0 := by omega
  have hpos' : pending.MACCommands.length ≠ 0 := by rw [← hlen]; exact hpos0
  have hne : ¬ (block.MACCommands.length ≠ pending.MACCommands.length) := by simp [hlen]
  have hnil : block.MACCommands ≠ [] := fun h => hpos0 (by rw [h]; rfl)
  refine ⟨ds', ?_, hcount hnil, ?_, hextra, henabled⟩
  · simp only [handleNewChannelAns, if_neg hpos0, if_neg hpos', if_neg hne, hrun]
  · rw [hcount hnil]
    unfold wrapInt64
    omega

/-- The instance of `handleNewChannelAns_not_acknowledged` at two answers, one with the
frequency refused and one with the data-rate range refused: the counter goes from 2 to 4. -/
theorem handleNewChannelAns_not_acknowledged_witness :
    handleNewChannelAns
      ⟨1, [0, 1, 2], some [(3, ⟨867100000, 0, 5⟩)], some [(NewChannelAns, 2)], 1, 3, 1⟩
      ⟨NewChannelAns, [⟨NewChannelAns, .newChannelAns ⟨false, true⟩⟩,
        ⟨NewChannelAns, .newChannelAns ⟨true, false⟩⟩]⟩
      (some ⟨NewChannelReq, [⟨NewChannelReq, .newChannelReq ⟨3, 867100000, 0, 3⟩⟩,
        ⟨NewChannelReq, .newChannelReq ⟨4, 867300000, 0, 5⟩⟩]⟩) =
      .ok (⟨1, [0, 1, 2], some [(3, ⟨867100000, 0, 5⟩)], some [(NewChannelAns, 4)], 1, 3, 1⟩,
        .ok []) ∧
    countsNotAcknowledged
      ⟨1, [0, 1, 2], some [(3, ⟨867100000, 0, 5⟩)], some [(NewChannelAns, 2)], 1, 3, 1⟩
      ⟨NewChannelAns, [⟨NewChannelAns, .newChannelAns ⟨false, true⟩⟩,
        ⟨NewChannelAns, .newChannelAns ⟨true, false⟩⟩]⟩
      ⟨NewChannelReq, [⟨NewChannelReq, .newChannelReq ⟨3, 867100000, 0, 3⟩⟩,
        ⟨NewChannelReq, .newChannelReq ⟨4, 867300000, 0, 5⟩⟩]⟩ := by
  obtain ⟨ds', hrun, -, hiff, hextra, henabled⟩ :=
    handleNewChannelAns_not_acknowledged
      ⟨1, [0, 1, 2], some [(3, ⟨867100000, 0, 5⟩)], some [(NewChannelAns, 2)], 1, 3, 1⟩
      ⟨NewChannelAns, [⟨NewChannelAns, .newChannelAns ⟨false, true⟩⟩,
        ⟨NewChannelAns, .newChannelAns ⟨true, false⟩⟩]⟩
      ⟨NewChannelReq, [⟨NewChannelReq, .newChannelReq ⟨3, 867100000, 0, 3⟩⟩,
        ⟨NewChannelReq, .newChannelReq ⟨4, 867300000, 0, 5⟩⟩]⟩
      (by decide) (by decide)
      (by
        intro cmd hc
        simp only [List.mem_cons, List.mem_singleton, List.not_mem_nil, or_false] at hc
        rcases hc with rfl | rfl
        · exact ⟨_, rfl, Or.inl rfl⟩
        · exact ⟨_, rfl, Or.inr rfl⟩)
      (by
        intro cmd hc
        simp only [List.mem_cons, List.mem_singleton, List.not_mem_nil, or_false] at hc
        rcases hc with rfl | rfl <;> exact ⟨_, rfl⟩)
      (by decide)
  exact ⟨by decide, ds', _, hrun, hiff.mpr (by decide), hextra, henabled⟩

/-- C6: when the answer block is empty, or the pending block is nil or empty, or the two
blocks hold different numbers of mac-commands, `handleNewChannelAns` returns an error
(and so no response blocks) and leaves the device session unchanged. -/
theorem handleNewChannelAns_rejects (ds : DeviceSession) (block : MACCommandBlock)
    (pending : Option MACCommandBlock)
    (h : block.MACCommands = [] ∨ pending = none ∨
      (∃ p, pending = some p ∧ p.MACCommands = []) ∨
      (∃ p, pending = some p ∧ block.MACCommands.length ≠ p.MACCommands.length)) :
    ∃ err, handleNewChannelAns ds block pending = .ok (ds, .error err) := by
  unfold handleNewChannelAns
  by_cases h0 : block.MACCommands.length = 0
  · exact ⟨_, by rw [if_pos h0]⟩
  · rw [if_neg h0]
    cases pending with
    | none => exact ⟨_, rfl⟩
    | some p =>
      simp only
      by_cases h1 : p.MACCommands.length = 0
      · exact ⟨_, by rw [if_pos h1]⟩
      · rw [if_neg h1]
        by_cases h2 : block.MACCommands.length ≠ p.MACCommands.length
        · exact ⟨_, by rw [if_pos h2]⟩
        · exfalso
          rcases h with h | h | ⟨q, hq, h⟩ | ⟨q, hq, h⟩
          · exact h0 (by rw [h]; rfl)
          · cases h
          · cases hq
            exact h1 (by rw [h]; rfl)
          · cases hq
            exact h2 h

/-- The instance of `handleNewChannelAns_rejects` at one answer against two pending
requests. -/
theorem handleNewChannelAns_rejects_witness :
    ∃ err, handleNewChannelAns ⟨1, [0, 1, 2], some [], some [(NewChannelAns, 2)], 1, 3, 1⟩
      ⟨NewChannelAns, [⟨NewChannelAns, .newChannelAns ⟨true, true⟩⟩]⟩
      (some ⟨NewChannelReq, [⟨NewChannelReq, .newChannelReq ⟨3, 867100000, 0, 5⟩⟩,
        ⟨NewChannelReq, .newChannelReq ⟨4, 867300000, 0, 5⟩⟩]⟩) =
      .ok (⟨1, [0, 1, 2], some [], some [(NewChannelAns, 2)], 1, 3, 1⟩, .error err) :=
  handleNewChannelAns_rejects _ _ _ (Or.inr (Or.inr (Or.inr ⟨_, rfl, by decide⟩)))

/-! ### `handleRekeyInd` -/

/-- C7: for a RekeyInd block holding exactly one command with a RekeyIndPayload of device
minor version `d`, `handleRekeyInd` returns without error exactly one block with CID
RekeyConf holding exactly one RekeyConf command whose `ServLoRaWANVersion.Minor` is
`min(1, d)`; this never exceeds `d` (0 for `d = 0`, 1 for every `d >= 1`). -/
theorem handleRekeyInd_clamps (ds : DeviceSession) (blockCID cmdCID : CID) (d : Nat) :
    handleRekeyInd ds
        { CID := blockCID
          MACCommands := [{ CID := cmdCID
                            Payload := .rekeyInd { DevLoRaWANVersion := { Minor := d } } }] } =
      .ok [{ CID := RekeyConf
             MACCommands := [{ CID := RekeyConf
                               Payload := .rekeyConf
                                 { ServLoRaWANVersion := { Minor := min 1 d } } }] }] ∧
    min 1 d ≤ d ∧ (d = 0 → min 1 d = 0) ∧ (1 ≤ d → min 1 d = 1) := by
  refine ⟨?_, by omega, by omega, by omega⟩
  simp only [handleRekeyInd, List.length_singleton, ne_eq, not_true_eq_false, if_false,
    List.head?_cons, servLoRaWANVersionMinor]
  by_cases h : 1 > d
  · have h0 : d = 0 := by omega
    subst h0
    simp
  · have h1 : min 1 d = 1 := by omega
    simp [h, h1]

/-! ### `HandleChannelReconfigure` -/

theorem sliceModify_append_last {α : Type} (init : List α) (last : α) (f : α → α) :
    sliceModify (init ++ [last]) init.length f = init ++ [f last] := by
  induction init with
  | nil => rfl
  | cons a init ih => simp [sliceModify, ih]

theorem foldl_append_commands (g : LinkADRReqPayload → MACCommand)
    (l : List LinkADRReqPayload) (b : MACCommandBlock) :
    l.foldl (fun (block : MACCommandBlock) p =>
        { block with MACCommands := block.MACCommands ++ [g p] }) b =
      { b with MACCommands := b.MACCommands ++ l.map g } := by
  induction l generalizing b with
  | nil => simp
  | cons a l ih => simp [ih]

/-- C8: let `P` be the payloads the band returns for `ds.EnabledUplinkChannels`.  When `P`
is empty, `HandleChannelReconfigure` returns no blocks and no error.  Otherwise it returns
exactly one block with CID LinkADRReq holding `|P|` LinkADRReq commands whose payloads are
`P` in the same order, except that the last payload has `TXPower = uint8(ds.TXPowerIndex)`,
`DataRate = uint8(ds.DR)` and `Redundancy.NbRep = ds.NbTrans`; the other payloads and the
other fields of the last one (channel mask, channel mask control) are the band's. -/
theorem handleChannelReconfigure_spec
    (getLinkADRReqPayloads : List Int → List LinkADRReqPayload) (ds : DeviceSession) :
    (getLinkADRReqPayloads ds.EnabledUplinkChannels = [] →
      HandleChannelReconfigure getLinkADRReqPayloads ds = .ok []) ∧
    (∀ (init : List LinkADRReqPayload) (last : LinkADRReqPayload),
      getLinkADRReqPayloads ds.EnabledUplinkChannels = init ++ [last] →
      HandleChannelReconfigure getLinkADRReqPayloads ds =
        .ok [{ CID := LinkADRReq
               MACCommands :=
                 (init ++ [({ DataRate := toUint8 ds.DR
                              TXPower := toUint8 ds.TXPowerIndex
                              ChMask := last.ChMask
                              Redundancy := { ChMaskCntl := last.Redundancy.ChMaskCntl
                                              NbRep := ds.NbTrans } } :
                            LinkADRReqPayload)]).map
                   (fun p => { CID := LinkADRReq, Payload := .linkADRReq p }) }]) := by
  constructor
  · intro h
    simp [HandleChannelReconfigure, h]
  · intro init last h
    have hlen : (init ++ [last]).length ≠ 0 := by simp
    have hidx : ∀ x : LinkADRReqPayload, (init ++ [x]).length - 1 = init.length := by
      intro x; simp
    simp only [HandleChannelReconfigure, h, if_neg hlen, hidx, sliceModify_append_last,
      foldl_append_commands, List.nil_append]

/-- The instance of `handleChannelReconfigure_spec` at a band that returns two payloads,
for a session with TXPowerIndex 2, DR 5 and NbTrans 3. -/
theorem handleChannelReconfigure_spec_witness :
    HandleChannelReconfigure
        (fun _ => [⟨0, 0, [true, true, true], ⟨0, 0⟩⟩, ⟨0, 0, [true, false], ⟨1, 0⟩⟩])
        ⟨1, [0, 1, 2, 16], some [], some [], 2, 5, 3⟩ =
      .ok [{ CID := LinkADRReq
             MACCommands :=
               [{ CID := LinkADRReq
                  Payload := .linkADRReq ⟨0, 0, [true, true, true], ⟨0, 0⟩⟩ },
                { CID := LinkADRReq
                  Payload := .linkADRReq ⟨5, 2, [true, false], ⟨1, 3⟩⟩ }] }] :=
  (handleChannelReconfigure_spec
    (fun _ => [⟨0, 0, [true, true, true], ⟨0, 0⟩⟩, ⟨0, 0, [true, false], ⟨1, 0⟩⟩])
    ⟨1, [0, 1, 2, 16], some [], some [], 2, 5, 3⟩).2
    [⟨0, 0, [true, true, true], ⟨0, 0⟩⟩] ⟨0, 0, [true, false], ⟨1, 0⟩⟩ rfl

/-! ### `unwrapNSKeyEnvelope` -/

/-- C9 as stated fails: for the empty KEKLabel and the 3-byte AESKey `01 02 03` the call
returns the 16-byte key `01 02 03 00 .. 00`, which is not the AESKey. -/
theorem unwrapReturnsAESKey_counterexample :
    ¬ unwrapReturnsAESKey { KEKLabel := "", AESKey := [1, 2, 3] } := by
  intro h
  have h1 := h Unit [] (fun _ _ => .error ())
  have h2 : unwrapNSKeyEnvelope [] (fun _ _ => (.error () : Except Unit AES128Key))
      { KEKLabel := "", AESKey := [1, 2, 3] } =
      .ok [1, 2, 3, 0, 0, 0, 0, 0, 0, 0, 0, 0, 0, 0, 0, 0] := by decide
  rw [h2] at h1
  exact absurd h1 (by decide)

/-- C9, amended: for a KeyEnvelope with an empty KEKLabel, `unwrapNSKeyEnvelope` returns
no error, whatever the KEK store and the unwrapping method are (neither is consulted),
and the key is the 16-byte array holding the first 16 bytes of `ke.AESKey`, padded with
zero bytes when `ke.AESKey` is shorter; it equals `ke.AESKey` byte for byte when
`ke.AESKey` has 16 bytes. -/
theorem unwrapNSKeyEnvelope_empty_label {ε : Type} (keks : List (String × List Nat))
    (unwrap : KeyEnvelope → List Nat → Except ε AES128Key) (ke : KeyEnvelope)
    (h : ke.KEKLabel = "") :
    unwrapNSKeyEnvelope keks unwrap ke =
        .ok (ke.AESKey.take 16 ++ List.replicate (16 - ke.AESKey.length) 0) ∧
    (ke.AESKey.length = 16 → unwrapNSKeyEnvelope keks unwrap ke = .ok ke.AESKey) := by
  have hmain : unwrapNSKeyEnvelope keks unwrap ke =
      .ok (ke.AESKey.take 16 ++ List.replicate (16 - ke.AESKey.length) 0) := by
    simp only [unwrapNSKeyEnvelope, h, if_true, goCopy, List.length_replicate,
      List.drop_replicate]
    by_cases hl : ke.AESKey.length ≤ 16
    · have h1 : min 16 ke.AESKey.length = ke.AESKey.length := by omega
      rw [h1, List.take_length, List.take_of_length_le hl]
    · have h1 : min 16 ke.AESKey.length = 16 := by omega
      have h2 : 16 - ke.AESKey.length = 0 := by omega
      rw [h1, h2]
  refine ⟨hmain, ?_⟩
  intro h16
  rw [hmain, h16]
  have : List.take 16 ke.AESKey = ke.AESKey := List.take_of_length_le (by omega)
  simp [this]

/-- The instance of `unwrapNSKeyEnvelope_empty_label` at a 16-byte key, with a KEK store
and an unwrapping method that would fail if consulted. -/
theorem unwrapNSKeyEnvelope_empty_label_witness :
    unwrapNSKeyEnvelope [] (fun _ _ => (.error () : Except Unit AES128Key))
        { KEKLabel := "", AESKey := [1, 2, 3, 4, 5, 6, 7, 8, 1, 2, 3, 4, 5, 6, 7, 8] } =
      .ok [1, 2, 3, 4, 5, 6, 7, 8, 1, 2, 3, 4, 5, 6, 7, 8] :=
  (unwrapNSKeyEnvelope_empty_label [] (fun _ _ => (.error () : Except Unit AES128Key))
    { KEKLabel := "", AESKey := [1, 2, 3, 4, 5, 6, 7, 8, 1, 2, 3, 4, 5, 6, 7, 8] } rfl).2 rfl

/-! ### `handleNewChannelAns`: error counter, enabled channels -/

theorem mem_mapKeys_mapSet {ν : Type} (m : List (Int × ν)) (k k' : Int) (v : ν) :
    k ∈ mapKeys (mapSet m k' v) ↔ k = k' ∨ k ∈ mapKeys m := by
  rw [← mapGet_isSome_iff_mem_keys, ← mapGet_isSome_iff_mem_keys]
  by_cases h : k' = k
  · subst h
    simp [mapGet_mapSet_self]
  · rw [mapGet_mapSet_ne m k k' v h]
    constructor
    · intro h1; exact Or.inr h1
    · rintro (h1 | h1)
      · exact absurd h1.symm h
      · exact h1

/-- What `handleNewChannelAns` does is what its guards or its loop do. -/
theorem handleNewChannelAns_cases (ds : DeviceSession) (block : MACCommandBlock)
    (pending : Option MACCommandBlock) :
    ((block.MACCommands = [] ∨ pending = none ∨
        ∃ pb, pending = some pb ∧
          (pb.MACCommands = [] ∨ block.MACCommands.length ≠ pb.MACCommands.length)) ∧
      ∃ err, handleNewChannelAns ds block pending = .ok (ds, .error err)) ∨
    (∃ pb, pending = some pb ∧ block.MACCommands.length = pb.MACCommands.length ∧
      block.MACCommands ≠ [] ∧
      ((∃ ds' e r, handleNewChannelAnsLoop ds block.MACCommands pb.MACCommands =
            .ok (ds', e) ∧
          handleNewChannelAns ds block pending = .ok (ds', r) ∧ (e = none → r = .ok [])) ∨
        (∃ p ds', handleNewChannelAnsLoop ds block.MACCommands pb.MACCommands =
            .error (p, ds') ∧
          handleNewChannelAns ds block pending = .error (p, ds')))) := by
  unfold handleNewChannelAns
  by_cases h0 : block.MACCommands.length = 0
  · exact Or.inl ⟨Or.inl (List.length_eq_zero.mp h0), _, by rw [if_pos h0]⟩
  · rw [if_neg h0]
    cases pending with
    | none => exact Or.inl ⟨Or.inr (Or.inl rfl), _, rfl⟩
    | some pb =>
      simp only
      by_cases h1 : pb.MACCommands.length = 0
      · exact Or.inl ⟨Or.inr (Or.inr ⟨pb, rfl, Or.inl (List.length_eq_zero.mp h1)⟩), _,
          by rw [if_pos h1]⟩
      · rw [if_neg h1]
        by_cases h2 : block.MACCommands.length ≠ pb.MACCommands.length
        · exact Or.inl ⟨Or.inr (Or.inr ⟨pb, rfl, Or.inr h2⟩), _, by rw [if_pos h2]⟩
        · rw [if_neg h2]
          have hlen : block.MACCommands.length = pb.MACCommands.length := by
            simpa using h2
          right
          refine ⟨pb, rfl, hlen, fun h => h0 (by rw [h]; rfl), ?_⟩
          cases hrun : handleNewChannelAnsLoop ds block.MACCommands pb.MACCommands with
          | error pe =>
            obtain ⟨p, ds'⟩ := pe
            exact Or.inr ⟨p, ds', rfl, rfl⟩
          | ok res =>
            obtain ⟨ds', e⟩ := res
            left
            cases e with
            | none => exact ⟨ds', none, _, rfl, rfl, fun _ => rfl⟩
            | some err => exact ⟨ds', some err, _, rfl, rfl, fun h => by cases h⟩

/-- The loop of `handleNewChannelAns` when every answer acknowledges, on a session whose
`ExtraUplinkChannels` is an allocated map: it ends without error, the error counter of
`NewChannelAns` has no entry, the counters of the other CIDs stay. -/
theorem handleNewChannelAnsLoop_acknowledged (answers : List MACCommand) :
    ∀ (ds : DeviceSession) (pendings : List MACCommand),
      answers.length = pendings.length →
      (∀ cmd ∈ answers, ∃ pl, cmd.Payload = .newChannelAns pl ∧
        pl.ChannelFrequencyOK = true ∧ pl.DataRateRangeOK = true) →
      (∀ cmd ∈ pendings, ∃ pl, cmd.Payload = .newChannelReq pl) →
      ds.ExtraUplinkChannels ≠ none →
      ∃ ds', handleNewChannelAnsLoop ds answers pendings = .ok (ds', none) ∧
        (mapGet (mapEntries ds.MACCommandErrorCount) NewChannelAns = none ∨ answers ≠ [] →
          mapGet (mapEntries ds'.MACCommandErrorCount) NewChannelAns = none) ∧
        (∀ cid : CID, cid ≠ NewChannelAns →
          mapGet (mapEntries ds'.MACCommandErrorCount) cid =
            mapGet (mapEntries ds.MACCommandErrorCount) cid) := by
  induction answers with
  | nil =>
    intro ds pendings _ _ _ _
    refine ⟨ds, rfl, ?_, fun _ _ => rfl⟩
    rintro (h | h)
    · exact h
    · exact absurd rfl h
  | cons answer answers ih =>
    intro ds pendings hlen hans hreq hne
    cases pendings with
    | nil => simp at hlen
    | cons pending pendings =>
      obtain ⟨a, ha, h1, h2⟩ := hans answer (List.mem_cons_self _ _)
      obtain ⟨p, hp⟩ := hreq pending (List.mem_cons_self _ _)
      have hok : (a.ChannelFrequencyOK && a.DataRateRangeOK) = true := by simp [h1, h2]
      obtain ⟨extra, hex⟩ := Option.ne_none_iff_exists'.mp hne
      obtain ⟨ds₁, hstep, hC, hE, -⟩ := newChannelAcknowledged_ok ds p extra hex
      obtain ⟨ds', hrun, hnone, hothers⟩ :=
        ih ds₁ pendings (by simpa using hlen)
          (fun cmd hc => hans cmd (List.mem_cons_of_mem _ hc))
          (fun cmd hc => hreq cmd (List.mem_cons_of_mem _ hc)) (by simp [hE])
      refine ⟨ds', ?_, ?_, ?_⟩
      · rw [handleNewChannelAnsLoop_cons_acknowledged ds answer pending answers pendings
          a p ha hp hok, hstep]
        exact hrun
      · intro _
        apply hnone
        left
        rw [hC]
        cases ds.MACCommandErrorCount with
        | none => rfl
        | some c => simp only [Option.map_some', mapEntries_some, mapGet_mapDelete_self]
      · intro cid hcid
        rw [hothers cid hcid, hC]
        cases ds.MACCommandErrorCount with
        | none => rfl
        | some c =>
          simp only [Option.map_some', mapEntries_some]
          exact mapGet_mapDelete_ne _ _ _ (fun e => hcid e.symm)

/-- The loop of `handleNewChannelAns` keeps the enabled channels inside the band's
indices united with the keys of the extra channels, wherever it stops, be it by a panic. -/
theorem handleNewChannelAnsLoop_enabled_subset (B : Set Int) (answers : List MACCommand) :
    ∀ (ds : DeviceSession) (pendings : List MACCommand),
      (∀ k ∈ ds.EnabledUplinkChannels,
        k ∈ B ∨ k ∈ mapKeys (mapEntries ds.ExtraUplinkChannels)) →
      (∀ ds' e, handleNewChannelAnsLoop ds answers pendings = .ok (ds', e) →
        ∀ k ∈ ds'.EnabledUplinkChannels,
          k ∈ B ∨ k ∈ mapKeys (mapEntries ds'.ExtraUplinkChannels)) ∧
      (∀ p ds', handleNewChannelAnsLoop ds answers pendings = .error (p, ds') →
        ∀ k ∈ ds'.EnabledUplinkChannels,
          k ∈ B ∨ k ∈ mapKeys (mapEntries ds'.ExtraUplinkChannels)) := by
  induction answers with
  | nil =>
    intro ds pendings hinv
    constructor
    · intro ds' e h
      simp only [handleNewChannelAnsLoop, Except.ok.injEq, Prod.mk.injEq] at h
      rw [← h.1]
      exact hinv
    · intro p ds' h
      simp [handleNewChannelAnsLoop] at h
  | cons answer answers ih =>
    intro ds pendings hinv
    cases ha : answer.Payload with
    | newChannelAns a =>
      cases pendings with
      | nil =>
        constructor
        · intro ds' e h
          simp [handleNewChannelAnsLoop, ha] at h
        · intro p ds' h
          simp only [handleNewChannelAnsLoop, ha, Except.error.injEq, Prod.mk.injEq] at h
          rw [← h.2]
          exact hinv
      | cons pending pendings =>
        cases hp : pending.Payload with
        | newChannelReq p =>
          by_cases hok : (a.ChannelFrequencyOK && a.DataRateRangeOK) = true
          · rw [handleNewChannelAnsLoop_cons_acknowledged ds answer pending answers pendings
              a p ha hp hok]
            cases hex : ds.ExtraUplinkChannels with
            | none =>
              obtain ⟨ds₁, hstep, -, hE, hN⟩ := newChannelAcknowledged_nil ds p hex
              rw [hstep]
              constructor
              · intro ds' e h
                cases h
              · intro q ds' h
                simp only [Except.error.injEq, Prod.mk.injEq] at h
                rw [← h.2, hN, hE, ← hex]
                exact hinv
            | some extra =>
              obtain ⟨ds₁, hstep, -, hE, hN⟩ := newChannelAcknowledged_ok ds p extra hex
              rw [hstep]
              apply ih ds₁ pendings
              intro k hk
              rw [hE, mapEntries_some, mem_mapKeys_mapSet]
              rw [hN] at hk
              have hinv' : ∀ k ∈ ds.EnabledUplinkChannels, k ∈ B ∨ k ∈ mapKeys extra := by
                intro k hk
                have := hinv k hk
                rw [hex, mapEntries_some] at this
                exact this
              by_cases hmem : (p.ChIndex : Int) ∈ ds.EnabledUplinkChannels
              · rw [if_pos hmem] at hk
                rcases hinv' k hk with h1 | h1
                · exact Or.inl h1
                · exact Or.inr (Or.inr h1)
              · rw [if_neg hmem, List.mem_append, List.mem_singleton] at hk
                rcases hk with hk | hk
                · rcases hinv' k hk with h1 | h1
                  · exact Or.inl h1
                  · exact Or.inr (Or.inr h1)
                · exact Or.inr (Or.inl hk)
          · rw [handleNewChannelAnsLoop_cons_not_acknowledged ds answer pending answers
              pendings a p ha hp hok]
            cases hco : ds.MACCommandErrorCount with
            | none =>
              rw [newChannelNotAcknowledged_nil ds hco]
              constructor
              · intro ds' e h
                cases h
              · intro q ds' h
                simp only [Except.error.injEq, Prod.mk.injEq] at h
                rw [← h.2]
                exact hinv
            | some count =>
              obtain ⟨ds₁, hstep, -, hE, hN⟩ := newChannelNotAcknowledged_ok ds count hco
              rw [hstep]
              apply ih ds₁ pendings
              rw [hE, hN]
              exact hinv
        | _ =>
          constructor
          · intro ds' e h
            simp only [handleNewChannelAnsLoop, ha, hp, Except.ok.injEq, Prod.mk.injEq] at h
            rw [← h.1]
            exact hinv
          · intro q ds' h
            simp [handleNewChannelAnsLoop, ha, hp] at h
    | _ =>
      constructor
      · intro ds' e h
        simp only [handleNewChannelAnsLoop, ha, Except.ok.injEq, Prod.mk.injEq] at h
        rw [← h.1]
        exact hinv
      · intro q ds' h
        simp [handleNewChannelAnsLoop, ha] at h

/-- C17: for answer and pending blocks (NewChannelAns answers, NewChannelReq requests) of
equal length `n >= 1` in which every answer has ChannelFrequencyOK and DataRateRangeOK
set, on every device session, whatever `MACCommandErrorCount[NewChannelAns]` was before:
after `handleNewChannelAns` the map `MACCommandErrorCount` has no entry for NewChannelAns
(its count reads zero), and the entries of all other CIDs are unchanged.  The handler
returns, without error, when `ExtraUplinkChannels` is an allocated map; when it is the nil
map the handler panics at the assignment to it in the first turn, which comes after the
deletion of the counter, so the session has the counter deleted then too. -/
theorem handleNewChannelAns_resets_counter (ds : DeviceSession)
    (block pending : MACCommandBlock)
    (hlen : block.MACCommands.length = pending.MACCommands.length)
    (hpos : 1 ≤ block.MACCommands.length)
    (hans : ∀ cmd ∈ block.MACCommands, ∃ pl, cmd.Payload = .newChannelAns pl ∧
      pl.ChannelFrequencyOK = true ∧ pl.DataRateRangeOK = true)
    (hreq : ∀ cmd ∈ pending.MACCommands, ∃ pl, cmd.Payload = .newChannelReq pl) :
    ∃ ds',
      ((ds.ExtraUplinkChannels ≠ none ∧
          handleNewChannelAns ds block (some pending) = .ok (ds', .ok [])) ∨
        (ds.ExtraUplinkChannels = none ∧
          handleNewChannelAns ds block (some pending) =
            .error (GoPanic.assignmentToEntryInNilMap, ds'))) ∧
      mapGet (mapEntries ds'.MACCommandErrorCount) NewChannelAns = none ∧
      errorCount ds' NewChannelAns = 0 ∧
      ∀ cid : CID, cid ≠ NewChannelAns →
        mapGet (mapEntries ds'.MACCommandErrorCount) cid =
          mapGet (mapEntries ds.MACCommandErrorCount) cid := by
  have hpos0 : block.MACCommands.length ≠ 0 := by omega
  have hpos' : pending.MACCommands.length ≠ 0 := by rw [← hlen]; exact hpos0
  have hne : ¬ (block.MACCommands.length ≠ pending.MACCommands.length) := by simp [hlen]
  cases hex : ds.ExtraUplinkChannels with
  | some extra =>
    obtain ⟨ds', hrun, hnone, hothers⟩ :=
      handleNewChannelAnsLoop_acknowledged block.MACCommands ds pending.MACCommands
        hlen hans hreq (by simp [hex])
    have hnil : block.MACCommands ≠ [] := fun h => hpos0 (by rw [h]; rfl)
    have hn := hnone (Or.inr hnil)
    refine ⟨ds', Or.inl ⟨by simp, ?_⟩, hn, ?_, hothers⟩
    · simp only [handleNewChannelAns, if_neg hpos0, if_neg hpos', if_neg hne, hrun]
    · simp [errorCount, hn]
  | none =>
    obtain ⟨answer, answers, hb⟩ := List.exists_cons_of_ne_nil
      (fun h => hpos0 (by rw [h]; rfl) : block.MACCommands ≠ [])
    obtain ⟨pcmd, pendings, hpb⟩ := List.exists_cons_of_ne_nil
      (fun h => hpos' (by rw [h]; rfl) : pending.MACCommands ≠ [])
    obtain ⟨a, ha, h1, h2⟩ := hans answer (by rw [hb]; exact List.mem_cons_self _ _)
    obtain ⟨p, hp⟩ := hreq pcmd (by rw [hpb]; exact List.mem_cons_self _ _)
    have hok : (a.ChannelFrequencyOK && a.DataRateRangeOK) = true := by simp [h1, h2]
    obtain ⟨ds₁, hstep, hC, -, -⟩ := newChannelAcknowledged_nil ds p hex
    have hn : mapGet (mapEntries ds₁.MACCommandErrorCount) NewChannelAns = none := by
      rw [hC]
      cases ds.MACCommandErrorCount with
      | none => rfl
      | some c => simp only [Option.map_some', mapEntries_some, mapGet_mapDelete_self]
    refine ⟨ds₁, Or.inr ⟨rfl, ?_⟩, hn, ?_, ?_⟩
    · simp only [handleNewChannelAns, if_neg hpos0, if_neg hpos', if_neg hne]
      rw [hb, hpb, handleNewChannelAnsLoop_cons_acknowledged ds answer pcmd answers pendings
        a p ha hp hok, hstep]
    · simp [errorCount, hn]
    · intro cid hcid
      rw [hC]
      cases ds.MACCommandErrorCount with
      | none => rfl
      | some c =>
        simp only [Option.map_some', mapEntries_some]
        exact mapGet_mapDelete_ne _ _ _ (fun e => hcid e.symm)

/-- The instance of `handleNewChannelAns_resets_counter` at two acknowledged answers, for a
session with counters 2 for NewChannelAns and 1 for LinkADR, once with an allocated
`ExtraUplinkChannels` and once with the nil map. -/
theorem handleNewChannelAns_resets_counter_witness :
    handleNewChannelAns
      ⟨1, [0, 1, 2], some [], some [(LinkADRReq, 1), (NewChannelAns, 2)], 1, 3, 1⟩
      ⟨NewChannelAns, [⟨NewChannelAns, .newChannelAns ⟨true, true⟩⟩,
        ⟨NewChannelAns, .newChannelAns ⟨true, true⟩⟩]⟩
      (some ⟨NewChannelReq, [⟨NewChannelReq, .newChannelReq ⟨3, 867100000, 0, 5⟩⟩,
        ⟨NewChannelReq, .newChannelReq ⟨4, 867300000, 0, 5⟩⟩]⟩) =
      .ok (⟨1, [0, 1, 2, 3, 4], some [(4, ⟨867300000, 0, 5⟩), (3, ⟨867100000, 0, 5⟩)],
        some [(LinkADRReq, 1)], 1, 3, 1⟩, .ok []) ∧
    handleNewChannelAns
      ⟨1, [0, 1, 2], none, some [(LinkADRReq, 1), (NewChannelAns, 2)], 1, 3, 1⟩
      ⟨NewChannelAns, [⟨NewChannelAns, .newChannelAns ⟨true, true⟩⟩,
        ⟨NewChannelAns, .newChannelAns ⟨true, true⟩⟩]⟩
      (some ⟨NewChannelReq, [⟨NewChannelReq, .newChannelReq ⟨3, 867100000, 0, 5⟩⟩,
        ⟨NewChannelReq, .newChannelReq ⟨4, 867300000, 0, 5⟩⟩]⟩) =
      .error (GoPanic.assignmentToEntryInNilMap,
        ⟨1, [0, 1, 2], none, some [(LinkADRReq, 1)], 1, 3, 1⟩) ∧
    ∃ ds',
      ((DeviceSession.ExtraUplinkChannels
            ⟨1, [0, 1, 2], some [], some [(LinkADRReq, 1), (NewChannelAns, 2)], 1, 3, 1⟩ ≠
            none ∧
          handleNewChannelAns
            ⟨1, [0, 1, 2], some [], some [(LinkADRReq, 1), (NewChannelAns, 2)], 1, 3, 1⟩
            ⟨NewChannelAns, [⟨NewChannelAns, .newChannelAns ⟨true, true⟩⟩,
              ⟨NewChannelAns, .newChannelAns ⟨true, true⟩⟩]⟩
            (some ⟨NewChannelReq, [⟨NewChannelReq, .newChannelReq ⟨3, 867100000, 0, 5⟩⟩,
              ⟨NewChannelReq, .newChannelReq ⟨4, 867300000, 0, 5⟩⟩]⟩) = .ok (ds', .ok [])) ∨
        (DeviceSession.ExtraUplinkChannels
            ⟨1, [0, 1, 2], some [], some [(LinkADRReq, 1), (NewChannelAns, 2)], 1, 3, 1⟩ =
            none ∧
          handleNewChannelAns
            ⟨1, [0, 1, 2], some [], some [(LinkADRReq, 1), (NewChannelAns, 2)], 1, 3, 1⟩
            ⟨NewChannelAns, [⟨NewChannelAns, .newChannelAns ⟨true, true⟩⟩,
              ⟨NewChannelAns, .newChannelAns ⟨true, true⟩⟩]⟩
            (some ⟨NewChannelReq, [⟨NewChannelReq, .newChannelReq ⟨3, 867100000, 0, 5⟩⟩,
              ⟨NewChannelReq, .newChannelReq ⟨4, 867300000, 0, 5⟩⟩]⟩) =
            .error (GoPanic.assignmentToEntryInNilMap, ds'))) ∧
      mapGet (mapEntries ds'.MACCommandErrorCount) NewChannelAns = none ∧
      errorCount ds' NewChannelAns = 0 ∧
      ∀ cid : CID, cid ≠ NewChannelAns →
        mapGet (mapEntries ds'.MACCommandErrorCount) cid =
          mapGet (mapEntries (some [(LinkADRReq, (1 : Int)), (NewChannelAns, 2)])) cid :=
  ⟨by decide, by decide,
   handleNewChannelAns_resets_counter
      ⟨1, [0, 1, 2], some [], some [(LinkADRReq, 1), (NewChannelAns, 2)], 1, 3, 1⟩
      ⟨NewChannelAns, [⟨NewChannelAns, .newChannelAns ⟨true, true⟩⟩,
        ⟨NewChannelAns, .newChannelAns ⟨true, true⟩⟩]⟩
      ⟨NewChannelReq, [⟨NewChannelReq, .newChannelReq ⟨3, 867100000, 0, 5⟩⟩,
        ⟨NewChannelReq, .newChannelReq ⟨4, 867300000, 0, 5⟩⟩]⟩
      (by decide) (by decide)
      (by
        intro cmd hc
        simp only [List.mem_cons, List.mem_singleton, List.not_mem_nil, or_false] at hc
        rcases hc with rfl | rfl <;> exact ⟨_, rfl, rfl, rfl⟩)
      (by
        intro cmd hc
        simp only [List.mem_cons, List.mem_singleton, List.not_mem_nil, or_false] at hc
        rcases hc with rfl | rfl <;> exact ⟨_, rfl⟩)⟩

/-- C18: for every set `B` of band-defined channel indices and every device session whose
`EnabledUplinkChannels` lies in `B` united with the keys of `ExtraUplinkChannels` (a nil
map has no keys): after every call of `handleNewChannelAns`, with any answer block and any
pending block (or none), `EnabledUplinkChannels` still lies in `B` united with the keys of
`ExtraUplinkChannels`, whether the call returns, with or without error, or panics at an
assignment to a nil map of the session (the session then being as the panic leaves it). -/
theorem handleNewChannelAns_enabled_subset (B : Set Int) (ds : DeviceSession)
    (block : MACCommandBlock) (pending : Option MACCommandBlock)
    (hinv : ∀ k ∈ ds.EnabledUplinkChannels,
      k ∈ B ∨ k ∈ mapKeys (mapEntries ds.ExtraUplinkChannels)) :
    (∀ ds' r, handleNewChannelAns ds block pending = .ok (ds', r) →
      ∀ k ∈ ds'.EnabledUplinkChannels,
        k ∈ B ∨ k ∈ mapKeys (mapEntries ds'.ExtraUplinkChannels)) ∧
    (∀ p ds', handleNewChannelAns ds block pending = .error (p, ds') →
      ∀ k ∈ ds'.EnabledUplinkChannels,
        k ∈ B ∨ k ∈ mapKeys (mapEntries ds'.ExtraUplinkChannels)) := by
  rcases handleNewChannelAns_cases ds block pending with
    ⟨-, err, h⟩ | ⟨pb, -, -, -, ⟨ds₁, e, r₁, hloop, h, -⟩ | ⟨q, ds₁, hloop, h⟩⟩
  · rw [h]
    constructor
    · intro ds' r hr
      rw [← (Prod.mk.inj (Except.ok.inj hr)).1]
      exact hinv
    · intro p ds' hr
      cases hr
  · rw [h]
    constructor
    · intro ds' r hr
      rw [← (Prod.mk.inj (Except.ok.inj hr)).1]
      exact (handleNewChannelAnsLoop_enabled_subset B block.MACCommands ds pb.MACCommands
        hinv).1 ds₁ e hloop
    · intro p ds' hr
      cases hr
  · rw [h]
    constructor
    · intro ds' r hr
      cases hr
    · intro p ds' hr
      rw [← (Prod.mk.inj (Except.error.inj hr)).2]
      exact (handleNewChannelAnsLoop_enabled_subset B block.MACCommands ds pb.MACCommands
        hinv).2 q ds₁ hloop

/-- The instance of `handleNewChannelAns_enabled_subset` at the band indices 0, 1, 2, an
acknowledged request for channel 3 and a pending command of another payload type, where
the handler stops with an error after the first command. -/
theorem handleNewChannelAns_enabled_subset_witness :
    handleNewChannelAns ⟨1, [0, 1, 2], some [], some [], 1, 3, 1⟩
      ⟨NewChannelAns, [⟨NewChannelAns, .newChannelAns ⟨true, true⟩⟩,
        ⟨NewChannelAns, .newChannelAns ⟨true, true⟩⟩]⟩
      (some ⟨NewChannelReq, [⟨NewChannelReq, .newChannelReq ⟨3, 867100000, 0, 5⟩⟩,
        ⟨NewChannelReq, .other⟩]⟩) =
      .ok (⟨1, [0, 1, 2, 3], some [(3, ⟨867100000, 0, 5⟩)], some [], 1, 3, 1⟩,
        .error HandlerError.expectedNewChannelReqPayload) ∧
    ∀ k ∈ [(0 : Int), 1, 2, 3],
      k ∈ ({0, 1, 2} : Set Int) ∨
        k ∈ mapKeys (mapEntries (some [((3 : Int), (⟨867100000, 0, 5⟩ : Channel))])) :=
  ⟨by decide,
   (handleNewChannelAns_enabled_subset {0, 1, 2} ⟨1, [0, 1, 2], some [], some [], 1, 3, 1⟩
      ⟨NewChannelAns, [⟨NewChannelAns, .newChannelAns ⟨true, true⟩⟩,
        ⟨NewChannelAns, .newChannelAns ⟨true, true⟩⟩]⟩
      (some ⟨NewChannelReq, [⟨NewChannelReq, .newChannelReq ⟨3, 867100000, 0, 5⟩⟩,
        ⟨NewChannelReq, .other⟩]⟩)
      (by
        intro k hk
        simp only [List.mem_cons, List.mem_singleton, List.not_mem_nil, or_false] at hk
        left
        rcases hk with rfl | rfl | rfl <;> simp)).1
      ⟨1, [0, 1, 2, 3], some [(3, ⟨867100000, 0, 5⟩)], some [], 1, 3, 1⟩
      (.error HandlerError.expectedNewChannelReqPayload) (by decide)⟩

theorem acknowledgedAt_succ (answer pending : MACCommand) (answers pendings : List MACCommand)
    (i : Nat) (idx : Int) :
    acknowledgedAt (answer :: answers) (pending :: pendings) (i + 1) idx ↔
      acknowledgedAt answers pendings i idx := by
  simp only [acknowledgedAt, List.getElem?_cons_succ]

theorem wellTypedAt_succ (answer pending : MACCommand) (answers pendings : List MACCommand)
    (i : Nat) :
    wellTypedAt (answer :: answers) (pending :: pendings) (i + 1) ↔
      wellTypedAt answers pendings i := by
  simp only [wellTypedAt, List.getElem?_cons_succ]

theorem acknowledgedAt_zero (answer pending : MACCommand) (answers pendings : List MACCommand)
    (idx : Int) :
    acknowledgedAt (answer :: answers) (pending :: pendings) 0 idx ↔
      ∃ a p, answer.Payload = .newChannelAns a ∧ pending.Payload = .newChannelReq p ∧
        a.ChannelFrequencyOK = true ∧ a.DataRateRangeOK = true ∧ (p.ChIndex : Int) = idx := by
  simp only [acknowledgedAt, List.getElem?_cons_zero, Option.some.injEq]
  constructor
  · rintro ⟨ca, cp, a, p, h1, h2, h3, h4, h5⟩
    exact ⟨a, p, by rw [h1], by rw [h2], h3, h4, h5⟩
  · rintro ⟨a, p, h1, h2, h3, h4, h5⟩
    exact ⟨answer.CID, pending.CID, a, p, by rw [← h1], by rw [← h2], h3, h4, h5⟩

theorem wellTypedAt_zero (answer pending : MACCommand) (answers pendings : List MACCommand) :
    wellTypedAt (answer :: answers) (pending :: pendings) 0 ↔
      ∃ a p, answer.Payload = .newChannelAns a ∧ pending.Payload = .newChannelReq p := by
  simp only [wellTypedAt, List.getElem?_cons_zero, Option.some.injEq]
  constructor
  · rintro ⟨ca, cp, a, p, h1, h2⟩
    exact ⟨a, p, by rw [h1], by rw [h2]⟩
  · rintro ⟨a, p, h1, h2⟩
    exact ⟨answer.CID, pending.CID, a, p, by rw [← h1], by rw [← h2]⟩

/-- Behind a first position that is not well typed nothing is reached. -/
theorem appendsInOrder_of_not_wellTyped (enabled : List Int) (answers pendings : List MACCommand)
    (h : ¬ wellTypedAt answers pendings 0) : appendsInOrder enabled answers pendings := by
  intro j idx hack htyped
  exfalso
  cases j with
  | zero =>
    obtain ⟨ca, cp, a, p, h1, h2, -⟩ := hack
    exact h ⟨ca, cp, a, p, h1, h2⟩
  | succ j => exact h (htyped 0 (Nat.succ_pos j))

/-- The property `appendsInOrder` behind a first position that acknowledges channel `c`. -/
theorem appendsInOrder_cons_acknowledged (enabled : List Int) (answer pending : MACCommand)
    (answers pendings : List MACCommand) (a : NewChannelAnsPayload) (p : NewChannelReqPayload)
    (ha : answer.Payload = .newChannelAns a) (hp : pending.Payload = .newChannelReq p)
    (h1 : a.ChannelFrequencyOK = true) (h2 : a.DataRateRangeOK = true) :
    appendsInOrder enabled (answer :: answers) (pending :: pendings) ↔
      (((p.ChIndex : Int) ∈ enabled ∨ ∀ k ∈ enabled, k < (p.ChIndex : Int)) ∧
        appendsInOrder
          (if (p.ChIndex : Int) ∈ enabled then enabled else enabled ++ [(p.ChIndex : Int)])
          answers pendings) := by
  have hack0 : acknowledgedAt (answer :: answers) (pending :: pendings) 0 (p.ChIndex : Int) :=
    (acknowledgedAt_zero _ _ _ _ _).mpr ⟨a, p, ha, hp, h1, h2, rfl⟩
  have hack0' : ∀ idx, acknowledgedAt (answer :: answers) (pending :: pendings) 0 idx →
      idx = (p.ChIndex : Int) := by
    intro idx h
    obtain ⟨a', p', -, hp', -, -, hidx⟩ := (acknowledgedAt_zero _ _ _ _ _).mp h
    rw [hp] at hp'
    rw [← hidx, MACCommandPayload.newChannelReq.inj hp']
  have htyped0 : wellTypedAt (answer :: answers) (pending :: pendings) 0 :=
    (wellTypedAt_zero _ _ _ _).mpr ⟨a, p, ha, hp⟩
  have hmem : ∀ k, k ∈ (if (p.ChIndex : Int) ∈ enabled then enabled
      else enabled ++ [(p.ChIndex : Int)]) ↔ k ∈ enabled ∨ k = (p.ChIndex : Int) := by
    intro k
    by_cases hm : (p.ChIndex : Int) ∈ enabled
    · rw [if_pos hm]
      constructor
      · intro h; exact Or.inl h
      · rintro (h | h)
        · exact h
        · rw [h]; exact hm
    · rw [if_neg hm, List.mem_append, List.mem_singleton]
  constructor
  · intro H
    constructor
    · rcases H 0 _ hack0 (fun i hi => absurd hi (Nat.not_lt_zero i)) with h | ⟨i, hi, -⟩ | h
      · exact Or.inl h
      · exact absurd hi (Nat.not_lt_zero i)
      · exact Or.inr h.1
    · intro j idx hack htyped
      have hfull := H (j + 1) idx ((acknowledgedAt_succ _ _ _ _ _ _).mpr hack) (by
        intro i hi
        cases i with
        | zero => exact htyped0
        | succ i => exact (wellTypedAt_succ _ _ _ _ _).mpr (htyped i (by omega)))
      rcases hfull with h | ⟨i, hi, hacki⟩ | ⟨habove, hearlier⟩
      · exact Or.inl ((hmem idx).mpr (Or.inl h))
      · cases i with
        | zero => exact Or.inl ((hmem idx).mpr (Or.inr (hack0' idx hacki)))
        | succ i =>
          exact Or.inr (Or.inl ⟨i, by omega, (acknowledgedAt_succ _ _ _ _ _ _).mp hacki⟩)
      · refine Or.inr (Or.inr ⟨?_, ?_⟩)
        · intro k hk
          rcases (hmem k).mp hk with hk | hk
          · exact habove k hk
          · rw [hk]
            exact hearlier 0 (Nat.succ_pos j) _ hack0
        · intro i hi idx' hacki
          exact hearlier (i + 1) (by omega) idx' ((acknowledgedAt_succ _ _ _ _ _ _).mpr hacki)
  · rintro ⟨hfirst, H⟩
    intro j idx hack htyped
    cases j with
    | zero =>
      rw [hack0' idx hack]
      rcases hfirst with h | h
      · exact Or.inl h
      · exact Or.inr (Or.inr ⟨h, fun i hi => absurd hi (Nat.not_lt_zero i)⟩)
    | succ j =>
      have htail := H j idx ((acknowledgedAt_succ _ _ _ _ _ _).mp hack) (by
        intro i hi
        exact (wellTypedAt_succ _ _ _ _ _).mp (htyped (i + 1) (by omega)))
      rcases htail with h | ⟨i, hi, hacki⟩ | ⟨habove, hearlier⟩
      · rcases (hmem idx).mp h with h | h
        · exact Or.inl h
        · exact Or.inr (Or.inl ⟨0, Nat.succ_pos j, by rw [h]; exact hack0⟩)
      · exact Or.inr (Or.inl ⟨i + 1, by omega, (acknowledgedAt_succ _ _ _ _ _ _).mpr hacki⟩)
      · refine Or.inr (Or.inr ⟨?_, ?_⟩)
        · intro k hk
          exact habove k ((hmem k).mpr (Or.inl hk))
        · intro i hi idx' hacki
          cases i with
          | zero =>
            rw [hack0' idx' hacki]
            exact habove _ ((hmem _).mpr (Or.inr rfl))
          | succ i =>
            exact hearlier i (by omega) idx' ((acknowledgedAt_succ _ _ _ _ _ _).mp hacki)

/-- The property `appendsInOrder` behind a first position that is well typed and does not
acknowledge. -/
theorem appendsInOrder_cons_not_acknowledged (enabled : List Int) (answer pending : MACCommand)
    (answers pendings : List MACCommand) (a : NewChannelAnsPayload) (p : NewChannelReqPayload)
    (ha : answer.Payload = .newChannelAns a) (hp : pending.Payload = .newChannelReq p)
    (hok : ¬ (a.ChannelFrequencyOK && a.DataRateRangeOK) = true) :
    appendsInOrder enabled (answer :: answers) (pending :: pendings) ↔
      appendsInOrder enabled answers pendings := by
  have hno : ∀ idx, ¬ acknowledgedAt (answer :: answers) (pending :: pendings) 0 idx := by
    intro idx h
    obtain ⟨a', p', ha', -, h1, h2, -⟩ := (acknowledgedAt_zero _ _ _ _ _).mp h
    rw [ha] at ha'
    have e : a = a' := MACCommandPayload.newChannelAns.inj ha'
    subst e
    simp [h1, h2] at hok
  have htyped0 : wellTypedAt (answer :: answers) (pending :: pendings) 0 :=
    (wellTypedAt_zero _ _ _ _).mpr ⟨a, p, ha, hp⟩
  constructor
  · intro H j idx hack htyped
    have hfull := H (j + 1) idx ((acknowledgedAt_succ _ _ _ _ _ _).mpr hack) (by
      intro i hi
      cases i with
      | zero => exact htyped0
      | succ i => exact (wellTypedAt_succ _ _ _ _ _).mpr (htyped i (by omega)))
    rcases hfull with h | ⟨i, hi, hacki⟩ | ⟨habove, hearlier⟩
    · exact Or.inl h
    · cases i with
      | zero => exact absurd hacki (hno idx)
      | succ i =>
        exact Or.inr (Or.inl ⟨i, by omega, (acknowledgedAt_succ _ _ _ _ _ _).mp hacki⟩)
    · refine Or.inr (Or.inr ⟨habove, ?_⟩)
      intro i hi idx' hacki
      exact hearlier (i + 1) (by omega) idx' ((acknowledgedAt_succ _ _ _ _ _ _).mpr hacki)
  · intro H j idx hack htyped
    cases j with
    | zero => exact absurd hack (hno idx)
    | succ j =>
      have htail := H j idx ((acknowledgedAt_succ _ _ _ _ _ _).mp hack) (by
        intro i hi
        exact (wellTypedAt_succ _ _ _ _ _).mp (htyped (i + 1) (by omega)))
      rcases htail with h | ⟨i, hi, hacki⟩ | ⟨habove, hearlier⟩
      · exact Or.inl h
      · exact Or.inr (Or.inl ⟨i + 1, by omega, (acknowledgedAt_succ _ _ _ _ _ _).mpr hacki⟩)
      · refine Or.inr (Or.inr ⟨habove, ?_⟩)
        intro i hi idx' hacki
        cases i with
        | zero => exact absurd hacki (hno idx')
        | succ i =>
          exact hearlier i (by omega) idx' ((acknowledgedAt_succ _ _ _ _ _ _).mp hacki)

/-- An ascending list with a new element appended is ascending exactly when the element is
greater than every element of the list. -/
theorem sorted_append_singleton_iff (l : List Int) (b : Int)
    (hl : l.Sorted (fun a b => a ≤ b)) (hb : b ∉ l) :
    (l ++ [b]).Sorted (fun a b => a ≤ b) ↔ ∀ k ∈ l, k < b := by
  unfold List.Sorted
  rw [List.pairwise_append]
  constructor
  · rintro ⟨-, -, h⟩ k hk
    have h1 := h k hk b (List.mem_singleton.mpr rfl)
    have h2 : k ≠ b := fun e => hb (e ▸ hk)
    omega
  · intro h
    refine ⟨hl, List.pairwise_singleton _ _, ?_⟩
    intro k hk c hc
    rw [List.mem_singleton] at hc
    rw [hc]
    exact le_of_lt (h k hk)

/-- The loop of `handleNewChannelAns` only appends to the enabled channels. -/
theorem handleNewChannelAnsLoop_enabled_grows (answers : List MACCommand) :
    ∀ (ds : DeviceSession) (pendings : List MACCommand) (ds' : DeviceSession)
      (e : Option HandlerError),
      handleNewChannelAnsLoop ds answers pendings = .ok (ds', e) →
      ds.EnabledUplinkChannels <+: ds'.EnabledUplinkChannels := by
  induction answers with
  | nil =>
    intro ds pendings ds' e h
    simp only [handleNewChannelAnsLoop, Except.ok.injEq, Prod.mk.injEq] at h
    rw [← h.1]
  | cons answer answers ih =>
    intro ds pendings ds' e h
    cases ha : answer.Payload with
    | newChannelAns a =>
      cases pendings with
      | nil => simp [handleNewChannelAnsLoop, ha] at h
      | cons pending pendings =>
        cases hp : pending.Payload with
        | newChannelReq p =>
          by_cases hok : (a.ChannelFrequencyOK && a.DataRateRangeOK) = true
          · rw [handleNewChannelAnsLoop_cons_acknowledged ds answer pending answers pendings
              a p ha hp hok] at h
            cases hex : ds.ExtraUplinkChannels with
            | none =>
              obtain ⟨ds₁, hstep, -⟩ := newChannelAcknowledged_nil ds p hex
              rw [hstep] at h
              cases h
            | some extra =>
              obtain ⟨ds₁, hstep, -, -, hN⟩ := newChannelAcknowledged_ok ds p extra hex
              rw [hstep] at h
              refine List.IsPrefix.trans ?_ (ih ds₁ pendings ds' e h)
              rw [hN]
              by_cases hmem : (p.ChIndex : Int) ∈ ds.EnabledUplinkChannels
              · rw [if_pos hmem]
              · rw [if_neg hmem]
                exact ⟨_, rfl⟩
          · rw [handleNewChannelAnsLoop_cons_not_acknowledged ds answer pending answers
              pendings a p ha hp hok] at h
            cases hco : ds.MACCommandErrorCount with
            | none =>
              rw [newChannelNotAcknowledged_nil ds hco] at h
              cases h
            | some count =>
              obtain ⟨ds₁, hstep, -, -, hN⟩ := newChannelNotAcknowledged_ok ds count hco
              rw [hstep] at h
              have := ih ds₁ pendings ds' e h
              rw [hN] at this
              exact this
        | _ =>
          simp only [handleNewChannelAnsLoop, ha, hp, Except.ok.injEq, Prod.mk.injEq] at h
          rw [← h.1]
    | _ =>
      simp only [handleNewChannelAnsLoop, ha, Except.ok.injEq, Prod.mk.injEq] at h
      rw [← h.1]

/-- When the loop of `handleNewChannelAns` returns, on a session whose enabled channels are
in ascending order, they are in ascending order afterwards exactly when the acknowledged
indices it reaches come in order. -/
theorem handleNewChannelAnsLoop_enabled_sorted_iff (answers : List MACCommand) :
    ∀ (ds : DeviceSession) (pendings : List MACCommand) (ds' : DeviceSession)
      (e : Option HandlerError),
      handleNewChannelAnsLoop ds answers pendings = .ok (ds', e) →
      ds.EnabledUplinkChannels.Sorted (fun a b => a ≤ b) →
      (ds'.EnabledUplinkChannels.Sorted (fun a b => a ≤ b) ↔
        appendsInOrder ds.EnabledUplinkChannels answers pendings) := by
  induction answers with
  | nil =>
    intro ds pendings ds' e h hsorted
    simp only [handleNewChannelAnsLoop, Except.ok.injEq, Prod.mk.injEq] at h
    rw [← h.1]
    refine ⟨fun _ => ?_, fun _ => hsorted⟩
    intro j idx hack _
    obtain ⟨ca, cp, a, p, h1, -⟩ := hack
    simp at h1
  | cons answer answers ih =>
    intro ds pendings ds' e h hsorted
    have huntyped : ∀ pendings', ¬ wellTypedAt (answer :: answers) pendings' 0 →
        ds' = ds →
        (ds'.EnabledUplinkChannels.Sorted (fun a b => a ≤ b) ↔
          appendsInOrder ds.EnabledUplinkChannels (answer :: answers) pendings') := by
      intro pendings' hnt hds
      rw [hds]
      exact ⟨fun _ => appendsInOrder_of_not_wellTyped _ _ _ hnt, fun _ => hsorted⟩
    cases ha : answer.Payload with
    | newChannelAns a =>
      cases pendings with
      | nil => simp [handleNewChannelAnsLoop, ha] at h
      | cons pending pendings =>
        cases hp : pending.Payload with
        | newChannelReq p =>
          by_cases hok : (a.ChannelFrequencyOK && a.DataRateRangeOK) = true
          · have hflags : a.ChannelFrequencyOK = true ∧ a.DataRateRangeOK = true := by
              simpa using hok
            rw [handleNewChannelAnsLoop_cons_acknowledged ds answer pending answers pendings
              a p ha hp hok] at h
            cases hex : ds.ExtraUplinkChannels with
            | none =>
              obtain ⟨ds₁, hstep, -⟩ := newChannelAcknowledged_nil ds p hex
              rw [hstep] at h
              cases h
            | some extra =>
              obtain ⟨ds₁, hstep, -, -, hN⟩ := newChannelAcknowledged_ok ds p extra hex
              rw [hstep] at h
              have hpre := handleNewChannelAnsLoop_enabled_grows answers ds₁ pendings ds' e h
              rw [appendsInOrder_cons_acknowledged ds.EnabledUplinkChannels answer pending
                answers pendings a p ha hp hflags.1 hflags.2, ← hN]
              have hstepSorted : ds₁.EnabledUplinkChannels.Sorted (fun a b => a ≤ b) ↔
                  ((p.ChIndex : Int) ∈ ds.EnabledUplinkChannels ∨
                    ∀ k ∈ ds.EnabledUplinkChannels, k < (p.ChIndex : Int)) := by
                rw [hN]
                by_cases hmem : (p.ChIndex : Int) ∈ ds.EnabledUplinkChannels
                · rw [if_pos hmem]
                  exact ⟨fun _ => Or.inl hmem, fun _ => hsorted⟩
                · rw [if_neg hmem, sorted_append_singleton_iff _ _ hsorted hmem]
                  exact ⟨fun h => Or.inr h, fun h => h.resolve_left hmem⟩
              constructor
              · intro hs'
                have hs₁ : ds₁.EnabledUplinkChannels.Sorted (fun a b => a ≤ b) :=
                  List.Pairwise.sublist hpre.sublist hs'
                exact ⟨hstepSorted.mp hs₁, (ih ds₁ pendings ds' e h hs₁).mp hs'⟩
              · rintro ⟨hfirst, H⟩
                exact (ih ds₁ pendings ds' e h (hstepSorted.mpr hfirst)).mpr H
          · rw [handleNewChannelAnsLoop_cons_not_acknowledged ds answer pending answers
              pendings a p ha hp hok] at h
            cases hco : ds.MACCommandErrorCount with
            | none =>
              rw [newChannelNotAcknowledged_nil ds hco] at h
              cases h
            | some count =>
              obtain ⟨ds₁, hstep, -, -, hN⟩ := newChannelNotAcknowledged_ok ds count hco
              rw [hstep] at h
              rw [appendsInOrder_cons_not_acknowledged ds.EnabledUplinkChannels answer pending
                answers pendings a p ha hp hok, ← hN]
              exact ih ds₁ pendings ds' e h (by rw [hN]; exact hsorted)
        | _ =>
          apply huntyped
          · intro hwt
            obtain ⟨a', p', -, hp'⟩ := (wellTypedAt_zero _ _ _ _).mp hwt
            rw [hp] at hp'
            cases hp'
          · simp only [handleNewChannelAnsLoop, ha, hp, Except.ok.injEq, Prod.mk.injEq] at h
            exact h.1.symm
    | _ =>
      apply huntyped
      · intro hwt
        obtain ⟨ca, cp, a', p', h1, -⟩ := hwt
        cases pendings with
        | nil =>
          simp only [List.getElem?_cons_zero, Option.some.injEq] at h1
          rw [h1] at ha
          cases ha
        | cons pending pendings =>
          simp only [List.getElem?_cons_zero, Option.some.injEq] at h1
          rw [h1] at ha
          cases ha
      · simp only [handleNewChannelAnsLoop, ha, Except.ok.injEq, Prod.mk.injEq] at h
        exact h.1.symm

/-- C19 as stated fails: with the enabled channels 0, 1, 5 and an acknowledged request for
channel 3, the handler appends 3 at the end, and 0, 1, 5, 3 is not in ascending order. -/
theorem enabledStaysSorted_counterexample :
    ¬ enabledStaysSorted ⟨1, [0, 1, 5], some [(5, ⟨867500000, 0, 5⟩)], some [], 1, 3, 1⟩
      ⟨NewChannelAns, [⟨NewChannelAns, .newChannelAns ⟨true, true⟩⟩]⟩
      (some ⟨NewChannelReq, [⟨NewChannelReq, .newChannelReq ⟨3, 867100000, 0, 5⟩⟩]⟩) := by
  intro h
  have h1 := h (by decide)
    ⟨1, [0, 1, 5, 3], some [(3, ⟨867100000, 0, 5⟩), (5, ⟨867500000, 0, 5⟩)], some [], 1, 3, 1⟩
    (.ok []) (by decide)
  exact absurd h1 (by decide)

/-- C19, amended: for a device session whose `EnabledUplinkChannels` is sorted in ascending
order and a call of `handleNewChannelAns` that returns (with or without error), the list
is sorted in ascending order after the call exactly when, the blocks being of equal
length, every acknowledged pending ChIndex that stands behind well-typed commands only is
in the list already, or is acknowledged at an earlier position as well, or is greater than
every index of the list and than every ChIndex acknowledged at an earlier position (the
handler appends a newly acknowledged index at the end of the list). -/
theorem handleNewChannelAns_enabled_sorted (ds ds' : DeviceSession) (block : MACCommandBlock)
    (pending : Option MACCommandBlock) (r : Except HandlerError (List MACCommandBlock))
    (hsorted : ds.EnabledUplinkChannels.Sorted (fun a b => a ≤ b))
    (hret : handleNewChannelAns ds block pending = .ok (ds', r)) :
    ds'.EnabledUplinkChannels.Sorted (fun a b => a ≤ b) ↔
      ∀ pb, pending = some pb → block.MACCommands.length = pb.MACCommands.length →
        appendsInOrder ds.EnabledUplinkChannels block.MACCommands pb.MACCommands := by
  rcases handleNewChannelAns_cases ds block pending with
    ⟨hguard, err, h⟩ | ⟨pb, hpb, hlen, -, ⟨ds₁, e, r₁, hloop, h, -⟩ | ⟨q, ds₁, hloop, h⟩⟩
  · rw [h] at hret
    rw [← (Prod.mk.inj (Except.ok.inj hret)).1]
    refine ⟨fun _ => ?_, fun _ => hsorted⟩
    intro pb hpb hlen j idx hack _
    exfalso
    obtain ⟨ca, cp, a, p, h1, h2, -⟩ := hack
    rcases hguard with hb | hp | ⟨pb', hpb', hp | hp⟩
    · rw [hb] at h1
      simp at h1
    · rw [hp] at hpb
      cases hpb
    · rw [hpb'] at hpb
      cases hpb
      rw [hp] at h2
      simp at h2
    · rw [hpb'] at hpb
      cases hpb
      exact hp hlen
  · rw [h] at hret
    rw [← (Prod.mk.inj (Except.ok.inj hret)).1,
      handleNewChannelAnsLoop_enabled_sorted_iff block.MACCommands ds pb.MACCommands ds₁ e
        hloop hsorted]
    constructor
    · intro H pb' hpb' _
      rw [hpb] at hpb'
      cases hpb'
      exact H
    · intro H
      exact H pb hpb hlen
  · rw [h] at hret
    cases hret

/-- The instance of `handleNewChannelAns_enabled_sorted` at the enabled channels
0, 1, 2, 3, 5 and acknowledged requests for the channels 3 (enabled already) and 7: the
list becomes 0, 1, 2, 3, 5, 7. -/
theorem handleNewChannelAns_enabled_sorted_witness :
    handleNewChannelAns
      ⟨1, [0, 1, 2, 3, 5], some [(3, ⟨867100000, 0, 3⟩)], some [], 1, 3, 1⟩
      ⟨NewChannelAns, [⟨NewChannelAns, .newChannelAns ⟨true, true⟩⟩,
        ⟨NewChannelAns, .newChannelAns ⟨true, true⟩⟩]⟩
      (some ⟨NewChannelReq, [⟨NewChannelReq, .newChannelReq ⟨3, 867100000, 0, 5⟩⟩,
        ⟨NewChannelReq, .newChannelReq ⟨7, 867300000, 0, 5⟩⟩]⟩) =
      .ok (⟨1, [0, 1, 2, 3, 5, 7], some [(7, ⟨867300000, 0, 5⟩), (3, ⟨867100000, 0, 5⟩)],
        some [], 1, 3, 1⟩, .ok []) ∧
    ∀ pb, some (MACCommandBlock.mk NewChannelReq
        [⟨NewChannelReq, .newChannelReq ⟨3, 867100000, 0, 5⟩⟩,
          ⟨NewChannelReq, .newChannelReq ⟨7, 867300000, 0, 5⟩⟩]) = some pb →
      [(⟨NewChannelAns, .newChannelAns ⟨true, true⟩⟩ : MACCommand),
        ⟨NewChannelAns, .newChannelAns ⟨true, true⟩⟩].length = pb.MACCommands.length →
      appendsInOrder [0, 1, 2, 3, 5]
        [⟨NewChannelAns, .newChannelAns ⟨true, true⟩⟩,
          ⟨NewChannelAns, .newChannelAns ⟨true, true⟩⟩] pb.MACCommands :=
  ⟨by decide,
   (handleNewChannelAns_enabled_sorted
      ⟨1, [0, 1, 2, 3, 5], some [(3, ⟨867100000, 0, 3⟩)], some [], 1, 3, 1⟩
      ⟨1, [0, 1, 2, 3, 5, 7], some [(7, ⟨867300000, 0, 5⟩), (3, ⟨867100000, 0, 5⟩)],
        some [], 1, 3, 1⟩
      ⟨NewChannelAns, [⟨NewChannelAns, .newChannelAns ⟨true, true⟩⟩,
        ⟨NewChannelAns, .newChannelAns ⟨true, true⟩⟩]⟩
      (some ⟨NewChannelReq, [⟨NewChannelReq, .newChannelReq ⟨3, 867100000, 0, 5⟩⟩,
        ⟨NewChannelReq, .newChannelReq ⟨7, 867300000, 0, 5⟩⟩]⟩)
      (.ok []) (by decide) (by decide)).mp (by decide)⟩

/-! ### `collectAndCallOnce`: the packet built from the set members -/

/-- The loop of `collectAndCallOnce` skips members that have a nil TxInfo or a nil RxInfo. -/
theorem collectAndCallOnceLoop_all_skipped (env : CollectEnv) (payloads : List Bytes) :
    ∀ (i : Nat) (out : RXPacket),
      (∀ b ∈ payloads, ∃ f, env.unmarshalUplinkFrame b = some f ∧
        (f.TxInfo = none ∨ f.RxInfo = none)) →
      collectAndCallOnceLoop env i payloads out = .ok out := by
  induction payloads with
  | nil => intro i out _; rfl
  | cons b payloads ih =>
    intro i out h
    obtain ⟨f, hf, hskip⟩ := h b (List.mem_cons_self _ _)
    have ih' := ih (i + 1) out (fun b' hb' => h b' (List.mem_cons_of_mem _ hb'))
    rcases hskip with htx | hrx
    · simp only [collectAndCallOnceLoop, hf, htx]
      exact ih'
    · cases htx : f.TxInfo with
      | none =>
        simp only [collectAndCallOnceLoop, hf, htx]
        exact ih'
      | some tx =>
        simp only [collectAndCallOnceLoop, hf, htx, hrx]
        exact ih'

/-- The loop of `collectAndCallOnce` from an index other than 0, on members that all
decode: every member with TxInfo and RxInfo is added to the packet, in order. -/
theorem collectAndCallOnceLoop_succ (env : CollectEnv) (payloads : List Bytes) :
    ∀ (i : Nat) (out : RXPacket) (frames : List UplinkFrame),
      i ≠ 0 →
      payloads.map env.unmarshalUplinkFrame = frames.map some →
      collectAndCallOnceLoop env i payloads out = .ok (frames.foldl addMember out) := by
  induction payloads with
  | nil =>
    intro i out frames _ h
    cases frames with
    | nil => rfl
    | cons f frames => simp at h
  | cons b payloads ih =>
    intro i out frames hi h
    cases frames with
    | nil => simp at h
    | cons f frames =>
      simp only [List.map_cons, List.cons.injEq] at h
      obtain ⟨hf, hrest⟩ := h
      have ih' := fun out' => ih (i + 1) out' frames (Nat.succ_ne_zero i) hrest
      cases htx : f.TxInfo with
      | none =>
        simp only [collectAndCallOnceLoop, hf, htx, List.foldl_cons, addMember]
        exact ih' out
      | some tx =>
        cases hrx : f.RxInfo with
        | none =>
          simp only [collectAndCallOnceLoop, hf, htx, hrx, List.foldl_cons, addMember]
          exact ih' out
        | some rx =>
          simp only [collectAndCallOnceLoop, hf, htx, hrx, hi, if_false, List.foldl_cons,
            addMember]
          exact ih' _

theorem foldl_addMember_rxInfoSet (frames : List UplinkFrame) :
    ∀ out : RXPacket, (frames.foldl addMember out).RXInfoSet =
      out.RXInfoSet ++ frames.filterMap
        (fun f => match f.TxInfo, f.RxInfo with
          | some _, some rxInfo => some rxInfo
          | _, _ => none) := by
  induction frames with
  | nil => intro out; simp
  | cons f frames ih =>
    intro out
    rw [List.foldl_cons, ih]
    cases htx : f.TxInfo with
    | none => simp [addMember, htx, List.filterMap_cons]
    | some tx =>
      cases hrx : f.RxInfo with
      | none => simp [addMember, htx, hrx, List.filterMap_cons]
      | some rx => simp [addMember, htx, hrx, List.filterMap_cons]

/-- When the first member read has TxInfo and RxInfo, its PHY payload decodes and the band
has a data rate for its TxInfo, and the other members decode: the callback gets the
decoded PHY payload, that data rate, and every member with TxInfo and RxInfo added in the
order read. -/
theorem collectAndCallOnceAssemble_first_valid (env : CollectEnv) (b : Bytes)
    (payloads : List Bytes) (f : UplinkFrame) (frames : List UplinkFrame)
    (txInfo : UplinkTXInfo) (rxInfo : UplinkRXInfo) (phy : PHYPayload) (dr : Int)
    (hf : env.unmarshalUplinkFrame b = some f)
    (htx : f.TxInfo = some txInfo) (hrx : f.RxInfo = some rxInfo)
    (hphy : env.unmarshalPHYPayload f.PhyPayload = some phy)
    (hdr : env.getDataRateIndex txInfo = some dr)
    (hrest : payloads.map env.unmarshalUplinkFrame = frames.map some) :
    collectAndCallOnceAssemble env (b :: payloads) =
      .callback (frames.foldl addMember
        { PHYPayload := phy
          TXInfo := some txInfo
          RXInfoSet := [rxInfo]
          DR := dr
          GatewayIsPrivate := some []
          GatewayServiceProfile := some [] }) := by
  have hlen : ¬ ((b :: payloads).length = 0) := by simp
  simp only [collectAndCallOnceAssemble, if_neg hlen, collectAndCallOnceLoop, hf, htx, hrx,
    hphy, hdr, if_true]
  rw [collectAndCallOnceLoop_succ env payloads (0 + 1) _ frames (by decide) hrest]
  rfl

/-- When every member read is skipped (nil TxInfo or nil RxInfo), the loop adds nothing:
an empty list gives the error "zero items in collect set", another list the callback on the
zero packet. -/
theorem collectAndCallOnceAssemble_no_rxInfo (env : CollectEnv) (payloads : List Bytes)
    (h : ∀ b ∈ payloads, ∃ f, env.unmarshalUplinkFrame b = some f ∧
      (f.TxInfo = none ∨ f.RxInfo = none)) :
    (payloads = [] →
      collectAndCallOnceAssemble env payloads = .returned (some CollectError.zeroItems)) ∧
    (payloads ≠ [] → collectAndCallOnceAssemble env payloads = .callback zeroRXPacket) := by
  constructor
  · intro hnil
    subst hnil
    rfl
  · intro hne
    have hlen : ¬ (payloads.length = 0) := fun h0 => hne (List.length_eq_zero.mp h0)
    simp only [collectAndCallOnceAssemble, if_neg hlen,
      collectAndCallOnceLoop_all_skipped env payloads 0 zeroRXPacket h]

/-- C13, the code at a failing input: the set read by the winner holds one member, a frame
with TxInfo and a nil RxInfo.  The list is not empty, so the guard for zero items does not
fire; the member is skipped, no RxInfo is collected, and the callback is invoked all the
same, on the zero packet (nil TXInfo, empty RXInfoSet), where the empty set gets the error
"zero items in collect set". -/
theorem collectAndCallOnceAssemble_all_skipped :
    exampleEnv.unmarshalUplinkFrame [0] =
      some { PhyPayload := [64, 1, 2, 3, 4, 5], TxInfo := some ⟨868100000, 125, 10⟩,
             RxInfo := none } ∧
    collectAndCallOnceAssemble exampleEnv [] = .returned (some CollectError.zeroItems) ∧
    collectAndCallOnceAssemble exampleEnv [[0]] = .callback zeroRXPacket ∧
    ¬ returnsErrorWithoutCallback exampleEnv [[0]] := by
  refine ⟨rfl, by decide, by decide, ?_⟩
  rintro ⟨err, h⟩
  have h0 : collectAndCallOnceAssemble exampleEnv [[0]] = .callback zeroRXPacket := by
    decide
  rw [h0] at h
  cases h

/-- C14, the code at a failing input: the cache returns the member of gateway 01 (RSSI
-80) before the member of gateway 02 (RSSI -60); the callback gets the RXInfoSet in that
order, which is not sorted by RSSI descending. -/
theorem collectAndCallOnceAssemble_unsorted :
    collectAndCallOnceAssemble exampleEnv [[1, 80], [2, 60]] =
      .callback
        { PHYPayload := { MHDR := 64, MACPayload := [1], MIC := [2, 3, 4, 5] }
          TXInfo := some ⟨868100000, 125, 10⟩
          RXInfoSet := [{ GatewayId := [1], Rssi := -80 }, { GatewayId := [2], Rssi := -60 }]
          DR := 2
          GatewayIsPrivate := some []
          GatewayServiceProfile := some [] } ∧
    ¬ rxInfoSetSortedByRSSI (collectAndCallOnceAssemble exampleEnv [[1, 80], [2, 60]]) := by
  refine ⟨by decide, ?_⟩
  intro h
  have h1 := h _ (by decide :
    collectAndCallOnceAssemble exampleEnv [[1, 80], [2, 60]] =
      .callback
        { PHYPayload := { MHDR := 64, MACPayload := [1], MIC := [2, 3, 4, 5] }
          TXInfo := some ⟨868100000, 125, 10⟩
          RXInfoSet := [{ GatewayId := [1], Rssi := -80 }, { GatewayId := [2], Rssi := -60 }]
          DR := 2
          GatewayIsPrivate := some []
          GatewayServiceProfile := some [] })
  exact absurd h1 (by decide)

/-- C20, the code at a failing input: the cache returns a member without RxInfo before the
member of gateway 02.  The first is skipped before the test `i == 0`, so the PHY payload is
never decoded and the data rate never looked up: the callback gets the zero PHYPayload and
DR 0, although the PHY payload decodes and the band gives data rate 2. -/
theorem collectAndCallOnceAssemble_first_skipped :
    exampleEnv.unmarshalUplinkFrame [0] =
      some { PhyPayload := [64, 1, 2, 3, 4, 5], TxInfo := some ⟨868100000, 125, 10⟩,
             RxInfo := none } ∧
    exampleEnv.unmarshalUplinkFrame [2, 60] =
      some { PhyPayload := [64, 1, 2, 3, 4, 5], TxInfo := some ⟨868100000, 125, 10⟩,
             RxInfo := some { GatewayId := [2], Rssi := -60 } } ∧
    exampleEnv.unmarshalPHYPayload [64, 1, 2, 3, 4, 5] =
      some { MHDR := 64, MACPayload := [1], MIC := [2, 3, 4, 5] } ∧
    exampleEnv.getDataRateIndex ⟨868100000, 125, 10⟩ = some 2 ∧
    collectAndCallOnceAssemble exampleEnv [[0], [2, 60]] =
      .callback
        { PHYPayload := { MHDR := 0, MACPayload := [], MIC := [0, 0, 0, 0] }
          TXInfo := some ⟨868100000, 125, 10⟩
          RXInfoSet := [{ GatewayId := [2], Rssi := -60 }]
          DR := 0
          GatewayIsPrivate := some []
          GatewayServiceProfile := some [] } := by
  refine ⟨rfl, rfl, rfl, by decide, by decide⟩

/-! ### `collectAndCallOnce`: the TTL of the set and of the lock -/
theorem wrapInt64_of_range (x : Int) (h₁ : -9223372036854775808 ≤ x)
    (h₂ : x < 9223372036854775808) : wrapInt64 x = x := by
  unfold wrapInt64
  omega

theorem deduplicationTTL_eq_max (d : Int) (h₁ : -9223372036854775808 ≤ 2 * d)
    (h₂ : 2 * d < 9223372036854775808) :
    deduplicationTTL d = max (2 * d) (200 * millisecond) := by
  have hw : wrapInt64 (d * 2) = 2 * d := by
    rw [wrapInt64_of_range (d * 2) (by omega) (by omega)]
    ring
  simp only [deduplicationTTL, hw, millisecond]
  by_cases h : 2 * d < 1000000 * 200
  · rw [if_pos h]
    omega
  · rw [if_neg h]
    omega

theorem redisSAdd_sets (now : Int) (r : Redis) (key : RedisKey) (b : Bytes) :
    ∃ e, mapGet (redisSAdd now r key b).sets key =
        some (if b ∈ redisSMembers now r key then redisSMembers now r key
              else redisSMembers now r key ++ [b], e) ∧
      redisLive now e = true := by
  unfold redisSAdd redisSMembers
  cases hget : mapGet r.sets key with
  | none => exact ⟨none, by simp [mapGet_mapSet_self], rfl⟩
  | some v =>
    obtain ⟨ms, e⟩ := v
    cases hl : redisLive now e with
    | false => exact ⟨none, by simp [hl, mapGet_mapSet_self], rfl⟩
    | true =>
      by_cases hmem : b ∈ ms
      · exact ⟨e, by simp [hl, hmem, hget], hl⟩
      · exact ⟨e, by simp [hl, hmem, mapGet_mapSet_self], hl⟩

theorem redisPExpire_sets (now : Int) (r : Redis) (key : RedisKey) (ttl : Int)
    (ms : List Bytes) (e : Option Int) (hget : mapGet r.sets key = some (ms, e))
    (hl : redisLive now e = true) :
    mapGet (redisPExpire now r key ttl).sets key = some (ms, some (now + ttl)) := by
  unfold redisPExpire
  simp only [hget, hl, if_true, mapGet_mapSet_self]

theorem redisPut_sets (now : Int) (r : Redis) (key : RedisKey) (b : Bytes) (ttl : Int) :
    mapGet (redisPExpire now (redisSAdd now r key b) key ttl).sets key =
      some (if b ∈ redisSMembers now r key then redisSMembers now r key
            else redisSMembers now r key ++ [b], some (now + ttl)) := by
  obtain ⟨e, hget, hl⟩ := redisSAdd_sets now r key b
  exact redisPExpire_sets now _ key ttl _ e hget hl

theorem redisPut_strings (now : Int) (r : Redis) (key : RedisKey) (b : Bytes) (ttl : Int) :
    (redisPExpire now (redisSAdd now r key b) key ttl).strings = r.strings := by
  unfold redisPExpire redisSAdd
  repeat' split
  all_goals rfl

theorem redisSetNX_sets (now : Int) (r : Redis) (key : RedisKey) (value : Bytes) (ttl : Int) :
    (redisSetNX now r key value ttl).1.sets = r.sets := by
  unfold redisSetNX
  simp only
  split <;> rfl

/-- When `SetNX` sets the key, the key holds the value and expires `ttl` from now. -/
theorem redisSetNX_acquired (now : Int) (r : Redis) (key : RedisKey) (value : Bytes)
    (ttl : Int) (h : (redisSetNX now r key value ttl).2 = true) :
    mapGet (redisSetNX now r key value ttl).1.strings key = some (value, some (now + ttl)) := by
  unfold redisSetNX at h ⊢
  simp only at h ⊢
  split
  · rename_i hheld
    rw [if_pos hheld] at h
    cases h
  · simp only [mapGet_mapSet_self]

/-- A lock whose expiry instant has passed does not hold `SetNX` back. -/
theorem redisSetNX_expired (now : Int) (r : Redis) (key : RedisKey) (value v : Bytes)
    (ttl e : Int) (hget : mapGet r.strings key = some (v, some e)) (he : e ≤ now) :
    (redisSetNX now r key value ttl).2 = true := by
  have hl : redisLive now (some e) = false := by
    simp only [redisLive, decide_eq_false_iff_not]
    omega
  unfold redisSetNX
  simp only [hget, hl]
  rfl

/-- The first part of `collectAndCallOnce` when both serializations succeed: the put and
the lock, both with the TTL `deduplicationTTL deduplicationDelay`. -/
theorem collectAndCallOnceEnter_eq (env : CollectEnv) (d now : Int) (r : Redis)
    (f : UplinkFrame) (txB b : Bytes) (htx : env.marshalTxInfo f.TxInfo = some txB)
    (hb : env.marshalUplinkFrame f = some b) :
    collectAndCallOnceEnter env d now r f =
      ((redisSetNX now
          (redisPExpire now (redisSAdd now r (.collect txB f.PhyPayload) b)
            (.collect txB f.PhyPayload) (deduplicationTTL d))
          (.collectLock txB f.PhyPayload) [108, 111, 99, 107] (deduplicationTTL d)).1,
       if (redisSetNX now
          (redisPExpire now (redisSAdd now r (.collect txB f.PhyPayload) b)
            (.collect txB f.PhyPayload) (deduplicationTTL d))
          (.collectLock txB f.PhyPayload) [108, 111, 99, 107] (deduplicationTTL d)).2
       then .winner (.collect txB f.PhyPayload) else .returned none) := by
  simp only [collectAndCallOnceEnter, htx, collectAndCallOncePut, hb,
    collectAndCallOnceLocked]
  cases (redisSetNX now
          (redisPExpire now (redisSAdd now r (.collect txB f.PhyPayload) b)
            (.collect txB f.PhyPayload) (deduplicationTTL d))
          (.collectLock txB f.PhyPayload) [108, 111, 99, 107] (deduplicationTTL d)).2 <;> simp

/-- What a winner leaves in the cache: its frame in the set and the lock, both expiring
`deduplicationTTL deduplicationDelay` after the instant of the call. -/
theorem collectAndCallOnceEnter_winner (env : CollectEnv) (d now : Int) (r r₁ : Redis)
    (f : UplinkFrame) (key : RedisKey)
    (h : collectAndCallOnceEnter env d now r f = (r₁, .winner key)) :
    ∃ txB b, env.marshalTxInfo f.TxInfo = some txB ∧ env.marshalUplinkFrame f = some b ∧
      key = .collect txB f.PhyPayload ∧
      mapGet r₁.strings (.collectLock txB f.PhyPayload) =
        some ([108, 111, 99, 107], some (now + deduplicationTTL d)) ∧
      ∃ members, mapGet r₁.sets key = some (members, some (now + deduplicationTTL d)) ∧
        b ∈ members := by
  cases htx : env.marshalTxInfo f.TxInfo with
  | none => simp [collectAndCallOnceEnter, htx] at h
  | some txB =>
    cases hb : env.marshalUplinkFrame f with
    | none => simp [collectAndCallOnceEnter, htx, collectAndCallOncePut, hb] at h
    | some b =>
      rw [collectAndCallOnceEnter_eq env d now r f txB b htx hb] at h
      have h1 := (Prod.mk.inj h).1
      have h2 := (Prod.mk.inj h).2
      cases hset : (redisSetNX now
          (redisPExpire now (redisSAdd now r (.collect txB f.PhyPayload) b)
            (.collect txB f.PhyPayload) (deduplicationTTL d))
          (.collectLock txB f.PhyPayload) [108, 111, 99, 107] (deduplicationTTL d)).2 with
      | false => simp [hset] at h2
      | true =>
        simp only [hset, if_true, CollectEntered.winner.injEq] at h2
        refine ⟨txB, b, rfl, rfl, h2.symm, ?_, ?_⟩
        · rw [← h1]
          exact redisSetNX_acquired _ _ _ _ _ hset
        · rw [← h1, ← h2, redisSetNX_sets, redisPut_sets]
          refine ⟨_, rfl, ?_⟩
          split
          · assumption
          · simp


/-- C11: when `2 * deduplicationDelay` does not overflow the 64-bit duration, the TTL
computed by `collectAndCallOnce` is `max(2 * deduplicationDelay, 200ms)`; the put gives
the dedup set that TTL and the lock is set with that same TTL: after the first part of
the call the set expires that long after the call, and so does the lock when this
invocation has acquired it. -/
theorem collectAndCallOnceEnter_ttl (env : CollectEnv) (d now : Int) (r : Redis)
    (f : UplinkFrame) (txB b : Bytes)
    (hd : -9223372036854775808 ≤ 2 * d ∧ 2 * d < 9223372036854775808)
    (htx : env.marshalTxInfo f.TxInfo = some txB)
    (hb : env.marshalUplinkFrame f = some b) :
    deduplicationTTL d = max (2 * d) (200 * millisecond) ∧
    collectAndCallOnceEnter env d now r f =
      ((redisSetNX now
          (redisPExpire now (redisSAdd now r (.collect txB f.PhyPayload) b)
            (.collect txB f.PhyPayload) (max (2 * d) (200 * millisecond)))
          (.collectLock txB f.PhyPayload) [108, 111, 99, 107]
          (max (2 * d) (200 * millisecond))).1,
       if (redisSetNX now
          (redisPExpire now (redisSAdd now r (.collect txB f.PhyPayload) b)
            (.collect txB f.PhyPayload) (max (2 * d) (200 * millisecond)))
          (.collectLock txB f.PhyPayload) [108, 111, 99, 107]
          (max (2 * d) (200 * millisecond))).2
       then .winner (.collect txB f.PhyPayload) else .returned none) ∧
    (∃ members,
      mapGet (collectAndCallOnceEnter env d now r f).1.sets (.collect txB f.PhyPayload) =
        some (members, some (now + max (2 * d) (200 * millisecond))) ∧ b ∈ members) ∧
    ((collectAndCallOnceEnter env d now r f).2 = .winner (.collect txB f.PhyPayload) →
      mapGet (collectAndCallOnceEnter env d now r f).1.strings
          (.collectLock txB f.PhyPayload) =
        some ([108, 111, 99, 107], some (now + max (2 * d) (200 * millisecond)))) := by
  have hT := deduplicationTTL_eq_max d hd.1 hd.2
  have heq := collectAndCallOnceEnter_eq env d now r f txB b htx hb
  rw [hT] at heq
  refine ⟨hT, heq, ?_, ?_⟩
  · rw [heq]
    simp only [redisSetNX_sets, redisPut_sets]
    refine ⟨_, rfl, ?_⟩
    split
    · assumption
    · simp
  · intro hwin
    obtain ⟨txB', b', htx', hb', hkey, hlock, -⟩ :=
      collectAndCallOnceEnter_winner env d now r
        (collectAndCallOnceEnter env d now r f).1 f (.collect txB f.PhyPayload)
        (Prod.ext rfl hwin)
    rw [htx] at htx'
    cases htx'
    rw [hlock, hT]

/-- The instance of `collectAndCallOnceEnter_ttl` at a delay of 50ms on the empty cache:
the set and the lock expire 200ms after the call. -/
theorem collectAndCallOnceEnter_ttl_witness :
    collectAndCallOnceEnter exampleEnv 50000000 0 ⟨[], []⟩
        ⟨[64, 1, 2, 3, 4, 5], some ⟨868100000, 125, 10⟩, some ⟨[1], -80⟩⟩ =
      (⟨[(.collect [868100000, 125, 10] [64, 1, 2, 3, 4, 5], [[1, 80]], some 200000000)],
        [(.collectLock [868100000, 125, 10] [64, 1, 2, 3, 4, 5], [108, 111, 99, 107],
          some 200000000)]⟩,
       .winner (.collect [868100000, 125, 10] [64, 1, 2, 3, 4, 5])) ∧
    deduplicationTTL 50000000 = max (2 * 50000000) (200 * millisecond) :=
  ⟨by decide,
   (collectAndCallOnceEnter_ttl exampleEnv 50000000 0 ⟨[], []⟩
      ⟨[64, 1, 2, 3, 4, 5], some ⟨868100000, 125, 10⟩, some ⟨[1], -80⟩⟩
      [868100000, 125, 10] [1, 80] (by decide) rfl (by decide)).1⟩

/-- C12 as stated fails: with a delay of 50ms the lock acquired at instant 0 has the TTL
200ms, not 100ms; a frame of the same emission that enters 1ns after `t0 + 2 * d` finds
the lock held and returns without being handled. -/
theorem lateFrameIsNewEmission_counterexample :
    (0 : Int) < 50000000 ∧
    collectAndCallOnce exampleEnv 50000000 100000001
        (collectAndCallOnce exampleEnv 50000000 0 ⟨[], []⟩
          ⟨[64, 1, 2, 3, 4, 5], some ⟨868100000, 125, 10⟩, some ⟨[1], -80⟩⟩).1
        ⟨[64, 1, 2, 3, 4, 5], some ⟨868100000, 125, 10⟩, some ⟨[2], -60⟩⟩ =
      (⟨[(.collect [868100000, 125, 10] [64, 1, 2, 3, 4, 5], [[2, 60]], some 300000001)],
        [(.collectLock [868100000, 125, 10] [64, 1, 2, 3, 4, 5], [108, 111, 99, 107],
          some 200000000)]⟩,
       .returned none) ∧
    ¬ lateFrameIsNewEmission exampleEnv 50000000 0 ⟨[], []⟩
        ⟨[64, 1, 2, 3, 4, 5], some ⟨868100000, 125, 10⟩, some ⟨[1], -80⟩⟩ 100000001 := by
  refine ⟨by decide, by decide, ?_⟩
  intro h
  obtain ⟨r2, h2⟩ := h
    ⟨[(.collect [868100000, 125, 10] [64, 1, 2, 3, 4, 5], [[1, 80]], some 200000000)],
      [(.collectLock [868100000, 125, 10] [64, 1, 2, 3, 4, 5], [108, 111, 99, 107],
        some 200000000)]⟩
    (.collect [868100000, 125, 10] [64, 1, 2, 3, 4, 5]) (by decide) (by decide)
  have h3 : (collectAndCallOnceEnter exampleEnv 50000000 100000001
      (collectAndCallOnceFinish exampleEnv (0 + 50000000)
        ⟨[(.collect [868100000, 125, 10] [64, 1, 2, 3, 4, 5], [[1, 80]], some 200000000)],
          [(.collectLock [868100000, 125, 10] [64, 1, 2, 3, 4, 5], [108, 111, 99, 107],
            some 200000000)]⟩
        (.collect [868100000, 125, 10] [64, 1, 2, 3, 4, 5])).1
      ⟨[64, 1, 2, 3, 4, 5], some ⟨868100000, 125, 10⟩, some ⟨[1], -80⟩⟩).2 =
      .returned none := by decide
  rw [h2] at h3
  cases h3

/-- C12, amended: when a winner has acquired the lock for the fingerprint at `t0`, a frame
with the same TxInfo and PhyPayload that enters `collectAndCallOnce` later than
`t0 + max(2 * deduplicationDelay, 200ms)` (the lock still as the winner set it, the delay
positive and `2 * deduplicationDelay` within the 64-bit duration) finds the lock expired
and acquires it; run on its own it then reads the set, which holds its frame, and hands
the members to the part that builds the packet for the callback. -/
theorem collectAndCallOnce_after_lock_expiry (env : CollectEnv) (d t0 t : Int)
    (r0 r1 r : Redis) (key : RedisKey) (winner late : UplinkFrame) (b : Bytes)
    (hd : 0 < d) (hrange : 2 * d < 9223372036854775808)
    (hwin : collectAndCallOnceEnter env d t0 r0 winner = (r1, .winner key))
    (htx : late.TxInfo = winner.TxInfo) (hphy : late.PhyPayload = winner.PhyPayload)
    (hb : env.marshalUplinkFrame late = some b)
    (hlock : ∀ txB, key = .collect txB winner.PhyPayload →
      mapGet r.strings (.collectLock txB winner.PhyPayload) =
        mapGet r1.strings (.collectLock txB winner.PhyPayload))
    (ht : t0 + max (2 * d) (200 * millisecond) < t) :
    (∃ r2, collectAndCallOnceEnter env d t r late = (r2, .winner key)) ∧
    ∃ r3 payloads, collectAndCallOnce env d t r late =
        (r3, collectAndCallOnceAssemble env payloads) ∧ b ∈ payloads := by
  have hT := deduplicationTTL_eq_max d (by omega) hrange
  obtain ⟨txB, bw, htxw, -, hkey, hlockw, -⟩ :=
    collectAndCallOnceEnter_winner env d t0 r0 r1 winner key hwin
  have htxl : env.marshalTxInfo late.TxInfo = some txB := by rw [htx]; exact htxw
  have heq := collectAndCallOnceEnter_eq env d t r late txB b htxl hb
  rw [hphy] at heq
  rw [← hkey] at heq
  have hstr : mapGet (redisPExpire t (redisSAdd t r key b) key (deduplicationTTL d)).strings
      (.collectLock txB winner.PhyPayload) =
      some ([108, 111, 99, 107], some (t0 + deduplicationTTL d)) := by
    rw [redisPut_strings, hlock txB hkey, hlockw]
  have hset := redisSetNX_expired t _ (.collectLock txB winner.PhyPayload)
    [108, 111, 99, 107] [108, 111, 99, 107] (deduplicationTTL d) (t0 + deduplicationTTL d)
    hstr (by rw [hT]; omega)
  rw [hset, if_pos rfl] at heq
  refine ⟨⟨_, heq⟩, ?_⟩
  have hmem : mapGet (redisSetNX t (redisPExpire t (redisSAdd t r key b) key
      (deduplicationTTL d)) (.collectLock txB winner.PhyPayload) [108, 111, 99, 107]
      (deduplicationTTL d)).1.sets key =
      some (if b ∈ redisSMembers t r key then redisSMembers t r key
            else redisSMembers t r key ++ [b], some (t + deduplicationTTL d)) := by
    rw [redisSetNX_sets, redisPut_sets]
  have hlive : redisLive (t + max d 0) (some (t + deduplicationTTL d)) = true := by
    simp only [redisLive, decide_eq_true_eq]
    rw [hT]
    have h1 : max d 0 = d := max_eq_left (le_of_lt hd)
    have h2 : 2 * d ≤ max (2 * d) (200 * millisecond) := le_max_left _ _
    omega
  obtain ⟨R2, hR2⟩ : ∃ R2, R2 = (redisSetNX t (redisPExpire t (redisSAdd t r key b) key
      (deduplicationTTL d)) (.collectLock txB winner.PhyPayload) [108, 111, 99, 107]
      (deduplicationTTL d)).1 := ⟨_, rfl⟩
  rw [← hR2] at heq hmem
  refine ⟨redisDel R2 key, redisSMembers (t + max d 0) R2 key, ?_, ?_⟩
  · simp only [collectAndCallOnce, heq, collectAndCallOnceFinish, collectAndCallOnceCollect]
  · simp only [redisSMembers, hmem, hlive, if_true]
    split
    · assumption
    · simp

/-- The instance of `collectAndCallOnce_after_lock_expiry` at a delay of 50ms: the winner
entered at instant 0, the later frame of another gateway enters 1ns after 200ms. -/
theorem collectAndCallOnce_after_lock_expiry_witness :
    collectAndCallOnce exampleEnv 50000000 200000001
        (collectAndCallOnce exampleEnv 50000000 0 ⟨[], []⟩
          ⟨[64, 1, 2, 3, 4, 5], some ⟨868100000, 125, 10⟩, some ⟨[1], -80⟩⟩).1
        ⟨[64, 1, 2, 3, 4, 5], some ⟨868100000, 125, 10⟩, some ⟨[2], -60⟩⟩ =
      (⟨[], [(.collectLock [868100000, 125, 10] [64, 1, 2, 3, 4, 5], [108, 111, 99, 107],
          some 400000001)]⟩,
       .callback
        { PHYPayload := { MHDR := 64, MACPayload := [1], MIC := [2, 3, 4, 5] }
          TXInfo := some ⟨868100000, 125, 10⟩
          RXInfoSet := [{ GatewayId := [2], Rssi := -60 }]
          DR := 2
          GatewayIsPrivate := some []
          GatewayServiceProfile := some [] }) ∧
    ∃ r2, collectAndCallOnceEnter exampleEnv 50000000 200000001
        (collectAndCallOnce exampleEnv 50000000 0 ⟨[], []⟩
          ⟨[64, 1, 2, 3, 4, 5], some ⟨868100000, 125, 10⟩, some ⟨[1], -80⟩⟩).1
        ⟨[64, 1, 2, 3, 4, 5], some ⟨868100000, 125, 10⟩, some ⟨[2], -60⟩⟩ =
      (r2, .winner (.collect [868100000, 125, 10] [64, 1, 2, 3, 4, 5])) :=
  ⟨by decide,
   (collectAndCallOnce_after_lock_expiry exampleEnv 50000000 0 200000001 ⟨[], []⟩
      ⟨[(.collect [868100000, 125, 10] [64, 1, 2, 3, 4, 5], [[1, 80]], some 200000000)],
        [(.collectLock [868100000, 125, 10] [64, 1, 2, 3, 4, 5], [108, 111, 99, 107],
          some 200000000)]⟩
      (collectAndCallOnce exampleEnv 50000000 0 ⟨[], []⟩
          ⟨[64, 1, 2, 3, 4, 5], some ⟨868100000, 125, 10⟩, some ⟨[1], -80⟩⟩).1
      (.collect [868100000, 125, 10] [64, 1, 2, 3, 4, 5])
      ⟨[64, 1, 2, 3, 4, 5], some ⟨868100000, 125, 10⟩, some ⟨[1], -80⟩⟩
      ⟨[64, 1, 2, 3, 4, 5], some ⟨868100000, 125, 10⟩, some ⟨[2], -60⟩⟩
      [2, 60] (by decide) (by decide) (by decide) rfl rfl (by decide)
      (by
        intro txB h
        cases h
        decide)
      (by decide)).1⟩

/-! ### `collectAndCallOncePut`: the members of the set -/

theorem foldl_setInsert (bs : List Bytes) :
    ∀ ms : List Bytes, ms.Nodup →
      (bs.foldl setInsert ms).Nodup ∧
      ∀ b, b ∈ bs.foldl setInsert ms ↔ b ∈ ms ∨ b ∈ bs := by
  induction bs with
  | nil => intro ms h; exact ⟨h, by simp⟩
  | cons a bs ih =>
    intro ms h
    have hn : (setInsert ms a).Nodup := by
      unfold setInsert
      split
      · exact h
      · rename_i hmem
        exact List.nodup_append.mpr ⟨h, List.nodup_singleton a, by
          intro x hx hx'
          rw [List.mem_singleton] at hx'
          exact hmem (hx' ▸ hx)⟩
    obtain ⟨h1, h2⟩ := ih (setInsert ms a) hn
    refine ⟨h1, ?_⟩
    intro b
    rw [List.foldl_cons, h2 b, List.mem_cons]
    unfold setInsert
    split
    · rename_i hmem
      constructor
      · rintro (h3 | h3)
        · exact Or.inl h3
        · exact Or.inr (Or.inr h3)
      · rintro (h3 | h3 | h3)
        · exact Or.inl h3
        · exact Or.inl (h3 ▸ hmem)
        · exact Or.inr h3
    · rw [List.mem_append, List.mem_singleton]
      tauto

/-- The members read after a sequence of puts that started with a put at the instant `tl`,
each put (and the read) coming before the expiry that the put before it has set: the
members before, with the serialized frames added one by one. -/
theorem collectAndCallOncePutAll_members_from (env : CollectEnv) (key : RedisKey) (ttl t : Int)
    (puts : List (Int × UplinkFrame)) :
    ∀ (r : Redis) (ms : List Bytes) (tl : Int),
      mapGet r.sets key = some (ms, some (tl + ttl)) →
      List.Chain (fun a b => b < a + ttl) tl (putInstants env puts) →
      (∀ x, (tl :: putInstants env puts).getLast? = some x → t < x + ttl) →
      redisSMembers t (collectAndCallOncePutAll env key ttl r puts) key =
        (puts.filterMap (fun p => env.marshalUplinkFrame p.2)).foldl setInsert ms := by
  induction puts with
  | nil =>
    intro r ms tl hget _ hread
    have hl : redisLive t (some (tl + ttl)) = true := by
      simp only [redisLive, decide_eq_true_eq]
      exact hread tl rfl
    simp only [collectAndCallOncePutAll, List.filterMap_nil, List.foldl_nil, redisSMembers,
      hget, hl, if_true]
  | cons p puts ih =>
    intro r ms tl hget hchain hread
    obtain ⟨now, f⟩ := p
    cases hb : env.marshalUplinkFrame f with
    | none =>
      have hI : putInstants env ((now, f) :: puts) = putInstants env puts := by
        simp [putInstants, List.filterMap_cons, hb]
      rw [hI] at hchain hread
      simp only [collectAndCallOncePutAll, collectAndCallOncePut, hb, List.filterMap_cons]
      exact ih r ms tl hget hchain hread
    | some b =>
      have hI : putInstants env ((now, f) :: puts) = now :: putInstants env puts := by
        simp [putInstants, List.filterMap_cons, hb]
      rw [hI] at hchain hread
      obtain ⟨hnow, hchain'⟩ := List.chain_cons.mp hchain
      have hl : redisLive now (some (tl + ttl)) = true := by
        simp only [redisLive, decide_eq_true_eq]
        exact hnow
      have hms : redisSMembers now r key = ms := by
        simp only [redisSMembers, hget, hl, if_true]
      simp only [collectAndCallOncePutAll, collectAndCallOncePut, hb, List.filterMap_cons,
        List.foldl_cons]
      apply ih _ (setInsert ms b) now
      · rw [redisPut_sets, hms]
        rfl
      · exact hchain'
      · intro x hx
        apply hread x
        rw [List.getLast?_cons_cons]
        exact hx

/-- The members read after a sequence of puts into a set that did not exist, each put (and
the read) coming before the expiry that the put before it has set. -/
theorem collectAndCallOncePutAll_members (env : CollectEnv) (key : RedisKey) (ttl t : Int)
    (puts : List (Int × UplinkFrame)) :
    ∀ (r : Redis),
      mapGet r.sets key = none →
      List.Chain' (fun a b => b < a + ttl) (putInstants env puts) →
      (∀ x, (putInstants env puts).getLast? = some x → t < x + ttl) →
      redisSMembers t (collectAndCallOncePutAll env key ttl r puts) key =
        (puts.filterMap (fun p => env.marshalUplinkFrame p.2)).foldl setInsert [] := by
  induction puts with
  | nil =>
    intro r hget _ _
    simp only [collectAndCallOncePutAll, List.filterMap_nil, List.foldl_nil, redisSMembers,
      hget]
  | cons p puts ih =>
    intro r hget hchain hread
    obtain ⟨now, f⟩ := p
    cases hb : env.marshalUplinkFrame f with
    | none =>
      have hI : putInstants env ((now, f) :: puts) = putInstants env puts := by
        simp [putInstants, List.filterMap_cons, hb]
      rw [hI] at hchain hread
      simp only [collectAndCallOncePutAll, collectAndCallOncePut, hb, List.filterMap_cons]
      exact ih r hget hchain hread
    | some b =>
      have hI : putInstants env ((now, f) :: puts) = now :: putInstants env puts := by
        simp [putInstants, List.filterMap_cons, hb]
      rw [hI] at hchain hread
      have hms : redisSMembers now r key = [] := by
        simp only [redisSMembers, hget]
      simp only [collectAndCallOncePutAll, collectAndCallOncePut, hb, List.filterMap_cons,
        List.foldl_cons]
      apply collectAndCallOncePutAll_members_from env key ttl t puts _ (setInsert [] b) now
      · rw [redisPut_sets, hms]
        rfl
      · exact hchain
      · exact hread

/-- C15: for frames of one emission (one key) put with `collectAndCallOncePut` into an
initially empty dedup set, the set not expiring in between (every put that reaches the
cache, and the read, comes before the expiry that the put before it has set, each put
setting the expiry anew): the members of the set are exactly the distinct serialized
frames of the sequence; so putting one frame any number of times (twice, say) yields the
singleton set of its serialization. -/
theorem collectAndCallOncePut_members (env : CollectEnv) (key : RedisKey) (ttl t : Int)
    (r0 : Redis) (puts : List (Int × UplinkFrame))
    (hempty : mapGet r0.sets key = none)
    (hchain : List.Chain' (fun a b => b < a + ttl) (putInstants env puts))
    (hread : ∀ x, (putInstants env puts).getLast? = some x → t < x + ttl) :
    (redisSMembers t (collectAndCallOncePutAll env key ttl r0 puts) key).Nodup ∧
    (∀ b, b ∈ redisSMembers t (collectAndCallOncePutAll env key ttl r0 puts) key ↔
      ∃ p ∈ puts, env.marshalUplinkFrame p.2 = some b) ∧
    (∀ f b, env.marshalUplinkFrame f = some b → puts ≠ [] → (∀ p ∈ puts, p.2 = f) →
      redisSMembers t (collectAndCallOncePutAll env key ttl r0 puts) key = [b]) := by
  have hmem := collectAndCallOncePutAll_members env key ttl t puts r0 hempty hchain hread
  obtain ⟨hnodup, hiff⟩ := foldl_setInsert
    (puts.filterMap (fun p => env.marshalUplinkFrame p.2)) [] List.nodup_nil
  rw [← hmem] at hnodup hiff
  have hiff' : ∀ b, b ∈ redisSMembers t (collectAndCallOncePutAll env key ttl r0 puts) key ↔
      ∃ p ∈ puts, env.marshalUplinkFrame p.2 = some b := by
    intro b
    rw [hiff b, List.mem_filterMap]
    simp
  refine ⟨hnodup, hiff', ?_⟩
  intro f b hb hne hall
  have hall' : ∀ x, x ∈ redisSMembers t (collectAndCallOncePutAll env key ttl r0 puts) key ↔
      x = b := by
    intro x
    rw [hiff' x]
    constructor
    · rintro ⟨p, hp, hx⟩
      rw [hall p hp, hb] at hx
      exact (Option.some.inj hx).symm
    · intro hx
      obtain ⟨p, hp⟩ := List.exists_mem_of_ne_nil puts hne
      exact ⟨p, hp, by rw [hall p hp, hx, hb]⟩
  have hperm : (redisSMembers t (collectAndCallOncePutAll env key ttl r0 puts) key).Perm [b] :=
    (List.perm_ext_iff_of_nodup hnodup (List.nodup_singleton b)).mpr
      (fun x => by rw [hall' x, List.mem_singleton])
  exact List.perm_singleton.mp hperm

/-- The instance of `collectAndCallOncePut_members` at a TTL of 400ms and three puts, at 0,
300ms and 600ms (the frame of gateway 01, that of gateway 02, that of gateway 01 again),
read at 700ms: no instant of a single window of 400ms holds the puts and the read, and the
members are the two distinct frames. -/
theorem collectAndCallOncePut_members_witness :
    redisSMembers 700000000
      (collectAndCallOncePutAll exampleEnv
        (.collect [868100000, 125, 10] [64, 1, 2, 3, 4, 5]) 400000000 ⟨[], []⟩
        [(0, ⟨[64, 1, 2, 3, 4, 5], some ⟨868100000, 125, 10⟩, some ⟨[1], -80⟩⟩),
         (300000000, ⟨[64, 1, 2, 3, 4, 5], some ⟨868100000, 125, 10⟩, some ⟨[2], -60⟩⟩),
         (600000000, ⟨[64, 1, 2, 3, 4, 5], some ⟨868100000, 125, 10⟩, some ⟨[1], -80⟩⟩)])
      (.collect [868100000, 125, 10] [64, 1, 2, 3, 4, 5]) = [[1, 80], [2, 60]] ∧
    (redisSMembers 700000000
      (collectAndCallOncePutAll exampleEnv
        (.collect [868100000, 125, 10] [64, 1, 2, 3, 4, 5]) 400000000 ⟨[], []⟩
        [(0, ⟨[64, 1, 2, 3, 4, 5], some ⟨868100000, 125, 10⟩, some ⟨[1], -80⟩⟩),
         (300000000, ⟨[64, 1, 2, 3, 4, 5], some ⟨868100000, 125, 10⟩, some ⟨[2], -60⟩⟩),
         (600000000, ⟨[64, 1, 2, 3, 4, 5], some ⟨868100000, 125, 10⟩, some ⟨[1], -80⟩⟩)])
      (.collect [868100000, 125, 10] [64, 1, 2, 3, 4, 5])).Nodup :=
  ⟨by decide,
   (collectAndCallOncePut_members exampleEnv
      (.collect [868100000, 125, 10] [64, 1, 2, 3, 4, 5]) 400000000 700000000 ⟨[], []⟩
      [(0, ⟨[64, 1, 2, 3, 4, 5], some ⟨868100000, 125, 10⟩, some ⟨[1], -80⟩⟩),
       (300000000, ⟨[64, 1, 2, 3, 4, 5], some ⟨868100000, 125, 10⟩, some ⟨[2], -60⟩⟩),
       (600000000, ⟨[64, 1, 2, 3, 4, 5], some ⟨868100000, 125, 10⟩, some ⟨[1], -80⟩⟩)]
      rfl
      (by
        show List.Chain' (fun a b => b < a + 400000000) [(0 : Int), 300000000, 600000000]
        simp)
      (by
        show ∀ x, [(0 : Int), 300000000, 600000000].getLast? = some x →
          (700000000 : Int) < x + 400000000
        intro x hx
        simp at hx
        omega)).1⟩
/-! ### Concurrent invocations of `collectAndCallOnce` -/

/-- The four steps of one invocation, taken without another invocation in between (the last
two when `deduplicationDelay` has passed), are the function `collectAndCallOnce`. -/
theorem collectAndCallOnceStep_sequential (env : CollectEnv) (d now : Int) (r : Redis)
    (f : UplinkFrame) :
    collectAndCallOnceRun env d [f] (r, fun _ => .entering)
        [⟨0, .put, now⟩, ⟨0, .setNX, now⟩, ⟨0, .sMembers, now + max d 0⟩,
          ⟨0, .del, now + max d 0⟩] =
      ((collectAndCallOnce env d now r f).1,
        Function.update (fun _ => CollectState.entering) 0
          (.done (collectAndCallOnce env d now r f).2)) := by
  have hsleep : ¬ (now + max d 0 < now + d) := by
    have := le_max_left d 0
    omega
  simp only [collectAndCallOnceRun, List.getElem?_cons_zero, Function.update_same,
    Function.update_idem, collectAndCallOnce, collectAndCallOnceEnter,
    collectAndCallOnceFinish, collectAndCallOnceCollect]
  cases htx : env.marshalTxInfo f.TxInfo with
  | none => simp [collectAndCallOnceStep, htx]
  | some txB =>
    cases hput : collectAndCallOncePut env now r (.collect txB f.PhyPayload)
        (deduplicationTTL d) f with
    | error err => simp [collectAndCallOnceStep, htx, hput]
    | ok r₁ =>
      cases hlock : (collectAndCallOnceLocked d now r₁ (.collectLock txB f.PhyPayload)
          (deduplicationTTL d)).2 with
      | true => simp [collectAndCallOnceStep, htx, hput, hlock]
      | false => simp [collectAndCallOnceStep, htx, hput, hlock, hsleep]

/-- A step changes nothing unless its command is the next command of the invocation. -/
theorem collectAndCallOnceStep_cases (env : CollectEnv) (d now : Int) (f : UplinkFrame)
    (r : Redis) (st : CollectState) (c : CollectCommand) :
    collectAndCallOnceStep env d now f r st c = (r, st) ∨
    (st = .entering ∧ c = .put) ∨
    (∃ key lockKey, st = .stored key lockKey ∧ c = .setNX) ∨
    (∃ key since, st = .sleeping key since ∧ c = .sMembers) ∨
    (∃ key payloads, st = .collecting key payloads ∧ c = .del) := by
  cases st <;> cases c <;> simp [collectAndCallOnceStep]

/-- The building of the packet never ends in a nil return without the callback. -/
theorem collectAndCallOnceAssemble_ne_returned_none (env : CollectEnv) (payloads : List Bytes) :
    collectAndCallOnceAssemble env payloads ≠ .returned none := by
  unfold collectAndCallOnceAssemble
  split
  · simp
  · split <;> simp

theorem deduplicationTTL_gt (d : Int) (h0 : 0 ≤ d) (h : 2 * d < 9223372036854775808) :
    d < deduplicationTTL d := by
  rw [deduplicationTTL_eq_max d (by omega) h]
  have h1 := le_max_left (2 * d) (200 * millisecond)
  have h2 := le_max_right (2 * d) (200 * millisecond)
  simp only [millisecond] at h1 h2 ⊢
  omega

theorem redisGet_redisDel_ne (t : Int) (r : Redis) (key key' : RedisKey) (h : key ≠ key') :
    redisGet t (redisDel r key) key' = redisGet t r key' := by
  simp only [redisGet, redisDel, mapGet_mapDelete_ne _ _ _ h]

/-- A lock that is not held at `t0` is not held later, so `SetNX` acquires it. -/
theorem redisSetNX_free (t0 now : Int) (r : Redis) (key : RedisKey) (value : Bytes) (ttl : Int)
    (hfree : redisGet t0 r key = none) (h : t0 ≤ now) :
    redisSetNX now r key value ttl =
      ({ r with strings := mapSet r.strings key (value, some (now + ttl)) }, true) := by
  unfold redisGet at hfree
  unfold redisSetNX
  cases hget : mapGet r.strings key with
  | none => simp
  | some v =>
    obtain ⟨val, e⟩ := v
    rw [hget] at hfree
    cases e with
    | none => simp [redisLive] at hfree
    | some x =>
      have hx : ¬ (t0 < x) := by
        intro hlt
        simp [redisLive, hlt] at hfree
      have hl : redisLive now (some x) = false := by
        simp only [redisLive, decide_eq_false_iff_not]
        omega
      simp [hl]

/-- A lock that expires after `now` holds `SetNX` back. -/
theorem redisSetNX_held (now : Int) (r : Redis) (key : RedisKey) (value v : Bytes)
    (ttl e : Int) (hget : mapGet r.strings key = some (v, some e)) (he : now < e) :
    redisSetNX now r key value ttl = (r, false) := by
  have hl : redisLive now (some e) = true := by
    simp only [redisLive, decide_eq_true_eq]
    exact he
  unfold redisSetNX
  simp [hget, hl]

/-- One step of a run keeps the invariant `lockDiscipline`. -/
theorem lockDiscipline_step (env : CollectEnv) (K : Nat) (d t0 : Int)
    (txInfo : Option UplinkTXInfo) (phyPayload txInfoB : Bytes)
    (hrange : 2 * d < 9223372036854775808)
    (htx : env.marshalTxInfo txInfo = some txInfoB)
    (s : Redis × (Nat → CollectState)) (i : Nat) (c : CollectCommand) (now : Int)
    (f : UplinkFrame) (hi : i < K)
    (hsame : f.TxInfo = txInfo ∧ f.PhyPayload = phyPayload)
    (hser : ∃ b, env.marshalUplinkFrame f = some b)
    (hwindow : (c = .put ∨ c = .setNX) → t0 ≤ now ∧ now ≤ t0 + d)
    (hinv : lockDiscipline env K (.collect txInfoB phyPayload)
      (.collectLock txInfoB phyPayload) t0 (deduplicationTTL d) s) :
    lockDiscipline env K (.collect txInfoB phyPayload) (.collectLock txInfoB phyPayload) t0
      (deduplicationTTL d)
      ((collectAndCallOnceStep env d now f s.1 (s.2 i) c).1,
        Function.update s.2 i (collectAndCallOnceStep env d now f s.1 (s.2 i) c).2) := by
  obtain ⟨r, states⟩ := s
  obtain ⟨b, hb⟩ := hser
  have hne : RedisKey.collect txInfoB phyPayload ≠ RedisKey.collectLock txInfoB phyPayload := by
    intro h
    cases h
  have hputStep : collectAndCallOnceStep env d now f r .entering .put =
      (redisPExpire now (redisSAdd now r (.collect txInfoB phyPayload) b)
          (.collect txInfoB phyPayload) (deduplicationTTL d),
        .stored (.collect txInfoB phyPayload) (.collectLock txInfoB phyPayload)) := by
    simp only [collectAndCallOnceStep, hsame.1, hsame.2, htx, collectAndCallOncePut, hb]
  rcases collectAndCallOnceStep_cases env d now f r (states i) c with
    hnop | ⟨hst, hc⟩ | ⟨key, lockKey, hst, hc⟩ | ⟨key, since, hst, hc⟩ | ⟨key, ps, hst, hc⟩
  · -- nothing happens
    simp only at hnop ⊢
    rw [hnop]
    simp only [Function.update_eq_self]
    exact hinv
  · -- the put
    simp only at hst ⊢
    rw [hst, hc, hputStep]
    simp only
    rcases hinv with ⟨hfree, hall⟩ | ⟨w, e, v, hw, hlock, he, hwst, hothers⟩
    · left
      refine ⟨?_, ?_⟩
      · simp only [redisGet, redisPut_strings] at hfree ⊢
        exact hfree
      · intro j hj
        by_cases hji : j = i
        · subst hji
          simp
        · simp only [Function.update_noteq hji]
          exact hall j hj
    · right
      have hiw : i ≠ w := by
        intro h
        subst h
        simp only at hwst
        rw [hst] at hwst
        rcases hwst with ⟨_, h⟩ | ⟨_, h⟩ | ⟨_, h⟩ <;> cases h
      refine ⟨w, e, v, hw, ?_, he, ?_, ?_⟩
      · rw [redisPut_strings]
        exact hlock
      · simp only [Function.update_noteq (Ne.symm hiw)]
        exact hwst
      · intro j hj hjw
        by_cases hji : j = i
        · subst hji
          simp
        · simp only [Function.update_noteq hji]
          exact hothers j hj hjw
  · -- the lock
    simp only at hst ⊢
    obtain ⟨hlo, hhi⟩ := hwindow (Or.inr hc)
    have hd0 : 0 ≤ d := by omega
    have hT := deduplicationTTL_gt d hd0 hrange
    rcases hinv with ⟨hfree, hall⟩ | ⟨w, e, v, hw, hlock, he, hwst, hothers⟩
    · have hkeys : key = .collect txInfoB phyPayload ∧
          lockKey = .collectLock txInfoB phyPayload := by
        rcases hall i hi with h | h
        · simp only at h
          rw [hst] at h
          cases h
        · simp only at h
          rw [hst] at h
          cases h
          exact ⟨rfl, rfl⟩
      obtain ⟨hk, hlk⟩ := hkeys
      subst hk
      subst hlk
      have hset := redisSetNX_free t0 now r (.collectLock txInfoB phyPayload)
        [108, 111, 99, 107] (deduplicationTTL d) hfree hlo
      rw [hst, hc]
      simp only [collectAndCallOnceStep, collectAndCallOnceLocked, hset, Bool.not_true,
        Bool.false_eq_true, if_false]
      right
      refine ⟨i, now + deduplicationTTL d, [108, 111, 99, 107], hi, ?_, by omega, ?_, ?_⟩
      · simp only [mapGet_mapSet_self]
      · left
        exact ⟨now, by simp⟩
      · intro j hj hji
        simp only [Function.update_noteq hji]
        rcases hall j hj with h | h
        · exact Or.inl h
        · exact Or.inr (Or.inl h)
    · have hiw : i ≠ w := by
        intro h
        subst h
        simp only at hwst
        rw [hst] at hwst
        rcases hwst with ⟨_, h⟩ | ⟨_, h⟩ | ⟨_, h⟩ <;> cases h
      have hkeys : lockKey = .collectLock txInfoB phyPayload := by
        rcases hothers i hi hiw with h | h | h
        · simp only at h
          rw [hst] at h
          cases h
        · simp only at h
          rw [hst] at h
          cases h
          rfl
        · simp only at h
          rw [hst] at h
          cases h
      subst hkeys
      have hset := redisSetNX_held now r (.collectLock txInfoB phyPayload)
        [108, 111, 99, 107] v (deduplicationTTL d) e hlock (by omega)
      rw [hst, hc]
      simp only [collectAndCallOnceStep, collectAndCallOnceLocked, hset, Bool.not_false,
        if_true]
      right
      refine ⟨w, e, v, hw, hlock, he, ?_, ?_⟩
      · simp only [Function.update_noteq (Ne.symm hiw)]
        exact hwst
      · intro j hj hjw
        by_cases hji : j = i
        · subst hji
          simp
        · simp only [Function.update_noteq hji]
          exact hothers j hj hjw
  · -- the read of the set
    simp only at hst ⊢
    rcases hinv with ⟨hfree, hall⟩ | ⟨w, e, v, hw, hlock, he, hwst, hothers⟩
    · exfalso
      rcases hall i hi with h | h <;>
        · simp only at h
          rw [hst] at h
          cases h
    · have hiw : i = w := by
        by_contra hiw
        rcases hothers i hi hiw with h | h | h <;>
          · simp only at h
            rw [hst] at h
            cases h
      subst hiw
      have hkey : key = .collect txInfoB phyPayload := by
        simp only at hwst
        rw [hst] at hwst
        rcases hwst with ⟨_, h⟩ | ⟨_, h⟩ | ⟨_, h⟩
        · cases h
          rfl
        · cases h
        · cases h
      subst hkey
      rw [hst, hc]
      right
      refine ⟨i, e, v, hw, ?_, he, ?_, ?_⟩
      · simp only [collectAndCallOnceStep]
        split <;> exact hlock
      · simp only [collectAndCallOnceStep, Function.update_same]
        split
        · exact Or.inl ⟨since, rfl⟩
        · exact Or.inr (Or.inl ⟨_, rfl⟩)
      · intro j hj hji
        simp only [Function.update_noteq hji]
        exact hothers j hj hji
  · -- the deletion of the set
    simp only at hst ⊢
    rcases hinv with ⟨hfree, hall⟩ | ⟨w, e, v, hw, hlock, he, hwst, hothers⟩
    · exfalso
      rcases hall i hi with h | h <;>
        · simp only at h
          rw [hst] at h
          cases h
    · have hiw : i = w := by
        by_contra hiw
        rcases hothers i hi hiw with h | h | h <;>
          · simp only at h
            rw [hst] at h
            cases h
      subst hiw
      have hkey : key = .collect txInfoB phyPayload := by
        simp only at hwst
        rw [hst] at hwst
        rcases hwst with ⟨_, h⟩ | ⟨_, h⟩ | ⟨_, h⟩
        · cases h
        · cases h
          rfl
        · cases h
      subst hkey
      rw [hst, hc]
      right
      refine ⟨i, e, v, hw, ?_, he, ?_, ?_⟩
      · simp only [collectAndCallOnceStep, redisDel, mapGet_mapDelete_ne _ _ _ hne]
        exact hlock
      · simp only [collectAndCallOnceStep, Function.update_same]
        exact Or.inr (Or.inr ⟨ps, rfl⟩)
      · intro j hj hji
        simp only [Function.update_noteq hji]
        exact hothers j hj hji

/-- A run keeps the invariant `lockDiscipline`. -/
theorem lockDiscipline_run (env : CollectEnv) (d t0 : Int)
    (rxPackets : List UplinkFrame) (txInfo : Option UplinkTXInfo)
    (phyPayload txInfoB : Bytes)
    (hrange : 2 * d < 9223372036854775808)
    (hsame : ∀ f ∈ rxPackets, f.TxInfo = txInfo ∧ f.PhyPayload = phyPayload)
    (htx : env.marshalTxInfo txInfo = some txInfoB)
    (hser : ∀ f ∈ rxPackets, ∃ b, env.marshalUplinkFrame f = some b)
    (schedule : List CollectEvent) :
    ∀ s : Redis × (Nat → CollectState),
      (∀ e ∈ schedule, (e.command = .put ∨ e.command = .setNX) →
        t0 ≤ e.instant ∧ e.instant ≤ t0 + d) →
      lockDiscipline env rxPackets.length (.collect txInfoB phyPayload)
        (.collectLock txInfoB phyPayload) t0 (deduplicationTTL d) s →
      lockDiscipline env rxPackets.length (.collect txInfoB phyPayload)
        (.collectLock txInfoB phyPayload) t0 (deduplicationTTL d)
        (collectAndCallOnceRun env d rxPackets s schedule) := by
  induction schedule with
  | nil =>
    intro s _ hinv
    exact hinv
  | cons e schedule ih =>
    intro s hwindow hinv
    have hwindow' : ∀ e' ∈ schedule, (e'.command = .put ∨ e'.command = .setNX) →
        t0 ≤ e'.instant ∧ e'.instant ≤ t0 + d :=
      fun e' he' => hwindow e' (List.mem_cons_of_mem _ he')
    cases hf : rxPackets[e.invocation]? with
    | none =>
      simp only [collectAndCallOnceRun, hf]
      exact ih s hwindow' hinv
    | some f =>
      simp only [collectAndCallOnceRun, hf]
      have hmem : f ∈ rxPackets := List.getElem?_mem hf
      have hi : e.invocation < rxPackets.length := by
        by_contra hge
        rw [List.getElem?_eq_none (by omega)] at hf
        cases hf
      exact ih _ hwindow'
        (lockDiscipline_step env rxPackets.length d t0 txInfo phyPayload txInfoB hrange htx s
          e.invocation e.command e.instant f hi (hsame f hmem) (hser f hmem)
          (hwindow e (List.mem_cons_self _ _)) hinv)

/-- C10 as stated fails: a single invocation (K = 1) for a frame whose PHY payload is
empty puts its frame, acquires the lock, sleeps and reads its frame back, and then returns
the error "unmarshal phypayload error" without invoking the callback: no invocation
invokes the callback. -/
theorem callbackExactlyOnce_counterexample :
    (∀ e ∈ [(⟨0, .put, 0⟩ : CollectEvent), ⟨0, .setNX, 0⟩, ⟨0, .sMembers, 50000000⟩,
        ⟨0, .del, 50000000⟩],
      (e.command = .put ∨ e.command = .setNX) →
        (0 : Int) ≤ e.instant ∧ e.instant ≤ 0 + 50000000) ∧
    (collectAndCallOnceRun emptyPayloadEnv 50000000
        [⟨[], some ⟨868100000, 125, 10⟩, some ⟨[1], -80⟩⟩] (⟨[], []⟩, fun _ => .entering)
        [⟨0, .put, 0⟩, ⟨0, .setNX, 0⟩, ⟨0, .sMembers, 50000000⟩, ⟨0, .del, 50000000⟩]).2 0 =
      .done (.returned (some CollectError.unmarshalPHYPayload)) ∧
    ¬ callbackExactlyOnce
      (collectAndCallOnceRun emptyPayloadEnv 50000000
        [⟨[], some ⟨868100000, 125, 10⟩, some ⟨[1], -80⟩⟩] (⟨[], []⟩, fun _ => .entering)
        [⟨0, .put, 0⟩, ⟨0, .setNX, 0⟩, ⟨0, .sMembers, 50000000⟩, ⟨0, .del, 50000000⟩]).2 1 := by
  have hrun : (collectAndCallOnceRun emptyPayloadEnv 50000000
        [⟨[], some ⟨868100000, 125, 10⟩, some ⟨[1], -80⟩⟩] (⟨[], []⟩, fun _ => .entering)
        [⟨0, .put, 0⟩, ⟨0, .setNX, 0⟩, ⟨0, .sMembers, 50000000⟩, ⟨0, .del, 50000000⟩]).2 0 =
      .done (.returned (some CollectError.unmarshalPHYPayload)) := by decide
  refine ⟨?_, hrun, ?_⟩
  · intro e he _
    simp only [List.mem_cons, List.mem_singleton, List.not_mem_nil, or_false] at he
    rcases he with rfl | rfl | rfl | rfl <;> decide
  · rintro ⟨w, hw, ⟨packet, hp⟩, -⟩
    have hw0 : w = 0 := by omega
    subst hw0
    rw [hrun] at hp
    cases hp

/-- C10, amended: for `K >= 1` invocations of `collectAndCallOnce` with frames that share
the TxInfo and the PhyPayload and that serialize, a `deduplicationDelay` whose double fits
the 64-bit duration, a cache in which the lock of the fingerprint is not held at `t0`, and
any interleaving of the steps of the invocations in which every put and every lock step
happens between `t0` and `t0 + deduplicationDelay` and every invocation runs to its end:
exactly one invocation acquires the lock; it reads the set and ends in the building of the
packet from the members it has read, which invokes the callback (once) when they decode;
every other invocation returns nil without invoking the callback.  So the callback is
invoked exactly once, by one invocation, exactly when the packet of the winner is built. -/
theorem collectAndCallOnceRun_one_winner (env : CollectEnv) (d t0 : Int) (r0 : Redis)
    (rxPackets : List UplinkFrame) (schedule : List CollectEvent)
    (txInfo : Option UplinkTXInfo) (phyPayload txInfoB : Bytes)
    (hK : 1 ≤ rxPackets.length)
    (hrange : 2 * d < 9223372036854775808)
    (hsame : ∀ f ∈ rxPackets, f.TxInfo = txInfo ∧ f.PhyPayload = phyPayload)
    (htx : env.marshalTxInfo txInfo = some txInfoB)
    (hser : ∀ f ∈ rxPackets, ∃ b, env.marshalUplinkFrame f = some b)
    (hfree : redisGet t0 r0 (.collectLock txInfoB phyPayload) = none)
    (hwindow : ∀ e ∈ schedule, (e.command = .put ∨ e.command = .setNX) →
      t0 ≤ e.instant ∧ e.instant ≤ t0 + d)
    (hdone : ∀ i, i < rxPackets.length → ∃ outcome,
      (collectAndCallOnceRun env d rxPackets (r0, fun _ => .entering) schedule).2 i =
        .done outcome) :
    ∃ w payloads, w < rxPackets.length ∧
      (collectAndCallOnceRun env d rxPackets (r0, fun _ => .entering) schedule).2 w =
        .done (collectAndCallOnceAssemble env payloads) ∧
      (∀ i, i < rxPackets.length → i ≠ w →
        (collectAndCallOnceRun env d rxPackets (r0, fun _ => .entering) schedule).2 i =
          .done (.returned none)) ∧
      (callbackExactlyOnce
          (collectAndCallOnceRun env d rxPackets (r0, fun _ => .entering) schedule).2
          rxPackets.length ↔
        ∃ packet, collectAndCallOnceAssemble env payloads = .callback packet) := by
  have hinv := lockDiscipline_run env d t0 rxPackets txInfo phyPayload txInfoB hrange hsame
    htx hser schedule (r0, fun _ => .entering) hwindow
    (Or.inl ⟨hfree, fun _ _ => Or.inl rfl⟩)
  rcases hinv with ⟨-, hall⟩ | ⟨w, e, v, hw, -, -, hwst, hothers⟩
  · exfalso
    obtain ⟨o, ho⟩ := hdone 0 (by omega)
    rcases hall 0 (by omega) with h | h
    · rw [ho] at h
      cases h
    · rw [ho] at h
      cases h
  · obtain ⟨o, ho⟩ := hdone w hw
    obtain ⟨payloads, hpay⟩ : ∃ payloads,
        (collectAndCallOnceRun env d rxPackets (r0, fun _ => .entering) schedule).2 w =
          .done (collectAndCallOnceAssemble env payloads) := by
      rcases hwst with ⟨since, h⟩ | ⟨ps, h⟩ | ⟨ps, h⟩
      · rw [ho] at h
        cases h
      · rw [ho] at h
        cases h
      · exact ⟨ps, h⟩
    have hlosers : ∀ i, i < rxPackets.length → i ≠ w →
        (collectAndCallOnceRun env d rxPackets (r0, fun _ => .entering) schedule).2 i =
          .done (.returned none) := by
      intro i hi hiw
      obtain ⟨oi, hoi⟩ := hdone i hi
      rcases hothers i hi hiw with h | h | h
      · rw [hoi] at h
        cases h
      · rw [hoi] at h
        cases h
      · exact h
    refine ⟨w, payloads, hw, hpay, hlosers, ?_⟩
    constructor
    · rintro ⟨w', hw', ⟨packet, hp⟩, hrest⟩
      by_cases hww : w = w'
      · subst hww
        rw [hpay] at hp
        exact ⟨packet, CollectState.done.inj hp⟩
      · exfalso
        have h1 := hrest w hw hww
        rw [hpay] at h1
        exact collectAndCallOnceAssemble_ne_returned_none env payloads
          (CollectState.done.inj h1)
    · rintro ⟨packet, hp⟩
      exact ⟨w, hw, ⟨packet, by rw [hpay, hp]⟩, hlosers⟩

/-- The instance of `collectAndCallOnceRun_one_winner` at two invocations, for the frames of
the gateways 01 and 02, with a delay of 50ms: the first puts its frame at 0, the second puts
its frame and acquires the lock at 10ms, the first finds the lock held at 20ms and returns
nil, the second reads and deletes the set at 60ms and invokes the callback on both frames. -/
theorem collectAndCallOnceRun_one_winner_witness :
    (collectAndCallOnceRun exampleEnv 50000000
        [⟨[64, 1, 2, 3, 4, 5], some ⟨868100000, 125, 10⟩, some ⟨[1], -80⟩⟩,
         ⟨[64, 1, 2, 3, 4, 5], some ⟨868100000, 125, 10⟩, some ⟨[2], -60⟩⟩]
        (⟨[], []⟩, fun _ => .entering)
        [⟨0, .put, 0⟩, ⟨1, .put, 10000000⟩, ⟨1, .setNX, 10000000⟩, ⟨0, .setNX, 20000000⟩,
          ⟨1, .sMembers, 60000000⟩, ⟨1, .del, 60000000⟩]).2 0 = .done (.returned none) ∧
    (collectAndCallOnceRun exampleEnv 50000000
        [⟨[64, 1, 2, 3, 4, 5], some ⟨868100000, 125, 10⟩, some ⟨[1], -80⟩⟩,
         ⟨[64, 1, 2, 3, 4, 5], some ⟨868100000, 125, 10⟩, some ⟨[2], -60⟩⟩]
        (⟨[], []⟩, fun _ => .entering)
        [⟨0, .put, 0⟩, ⟨1, .put, 10000000⟩, ⟨1, .setNX, 10000000⟩, ⟨0, .setNX, 20000000⟩,
          ⟨1, .sMembers, 60000000⟩, ⟨1, .del, 60000000⟩]).2 1 =
      .done (.callback
        { PHYPayload := { MHDR := 64, MACPayload := [1], MIC := [2, 3, 4, 5] }
          TXInfo := some ⟨868100000, 125, 10⟩
          RXInfoSet := [{ GatewayId := [1], Rssi := -80 }, { GatewayId := [2], Rssi := -60 }]
          DR := 2
          GatewayIsPrivate := some []
          GatewayServiceProfile := some [] }) ∧
    ∃ w payloads, w < 2 ∧
      (collectAndCallOnceRun exampleEnv 50000000
        [⟨[64, 1, 2, 3, 4, 5], some ⟨868100000, 125, 10⟩, some ⟨[1], -80⟩⟩,
         ⟨[64, 1, 2, 3, 4, 5], some ⟨868100000, 125, 10⟩, some ⟨[2], -60⟩⟩]
        (⟨[], []⟩, fun _ => .entering)
        [⟨0, .put, 0⟩, ⟨1, .put, 10000000⟩, ⟨1, .setNX, 10000000⟩, ⟨0, .setNX, 20000000⟩,
          ⟨1, .sMembers, 60000000⟩, ⟨1, .del, 60000000⟩]).2 w =
        .done (collectAndCallOnceAssemble exampleEnv payloads) ∧
      (∀ i, i < 2 → i ≠ w →
        (collectAndCallOnceRun exampleEnv 50000000
          [⟨[64, 1, 2, 3, 4, 5], some ⟨868100000, 125, 10⟩, some ⟨[1], -80⟩⟩,
           ⟨[64, 1, 2, 3, 4, 5], some ⟨868100000, 125, 10⟩, some ⟨[2], -60⟩⟩]
          (⟨[], []⟩, fun _ => .entering)
          [⟨0, .put, 0⟩, ⟨1, .put, 10000000⟩, ⟨1, .setNX, 10000000⟩, ⟨0, .setNX, 20000000⟩,
            ⟨1, .sMembers, 60000000⟩, ⟨1, .del, 60000000⟩]).2 i = .done (.returned none)) ∧
      (callbackExactlyOnce
          (collectAndCallOnceRun exampleEnv 50000000
            [⟨[64, 1, 2, 3, 4, 5], some ⟨868100000, 125, 10⟩, some ⟨[1], -80⟩⟩,
             ⟨[64, 1, 2, 3, 4, 5], some ⟨868100000, 125, 10⟩, some ⟨[2], -60⟩⟩]
            (⟨[], []⟩, fun _ => .entering)
            [⟨0, .put, 0⟩, ⟨1, .put, 10000000⟩, ⟨1, .setNX, 10000000⟩,
              ⟨0, .setNX, 20000000⟩, ⟨1, .sMembers, 60000000⟩, ⟨1, .del, 60000000⟩]).2 2 ↔
        ∃ packet, collectAndCallOnceAssemble exampleEnv payloads = .callback packet) :=
  ⟨by decide, by decide,
   collectAndCallOnceRun_one_winner exampleEnv 50000000 0 ⟨[], []⟩
      [⟨[64, 1, 2, 3, 4, 5], some ⟨868100000, 125, 10⟩, some ⟨[1], -80⟩⟩,
       ⟨[64, 1, 2, 3, 4, 5], some ⟨868100000, 125, 10⟩, some ⟨[2], -60⟩⟩]
      [⟨0, .put, 0⟩, ⟨1, .put, 10000000⟩, ⟨1, .setNX, 10000000⟩, ⟨0, .setNX, 20000000⟩,
        ⟨1, .sMembers, 60000000⟩, ⟨1, .del, 60000000⟩]
      (some ⟨868100000, 125, 10⟩) [64, 1, 2, 3, 4, 5] [868100000, 125, 10]
      (by decide) (by decide)
      (by
        intro f hf
        simp only [List.mem_cons, List.mem_singleton, List.not_mem_nil, or_false] at hf
        rcases hf with rfl | rfl <;> exact ⟨rfl, rfl⟩)
      rfl
      (by
        intro f hf
        simp only [List.mem_cons, List.mem_singleton, List.not_mem_nil, or_false] at hf
        rcases hf with rfl | rfl <;> exact ⟨_, rfl⟩)
      (by decide)
      (by
        intro e he hc
        simp only [List.mem_cons, List.mem_singleton, List.not_mem_nil, or_false] at he
        rcases he with rfl | rfl | rfl | rfl | rfl | rfl <;>
          first
          | decide
          | exact absurd hc (by decide))
      (by
        intro i hi
        have hcases : i = 0 ∨ i = 1 := by
          simp only [List.length_cons, List.length_nil] at hi
          omega
        rcases hcases with rfl | rfl
        · exact ⟨.returned none, by decide⟩
        · exact ⟨.callback
            { PHYPayload := { MHDR := 64, MACPayload := [1], MIC := [2, 3, 4, 5] }
              TXInfo := some ⟨868100000, 125, 10⟩
              RXInfoSet := [{ GatewayId := [1], Rssi := -80 },
                { GatewayId := [2], Rssi := -60 }]
              DR := 2
              GatewayIsPrivate := some []
              GatewayServiceProfile := some [] }, by decide⟩)⟩
/-! ### `GetAndCacheDeviceProfile` -/

theorem getDeviceProfile_id (db : List DeviceProfileRow) (id : UUID) (dp : DeviceProfile)
    (h : GetDeviceProfile db id = .ok dp) : dp.ID = id := by
  unfold GetDeviceProfile at h
  cases hfind : db.find? (fun row => decide (row.scanned.ID = id)) with
  | none => simp [hfind] at h
  | some row =>
    simp only [hfind, Except.ok.injEq] at h
    have := List.find?_some hfind
    rw [← h]
    simpa using this

/-- C16: on a cache state, a database state and an id, `GetAndCacheDeviceProfile`
returns the cached device-profile when the cache holds a decodable entry for the id,
whatever the database holds, and leaves the cache as it is; otherwise it returns the
database's device-profile for the id and, when that lookup succeeds, stores the encoded
profile in the cache under the id with the device-session TTL; it returns an error
exactly when the cache gives no profile and the database lookup fails. -/
theorem getAndCacheDeviceProfile_spec (gobEncode : DeviceProfile → Option Bytes)
    (gobDecode : Bytes → Option DeviceProfile) (deviceSessionTTL now : Int) (r : Redis)
    (db : List DeviceProfileRow) (id : UUID) :
    (∀ val dp, redisGet now r (.deviceProfile id) = some val → gobDecode val = some dp →
      GetAndCacheDeviceProfile gobEncode gobDecode deviceSessionTTL now r db id =
        (r, .ok dp)) ∧
    ((∀ dp, GetDeviceProfileCache gobDecode now r id ≠ .ok dp) →
      (∀ dp buf, GetDeviceProfile db id = .ok dp → gobEncode dp = some buf →
        GetAndCacheDeviceProfile gobEncode gobDecode deviceSessionTTL now r db id =
          (redisSet now r (.deviceProfile id) buf deviceSessionTTL, .ok dp)) ∧
      (∀ dp, GetDeviceProfile db id = .ok dp →
        (GetAndCacheDeviceProfile gobEncode gobDecode deviceSessionTTL now r db id).2 =
          .ok dp) ∧
      (∀ err, GetDeviceProfile db id = .error err →
        GetAndCacheDeviceProfile gobEncode gobDecode deviceSessionTTL now r db id =
          (r, .error (StorageError.getDeviceProfile err)))) ∧
    ((∃ err, (GetAndCacheDeviceProfile gobEncode gobDecode deviceSessionTTL now r db id).2 =
        .error err) ↔
      ((∀ dp, GetDeviceProfileCache gobDecode now r id ≠ .ok dp) ∧
        ∃ err, GetDeviceProfile db id = .error err)) := by
  refine ⟨?_, ?_, ?_⟩
  · intro val dp hget hdec
    simp only [GetAndCacheDeviceProfile, GetDeviceProfileCache, hget, hdec]
  · intro hmiss
    have hcache : ∃ err, GetDeviceProfileCache gobDecode now r id = .error err := by
      cases h : GetDeviceProfileCache gobDecode now r id with
      | error err => exact ⟨err, rfl⟩
      | ok dp => exact absurd h (hmiss dp)
    obtain ⟨cerr, hcerr⟩ := hcache
    refine ⟨?_, ?_, ?_⟩
    · intro dp buf hdb henc
      have hid := getDeviceProfile_id db id dp hdb
      simp only [GetAndCacheDeviceProfile, hcerr, hdb, CreateDeviceProfileCache, henc, hid]
    · intro dp hdb
      simp only [GetAndCacheDeviceProfile, hcerr, hdb]
      cases CreateDeviceProfileCache gobEncode deviceSessionTTL now r dp <;> rfl
    · intro err hdb
      simp only [GetAndCacheDeviceProfile, hcerr, hdb]
  · constructor
    · rintro ⟨err, herr⟩
      cases hc : GetDeviceProfileCache gobDecode now r id with
      | ok dp => simp [GetAndCacheDeviceProfile, hc] at herr
      | error cerr =>
        refine ⟨fun dp => by simp, ?_⟩
        cases hdb : GetDeviceProfile db id with
        | error e => exact ⟨e, rfl⟩
        | ok dp =>
          simp only [GetAndCacheDeviceProfile, hc, hdb] at herr
          cases hcr : CreateDeviceProfileCache gobEncode deviceSessionTTL now r dp <;>
            simp [hcr] at herr
    · rintro ⟨hmiss, e, hdb⟩
      cases hc : GetDeviceProfileCache gobDecode now r id with
      | ok dp => exact absurd hc (hmiss dp)
      | error cerr =>
        exact ⟨StorageError.getDeviceProfile e,
          by simp only [GetAndCacheDeviceProfile, hc, hdb]⟩

/-- The instance of `getAndCacheDeviceProfile_spec` at an empty cache and a database with
the profile 7: the profile is returned and stored with a TTL of 31 days. -/
theorem getAndCacheDeviceProfile_spec_witness :
    GetAndCacheDeviceProfile exampleGobEncode exampleGobDecode 2678400000000000 1000
        ⟨[], []⟩ [⟨exampleDeviceProfile, [868100000, 868300000]⟩] 7 =
      (⟨[], [(.deviceProfile 7, [7, 1], some 2678400000001000)]⟩,
       .ok { exampleDeviceProfile with FactoryPresetFreqs := [868100000, 868300000] }) :=
  ((getAndCacheDeviceProfile_spec exampleGobEncode exampleGobDecode 2678400000000000 1000
      ⟨[], []⟩ [⟨exampleDeviceProfile, [868100000, 868300000]⟩] 7).2.1
    (by
      intro dp h
      have h0 : GetDeviceProfileCache exampleGobDecode 1000 ⟨[], []⟩ 7 =
          .error StorageError.doesNotExist := by decide
      rw [h0] at h
      cases h)).1
    { exampleDeviceProfile with FactoryPresetFreqs := [868100000, 868300000] } [7, 1]
    (by decide) (by decide)

/-! ### Rounds of request and acknowledgement of new channels -/

/-- In a list without repetition, the elements after the first `n` are those of the list
that are not among the first `n`. -/
theorem mem_drop_iff_of_nodup {α : Type} (l : List α) (h : l.Nodup) (n : Nat) (a : α) :
    a ∈ l.drop n ↔ a ∈ l ∧ a ∉ l.take n := by
  have hsplit : l.take n ++ l.drop n = l := List.take_append_drop n l
  have hnd : (l.take n ++ l.drop n).Nodup := by rw [hsplit]; exact h
  have hdisj := (List.nodup_append.mp hnd).2.2
  constructor
  · intro ha
    exact ⟨List.mem_of_mem_drop ha, fun ht => hdisj ht ha⟩
  · rintro ⟨ha, hnt⟩
    rw [← hsplit, List.mem_append] at ha
    rcases ha with ha | ha
    · exact absurd ha hnt
    · exact ha

/-- The loop of `handleNewChannelAns` when every answer acknowledges and the pending
ChIndex values are pairwise distinct, on a session whose `ExtraUplinkChannels` is an
allocated map: every pending channel is stored, the others stay. -/
theorem handleNewChannelAnsLoop_all_installed (answers : List MACCommand)
    (ds : DeviceSession) (pendings : List MACCommand)
    (hlen : answers.length = pendings.length)
    (hans : ∀ cmd ∈ answers, ∃ pl, cmd.Payload = .newChannelAns pl ∧
      pl.ChannelFrequencyOK = true ∧ pl.DataRateRangeOK = true)
    (hreq : ∀ cmd ∈ pendings, ∃ pl, cmd.Payload = .newChannelReq pl)
    (hdist : pendings.Pairwise (fun c₁ c₂ => ∀ p₁ p₂, c₁.Payload = .newChannelReq p₁ →
      c₂.Payload = .newChannelReq p₂ → p₁.ChIndex ≠ p₂.ChIndex))
    (hne : ds.ExtraUplinkChannels ≠ none) :
    ∃ ds', handleNewChannelAnsLoop ds answers pendings = .ok (ds', none) ∧
      (∀ cmd ∈ pendings, ∀ p, cmd.Payload = .newChannelReq p →
        mapGet (mapEntries ds'.ExtraUplinkChannels) (p.ChIndex : Int) =
          some ⟨p.Freq, (p.MinDR : Int), (p.MaxDR : Int)⟩) ∧
      (∀ k : Int, (∀ cmd ∈ pendings, ∀ p, cmd.Payload = .newChannelReq p →
          (p.ChIndex : Int) ≠ k) →
        mapGet (mapEntries ds'.ExtraUplinkChannels) k =
          mapGet (mapEntries ds.ExtraUplinkChannels) k) ∧
      ds'.ExtraUplinkChannels ≠ none := by
  obtain ⟨ds', hrun, hinst, hframe, -, hkeep⟩ :=
    handleNewChannelAnsLoop_installs answers ds pendings hlen
      (fun cmd hc => by obtain ⟨pl, hpl, -⟩ := hans cmd hc; exact ⟨pl, hpl⟩) hreq hdist
      (fun _ => hne)
      (fun h => by
        exfalso
        obtain ⟨cmd, hc, pl, hpl, hflag⟩ := h
        obtain ⟨pl', hpl', h1, h2⟩ := hans cmd hc
        rw [hpl] at hpl'
        have e : pl = pl' := MACCommandPayload.newChannelAns.inj hpl'
        subst e
        rcases hflag with h | h
        · rw [h1] at h; cases h
        · rw [h2] at h; cases h)
  refine ⟨ds', hrun, ?_, hframe, hkeep hne⟩
  intro cmd hc p hp
  obtain ⟨j, hj, hget⟩ := List.getElem_of_mem hc
  have hja : j < answers.length := by rw [hlen]; exact hj
  obtain ⟨a, ha, h1, h2⟩ := hans answers[j] (List.getElem_mem hja)
  have hA : answers[j]? = some ⟨answers[j].CID, .newChannelAns a⟩ := by
    rw [List.getElem?_eq_getElem hja, ← ha]
  have hP : pendings[j]? = some ⟨cmd.CID, .newChannelReq p⟩ := by
    rw [List.getElem?_eq_getElem hj, hget, ← hp]
  exact (hinst j _ _ a p hA hP h1 h2).1

theorem channelDiffers_congr (cur cur' want : ChannelMap) (k : Int)
    (h : mapGet cur' k = mapGet cur k) :
    channelDiffers cur' want k = channelDiffers cur want k := by
  unfold channelDiffers
  rw [h]

theorem channelDiffers_same (cur want : ChannelMap) (k : Int) (w : Channel)
    (hw : mapGet want k = some w) (hc : mapGet cur k = some w) :
    channelDiffers cur want k = false := by
  unfold channelDiffers
  rw [hw, hc]
  simp

/-- One round on wanted channels that fit the payload's fields, on a session whose
`ExtraUplinkChannels` is an allocated map: the handler accepts the answers, and the
differing indices afterwards are those before without the first `len(block)` of them. -/
theorem differingIndices_after_acknowledge (devEUI : EUI64) (maxChannels : Int)
    (wanted : ChannelMap) (ds : DeviceSession) (block answers : MACCommandBlock)
    (hmax : 0 ≤ maxChannels)
    (hwant : ∀ i w, mapGet wanted i = some w →
      0 ≤ i ∧ i < 256 ∧ 0 ≤ w.MinDR ∧ w.MinDR < 256 ∧ 0 ≤ w.MaxDR ∧ w.MaxDR < 256 ∧
        w.Frequency < 4294967296)
    (hreq : RequestNewChannels devEUI maxChannels (mapEntries ds.ExtraUplinkChannels) wanted =
      .ok (some block))
    (hlen : answers.MACCommands.length = block.MACCommands.length)
    (hans : ∀ cmd ∈ answers.MACCommands, ∃ pl, cmd.Payload = .newChannelAns pl ∧
      pl.ChannelFrequencyOK = true ∧ pl.DataRateRangeOK = true)
    (hextra : ds.ExtraUplinkChannels ≠ none) :
    ∃ ds', handleNewChannelAns ds answers (some block) = .ok (ds', .ok []) ∧
      differingIndices (mapEntries ds'.ExtraUplinkChannels) wanted =
        (differingIndices (mapEntries ds.ExtraUplinkChannels) wanted).drop
          block.MACCommands.length ∧
      block.MACCommands.length =
        min maxChannels.toNat
          (differingIndices (mapEntries ds.ExtraUplinkChannels) wanted).length ∧
      0 < block.MACCommands.length ∧
      ds'.ExtraUplinkChannels ≠ none := by
  obtain ⟨m, rfl⟩ := Int.eq_ofNat_of_zero_le hmax
  rw [requestNewChannels_eq_spec devEUI _ (mapEntries ds.ExtraUplinkChannels) wanted hmax] at hreq
  have hreq := Except.ok.inj hreq
  unfold specRequestNewChannels at hreq
  simp only at hreq
  have hn : (min (m : Int) ((differingIndices (mapEntries ds.ExtraUplinkChannels) wanted).length : Int)).toNat
      = min m (differingIndices (mapEntries ds.ExtraUplinkChannels) wanted).length := by
    omega
  rw [hn] at hreq
  split at hreq
  · exact absurd hreq (by simp)
  · rename_i hne
    have hblock := Option.some.inj hreq
    subst hblock
    simp only [List.length_map, List.length_take, Int.toNat_ofNat] at hlen ⊢
    have hsorted := differingIndices_sorted (mapEntries ds.ExtraUplinkChannels) wanted
    have hnodup : (differingIndices (mapEntries ds.ExtraUplinkChannels) wanted).Nodup := hsorted.nodup
    -- facts on the indices of the prefix
    have hpre : ∀ i ∈ (differingIndices (mapEntries ds.ExtraUplinkChannels) wanted).take
        (min m (differingIndices (mapEntries ds.ExtraUplinkChannels) wanted).length),
        ∃ w, mapGet wanted i = some w ∧ mapIndex wanted i = w := by
      intro i hi
      have hd := (mem_differingIndices _ _ i).mp (List.mem_of_mem_take hi)
      obtain ⟨w, hw, -⟩ := (channelDiffers_iff _ _ i).mp hd
      exact ⟨w, hw, by simp [mapIndex, hw]⟩
    have hidx : ∀ i ∈ (differingIndices (mapEntries ds.ExtraUplinkChannels) wanted).take
        (min m (differingIndices (mapEntries ds.ExtraUplinkChannels) wanted).length),
        ((toUint8 i : Nat) : Int) = i := by
      intro i hi
      obtain ⟨w, hw, -⟩ := hpre i hi
      obtain ⟨h0, h1, -⟩ := hwant i w hw
      unfold toUint8
      omega
    -- the pending block: typed, with pairwise distinct ChIndex values
    have htyped : ∀ cmd ∈ ((differingIndices (mapEntries ds.ExtraUplinkChannels) wanted).take
        (min m (differingIndices (mapEntries ds.ExtraUplinkChannels) wanted).length)).map
        (fun i => newChannelReqCommand i (mapIndex wanted i)),
        ∃ pl, cmd.Payload = .newChannelReq pl := by
      intro cmd hc
      obtain ⟨i, -, rfl⟩ := List.mem_map.mp hc
      exact ⟨_, rfl⟩
    have hdist : (((differingIndices (mapEntries ds.ExtraUplinkChannels) wanted).take
        (min m (differingIndices (mapEntries ds.ExtraUplinkChannels) wanted).length)).map
        (fun i => newChannelReqCommand i (mapIndex wanted i))).Pairwise
        (fun c₁ c₂ => ∀ p₁ p₂, c₁.Payload = .newChannelReq p₁ →
          c₂.Payload = .newChannelReq p₂ → p₁.ChIndex ≠ p₂.ChIndex) := by
      rw [List.pairwise_map]
      have hlt : ((differingIndices (mapEntries ds.ExtraUplinkChannels) wanted).take
          (min m (differingIndices (mapEntries ds.ExtraUplinkChannels) wanted).length)).Pairwise
          (fun a b => a < b) := List.Pairwise.sublist (List.take_sublist _ _) hsorted
      refine List.Pairwise.imp_of_mem ?_ hlt
      intro i j hi hj hij p₁ p₂ h₁ h₂ heq
      simp only [newChannelReqCommand, MACCommandPayload.newChannelReq.injEq] at h₁ h₂
      have e₁ := hidx i hi
      have e₂ := hidx j hj
      rw [← h₁, ← h₂] at heq
      simp only at heq
      rw [heq] at e₁
      omega
    obtain ⟨ds', hrun, hinst, hframe, hkeep⟩ :=
      handleNewChannelAnsLoop_all_installed answers.MACCommands ds _
        (by rw [List.length_map, List.length_take]; exact hlen) hans htyped hdist hextra
    have hpos : 0 < min m (differingIndices (mapEntries ds.ExtraUplinkChannels) wanted).length := by
      rcases Nat.eq_zero_or_pos
        (min m (differingIndices (mapEntries ds.ExtraUplinkChannels) wanted).length) with h0 | h0
      · rw [h0] at hne
        exact absurd (List.take_zero _) hne
      · exact h0
    refine ⟨ds', ?_, ?_, by omega, by omega, hkeep⟩
    · have h1 : ¬ (answers.MACCommands.length = 0) := by omega
      have h2 : ¬ ((List.map (fun i => newChannelReqCommand i (mapIndex wanted i))
          ((differingIndices (mapEntries ds.ExtraUplinkChannels) wanted).take
            (min m (differingIndices (mapEntries ds.ExtraUplinkChannels) wanted).length))).length = 0) := by
        rw [List.length_map, List.length_take]; omega
      have h3 : ¬ (answers.MACCommands.length ≠
          (List.map (fun i => newChannelReqCommand i (mapIndex wanted i))
          ((differingIndices (mapEntries ds.ExtraUplinkChannels) wanted).take
            (min m (differingIndices (mapEntries ds.ExtraUplinkChannels) wanted).length))).length) := by
        rw [List.length_map, List.length_take]; omega
      simp only [handleNewChannelAns, if_neg h1, if_neg h2, if_neg h3, hrun]
    · -- the differing indices after the round
      have hstored : ∀ i ∈ (differingIndices (mapEntries ds.ExtraUplinkChannels) wanted).take
          (min m (differingIndices (mapEntries ds.ExtraUplinkChannels) wanted).length),
          channelDiffers (mapEntries ds'.ExtraUplinkChannels) wanted i = false := by
        intro i hi
        obtain ⟨w, hw, hwi⟩ := hpre i hi
        obtain ⟨-, -, hm0, hm1, hx0, hx1, hf⟩ := hwant i w hw
        have hcmd := hinst (newChannelReqCommand i (mapIndex wanted i))
          (List.mem_map.mpr ⟨i, hi, rfl⟩) _ rfl
        simp only [hidx i hi, hwi] at hcmd
        have e2 : ((toUint8 w.MinDR : Nat) : Int) = w.MinDR := by unfold toUint8; omega
        have e3 : ((toUint8 w.MaxDR : Nat) : Int) = w.MaxDR := by unfold toUint8; omega
        have e4 : toUint32 w.Frequency = w.Frequency := by unfold toUint32; omega
        rw [e2, e3, e4] at hcmd
        exact channelDiffers_same _ _ i w hw hcmd
      have hkept : ∀ k, k ∉ (differingIndices (mapEntries ds.ExtraUplinkChannels) wanted).take
          (min m (differingIndices (mapEntries ds.ExtraUplinkChannels) wanted).length) →
          channelDiffers (mapEntries ds'.ExtraUplinkChannels) wanted k =
            channelDiffers (mapEntries ds.ExtraUplinkChannels) wanted k := by
        intro k hk
        apply channelDiffers_congr
        apply hframe
        intro cmd hc p hp hcontra
        obtain ⟨i, hi, rfl⟩ := List.mem_map.mp hc
        simp only [newChannelReqCommand, MACCommandPayload.newChannelReq.injEq] at hp
        rw [← hp] at hcontra
        simp only at hcontra
        rw [hidx i hi] at hcontra
        exact hk (hcontra ▸ hi)
      apply sorted_lt_ext _ _ (differingIndices_sorted _ _)
        (List.Pairwise.sublist (List.drop_sublist _ _) hsorted)
      intro k
      rw [mem_differingIndices, mem_drop_iff_of_nodup _ hnodup, mem_differingIndices]
      have htake : (differingIndices (mapEntries ds.ExtraUplinkChannels) wanted).take
          (min (min m (differingIndices (mapEntries ds.ExtraUplinkChannels) wanted).length)
            (differingIndices (mapEntries ds.ExtraUplinkChannels) wanted).length) =
          (differingIndices (mapEntries ds.ExtraUplinkChannels) wanted).take
            (min m (differingIndices (mapEntries ds.ExtraUplinkChannels) wanted).length) := by
        congr 1
        omega
      rw [htake]
      by_cases hk : k ∈ (differingIndices (mapEntries ds.ExtraUplinkChannels) wanted).take
          (min m (differingIndices (mapEntries ds.ExtraUplinkChannels) wanted).length)
      · simp [hstored k hk, hk]
      · rw [hkept k hk]
        simp [hk]

/-- With `maxChannels >= 1`, `RequestNewChannels` returns nil exactly when no wanted index
differs. -/
theorem requestNewChannels_nil_iff (devEUI : EUI64) (maxChannels : Int)
    (cur want : ChannelMap) (hmax : 1 ≤ maxChannels) :
    RequestNewChannels devEUI maxChannels cur want = .ok none ↔
      differingIndices cur want = [] := by
  rw [requestNewChannels_eq_spec devEUI maxChannels cur want (by omega)]
  unfold specRequestNewChannels
  simp only
  have hiff : List.take (min maxChannels ((differingIndices cur want).length : Int)).toNat
      (differingIndices cur want) = [] ↔ differingIndices cur want = [] := by
    rw [List.take_eq_nil_iff]
    constructor
    · rintro (h | h)
      · have hlen : (differingIndices cur want).length = 0 := by omega
        exact List.length_eq_zero.mp hlen
      · exact h
    · intro h
      exact Or.inr h
  constructor
  · intro h
    by_contra hne
    rw [if_neg (fun h' => hne (hiff.mp h'))] at h
    exact absurd (Except.ok.inj h) (by simp)
  · intro h
    rw [if_pos (hiff.mpr h)]

/-- After `k` rounds on wanted channels that fit the payload's fields, on a session whose
`ExtraUplinkChannels` is an allocated map unless no wanted index differs, the differing
indices are the initial ones without the first `k * maxChannels` of them. -/
theorem newChannelRounds_differing (devEUI : EUI64) (maxChannels : Int)
    (wanted : ChannelMap) (hmax : 1 ≤ maxChannels)
    (hwant : ∀ i w, mapGet wanted i = some w →
      0 ≤ i ∧ i < 256 ∧ 0 ≤ w.MinDR ∧ w.MinDR < 256 ∧ 0 ≤ w.MaxDR ∧ w.MaxDR < 256 ∧
        w.Frequency < 4294967296) (k : Nat) :
    ∀ ds : DeviceSession,
      (differingIndices (mapEntries ds.ExtraUplinkChannels) wanted ≠ [] →
        ds.ExtraUplinkChannels ≠ none) →
      ∃ ds', newChannelRounds devEUI maxChannels wanted k ds = some ds' ∧
        differingIndices (mapEntries ds'.ExtraUplinkChannels) wanted =
          (differingIndices (mapEntries ds.ExtraUplinkChannels) wanted).drop
            (k * maxChannels.toNat) := by
  induction k with
  | zero =>
    intro ds _
    exact ⟨ds, rfl, by simp⟩
  | succ k ih =>
    intro ds hne
    cases hreq : RequestNewChannels devEUI maxChannels (mapEntries ds.ExtraUplinkChannels)
        wanted with
    | error e =>
      rw [requestNewChannels_eq_spec devEUI maxChannels _ wanted (by omega)] at hreq
      cases hreq
    | ok res =>
      cases res with
      | none =>
        have hnil := (requestNewChannels_nil_iff devEUI maxChannels _ wanted hmax).mp hreq
        obtain ⟨ds', hrun, hD⟩ := ih ds hne
        refine ⟨ds', ?_, ?_⟩
        · simp only [newChannelRounds, newChannelRound, hreq]
          exact hrun
        · rw [hD, hnil]
          simp
      | some block =>
        have hD0 : differingIndices (mapEntries ds.ExtraUplinkChannels) wanted ≠ [] := by
          intro h
          rw [(requestNewChannels_nil_iff devEUI maxChannels _ wanted hmax).mpr h] at hreq
          cases hreq
        obtain ⟨ds₁, hhandle, hD₁, hblen, -, hkeep⟩ :=
          differingIndices_after_acknowledge devEUI maxChannels wanted ds block
            (acknowledgeAll block) (by omega) hwant hreq
            (by simp [acknowledgeAll])
            (by
              intro cmd hc
              simp only [acknowledgeAll, List.mem_map] at hc
              obtain ⟨_, -, rfl⟩ := hc
              exact ⟨_, rfl, rfl, rfl⟩)
            (hne hD0)
        obtain ⟨ds', hrun, hD⟩ := ih ds₁ (fun _ => hkeep)
        refine ⟨ds', ?_, ?_⟩
        · simp only [newChannelRounds, newChannelRound, hreq, hhandle]
          exact hrun
        · rw [hD, hD₁, List.drop_drop, hblen]
          by_cases hle : maxChannels.toNat ≤
              (differingIndices (mapEntries ds.ExtraUplinkChannels) wanted).length
          · congr 1
            rw [min_eq_left hle, Nat.succ_mul]
            omega
          · rw [List.drop_eq_nil_of_le, List.drop_eq_nil_of_le]
            · rw [Nat.succ_mul]; omega
            · rw [min_eq_right (by omega)]; omega

/-- C21 as stated fails: on a session whose `ExtraUplinkChannels` is the nil map (the
zero-value session), `RequestNewChannels` returns a block for the wanted channel 3, and
the handler panics at the acknowledged command instead of updating the map. -/
theorem roundReducesDiffering_counterexample :
    RequestNewChannels 0 1 (mapEntries zeroDeviceSession.ExtraUplinkChannels)
        [(3, ⟨867100000, 0, 5⟩)] =
      .ok (some ⟨NewChannelReq, [⟨NewChannelReq, .newChannelReq ⟨3, 867100000, 0, 5⟩⟩]⟩) ∧
    handleNewChannelAns zeroDeviceSession
        ⟨NewChannelAns, [⟨NewChannelAns, .newChannelAns ⟨true, true⟩⟩]⟩
        (some ⟨NewChannelReq, [⟨NewChannelReq, .newChannelReq ⟨3, 867100000, 0, 5⟩⟩]⟩) =
      .error (GoPanic.assignmentToEntryInNilMap, zeroDeviceSession) ∧
    ¬ roundReducesDiffering 0 1 [(3, ⟨867100000, 0, 5⟩)] zeroDeviceSession := by
  have h1 : RequestNewChannels 0 1 (mapEntries zeroDeviceSession.ExtraUplinkChannels)
        [(3, ⟨867100000, 0, 5⟩)] =
      .ok (some ⟨NewChannelReq, [⟨NewChannelReq, .newChannelReq ⟨3, 867100000, 0, 5⟩⟩]⟩) := by
    decide
  have h2 : handleNewChannelAns zeroDeviceSession
        ⟨NewChannelAns, [⟨NewChannelAns, .newChannelAns ⟨true, true⟩⟩]⟩
        (some ⟨NewChannelReq, [⟨NewChannelReq, .newChannelReq ⟨3, 867100000, 0, 5⟩⟩]⟩) =
      .error (GoPanic.assignmentToEntryInNilMap, zeroDeviceSession) := by decide
  refine ⟨h1, h2, ?_⟩
  intro h
  obtain ⟨ds', r, hrun, -⟩ := h _
    ⟨NewChannelAns, [⟨NewChannelAns, .newChannelAns ⟨true, true⟩⟩]⟩ h1 rfl (by
      intro cmd hc
      rw [List.mem_singleton] at hc
      subst hc
      exact ⟨_, rfl, rfl, rfl⟩)
  rw [h2] at hrun
  cases hrun

/-- C21, amended: for `maxChannels >= 1` and wanted channels whose indices, MinDR and MaxDR
lie in 0..255 and whose frequencies are 32-bit values (on the entries of the current
channels nothing is assumed), on a session whose `ExtraUplinkChannels` is not the nil
map: when `RequestNewChannels` returns a block for the session's `ExtraUplinkChannels` and
`handleNewChannelAns` gets an answer with ChannelFrequencyOK and DataRateRangeOK for every
command of it, the handler accepts, the map is still not nil, and the number of wanted
indices that differ from the updated `ExtraUplinkChannels` is smaller by exactly the
block's length.  Hence, with `D` the initial differing indices, on a session whose
`ExtraUplinkChannels` is not the nil map unless `D` is empty, after
`ceil(|D| / maxChannels)` rounds of request and acknowledgement `RequestNewChannels`
returns nil, and after fewer rounds it still returns a block. -/
theorem newChannelRounds_terminate (devEUI : EUI64) (maxChannels : Int)
    (wanted : ChannelMap) (hmax : 1 ≤ maxChannels)
    (hwant : ∀ i w, mapGet wanted i = some w →
      0 ≤ i ∧ i < 256 ∧ 0 ≤ w.MinDR ∧ w.MinDR < 256 ∧ 0 ≤ w.MaxDR ∧ w.MaxDR < 256 ∧
        w.Frequency < 4294967296) :
    (∀ (ds : DeviceSession) (block answers : MACCommandBlock),
      ds.ExtraUplinkChannels ≠ none →
      RequestNewChannels devEUI maxChannels (mapEntries ds.ExtraUplinkChannels) wanted =
        .ok (some block) →
      answers.MACCommands.length = block.MACCommands.length →
      (∀ cmd ∈ answers.MACCommands, ∃ pl, cmd.Payload = .newChannelAns pl ∧
        pl.ChannelFrequencyOK = true ∧ pl.DataRateRangeOK = true) →
      ∃ ds', handleNewChannelAns ds answers (some block) = .ok (ds', .ok []) ∧
        ds'.ExtraUplinkChannels ≠ none ∧
        (differingIndices (mapEntries ds'.ExtraUplinkChannels) wanted).length +
            block.MACCommands.length =
          (differingIndices (mapEntries ds.ExtraUplinkChannels) wanted).length) ∧
    (∀ ds : DeviceSession,
      (differingIndices (mapEntries ds.ExtraUplinkChannels) wanted ≠ [] →
        ds.ExtraUplinkChannels ≠ none) →
      (∃ ds', newChannelRounds devEUI maxChannels wanted
          (((differingIndices (mapEntries ds.ExtraUplinkChannels) wanted).length +
            maxChannels.toNat - 1) / maxChannels.toNat) ds = some ds' ∧
        RequestNewChannels devEUI maxChannels (mapEntries ds'.ExtraUplinkChannels) wanted =
          .ok none) ∧
      (∀ k, k < ((differingIndices (mapEntries ds.ExtraUplinkChannels) wanted).length +
            maxChannels.toNat - 1) / maxChannels.toNat →
        ∃ ds' block, newChannelRounds devEUI maxChannels wanted k ds = some ds' ∧
          RequestNewChannels devEUI maxChannels (mapEntries ds'.ExtraUplinkChannels)
            wanted = .ok (some block))) := by
  constructor
  · intro ds block answers hne hreq hlen hans
    obtain ⟨ds', hhandle, hD, hblen, -, hkeep⟩ :=
      differingIndices_after_acknowledge devEUI maxChannels wanted ds block answers
        (by omega) hwant hreq hlen hans hne
    refine ⟨ds', hhandle, hkeep, ?_⟩
    rw [hD, List.length_drop, hblen]
    omega
  · intro ds hne
    have hm : 1 ≤ maxChannels.toNat := by omega
    have hdiv := Nat.div_add_mod
      ((differingIndices (mapEntries ds.ExtraUplinkChannels) wanted).length +
        maxChannels.toNat - 1)
      maxChannels.toNat
    have hmod := Nat.mod_lt
      ((differingIndices (mapEntries ds.ExtraUplinkChannels) wanted).length +
        maxChannels.toNat - 1)
      (show maxChannels.toNat > 0 by omega)
    rw [Nat.mul_comm] at hdiv
    constructor
    · obtain ⟨ds', hrun, hD⟩ := newChannelRounds_differing devEUI maxChannels wanted hmax
        hwant (((differingIndices (mapEntries ds.ExtraUplinkChannels) wanted).length +
          maxChannels.toNat - 1) / maxChannels.toNat) ds hne
      refine ⟨ds', hrun, ?_⟩
      rw [requestNewChannels_nil_iff devEUI maxChannels _ wanted hmax, hD]
      apply List.drop_eq_nil_of_le
      omega
    · intro k hk
      obtain ⟨ds', hrun, hD⟩ := newChannelRounds_differing devEUI maxChannels wanted hmax
        hwant k ds hne
      have hle : (k + 1) * maxChannels.toNat ≤
          (((differingIndices (mapEntries ds.ExtraUplinkChannels) wanted).length +
            maxChannels.toNat - 1) / maxChannels.toNat) * maxChannels.toNat :=
        Nat.mul_le_mul_right _ hk
      rw [Nat.succ_mul] at hle
      have hne' : differingIndices (mapEntries ds'.ExtraUplinkChannels) wanted ≠ [] := by
        rw [hD]
        intro h
        have := List.drop_eq_nil_iff.mp h
        omega
      cases hreq : RequestNewChannels devEUI maxChannels
          (mapEntries ds'.ExtraUplinkChannels) wanted with
      | error e =>
        rw [requestNewChannels_eq_spec devEUI maxChannels _ wanted (by omega)] at hreq
        cases hreq
      | ok res =>
        cases res with
        | none =>
          exact absurd
            ((requestNewChannels_nil_iff devEUI maxChannels _ wanted hmax).mp hreq) hne'
        | some block => exact ⟨ds', block, hrun, hreq⟩

/-- The instance of `newChannelRounds_terminate` at `maxChannels = 2` and three wanted
channels 3, 4, 5 for a session with an allocated, empty map of extra channels: two rounds,
then nil. -/
theorem newChannelRounds_terminate_witness :
    differingIndices []
      [(3, ⟨867100000, 0, 5⟩), (4, ⟨867300000, 0, 5⟩), (5, ⟨867500000, 0, 5⟩)] =
      [3, 4, 5] ∧
    newChannelRounds 0 2
      [(3, ⟨867100000, 0, 5⟩), (4, ⟨867300000, 0, 5⟩), (5, ⟨867500000, 0, 5⟩)] 2
      ⟨1, [0, 1, 2], some [], some [], 1, 3, 1⟩ =
      some ⟨1, [0, 1, 2, 3, 4, 5],
        some [(5, ⟨867500000, 0, 5⟩), (4, ⟨867300000, 0, 5⟩), (3, ⟨867100000, 0, 5⟩)],
        some [], 1, 3, 1⟩ ∧
    ∃ ds', newChannelRounds 0 2
        [(3, ⟨867100000, 0, 5⟩), (4, ⟨867300000, 0, 5⟩), (5, ⟨867500000, 0, 5⟩)]
        (((differingIndices
            (mapEntries (DeviceSession.mk 1 [0, 1, 2] (some []) (some []) 1 3
              1).ExtraUplinkChannels)
            [(3, ⟨867100000, 0, 5⟩), (4, ⟨867300000, 0, 5⟩),
              (5, ⟨867500000, 0, 5⟩)]).length +
          (2 : Int).toNat - 1) / (2 : Int).toNat)
        ⟨1, [0, 1, 2], some [], some [], 1, 3, 1⟩ = some ds' ∧
      RequestNewChannels 0 2 (mapEntries ds'.ExtraUplinkChannels)
        [(3, ⟨867100000, 0, 5⟩), (4, ⟨867300000, 0, 5⟩), (5, ⟨867500000, 0, 5⟩)] =
        .ok none :=
  ⟨by decide, by decide,
   ((newChannelRounds_terminate 0 2
      [(3, ⟨867100000, 0, 5⟩), (4, ⟨867300000, 0, 5⟩), (5, ⟨867500000, 0, 5⟩)]
      (by decide)
      (by
        intro i w hw
        simp only [mapGet] at hw
        split at hw
        · cases hw; subst i; decide
        · split at hw
          · cases hw; subst i; decide
          · split at hw
            · cases hw; subst i; decide
            · cases hw)).2 ⟨1, [0, 1, 2], some [], some [], 1, 3, 1⟩ (by intro _; simp)).1⟩

end ChirpStack
